import Mathlib

/-!
Verification of the codeview graph-extraction engine (crate `codeview-rustdoc`,
with the graph model of `codeview-core`) against its specification.

The Rust sources are shallowly embedded:

* Strings stay `String`; Rust `Vec<T>` becomes `List T`; `HashMap<K, V>` becomes
  an association list `List (K × V)` whose per-key insertion order mirrors the
  Rust `Vec` payloads (iteration order of a Rust `HashMap` is unspecified, so
  statements proved here are order-insensitive or are stated on the association
  order).
* The rustdoc input types (`rustdoc_types` crate) are embedded by the subset of
  constructors the verified code paths inspect: items without generic
  parameters, types built from resolved paths / primitives / generics / tuples /
  slices / references, plain or unit structs, and attributes already rendered
  to strings (the `Attribute::Other` constructor, on which `attribute_to_string`
  is the identity).  Every equation of every embedded function is a direct
  transcription of the corresponding Rust arm for these constructors.
* Syntactic source files (parsed by `syn` in Rust) are embedded post-parse: a
  file is a list of items, and a function body is embedded as the list of call
  expressions the `CallCollector` visitor would extract from it.  File-module
  recursion is embedded with an explicit fuel parameter; fuel sufficiency is
  proved, which is the termination argument of the Rust recursion.
-/

namespace Codeview

/-!
String primitives.  Rust `str::ends_with`, `str::starts_with`,
`str::replace(char, str)` and `str::split` are embedded over the character
list of the string (`String.data`), because the corresponding Lean `String`
functions are defined through `Substring` byte positions and do not reduce in
the kernel.  On the character level these definitions are exactly the Rust
semantics.
-/

/-- Rust `s.ends_with(pat)`. -/
def str_ends_with (s pat : String) : Bool :=
  pat.data.isSuffixOf s.data

/-- Rust `s.starts_with(pat)`. -/
def str_starts_with (s pat : String) : Bool :=
  pat.data.isPrefixOf s.data

/-- Rust `s.replace(c, r)` for a single-character pattern and replacement. -/
def str_replace_char (s : String) (c r : Char) : String :=
  ⟨s.data.map (fun ch => if ch = c then r else ch)⟩

/-- The characters before the first occurrence of `"::"`:
`id.split("::").next().unwrap_or(id)`. -/
def chars_before_double_colon : List Char → List Char
  | [] => []
  | ':' :: ':' :: _ => []
  | c :: rest => c :: chars_before_double_colon rest

/-- `codeview_core::Confidence`. -/
inductive Confidence where
  | Static
  | Runtime
  | Inferred
deriving DecidableEq, Repr

/-- `codeview_core::EdgeKind`. -/
inductive EdgeKind where
  | Contains
  | Defines
  | Implements
  | UsesType
  | CallsStatic
  | CallsRuntime
  | Derives
  | ReExports
deriving DecidableEq, Repr

/-- `codeview_core::NodeKind`. -/
inductive NodeKind where
  | Crate
  | Module
  | Struct
  | Union
  | Enum
  | Trait
  | TraitAlias
  | Impl
  | Function
  | Method
  | TypeAlias
deriving DecidableEq, Repr

/-- `codeview_core::ImplType`. -/
inductive ImplType where
  | Trait
  | Inherent
deriving DecidableEq, Repr

/-- `codeview_core::Visibility`. -/
inductive Visibility where
  | Public
  | Crate
  | Restricted
  | Inherited
  | Unknown
deriving DecidableEq, Repr

/-- `codeview_core::Span` (line/column numbers as `Nat`). -/
structure Span where
  file : String
  line : Nat
  column : Nat
  end_line : Option Nat
  end_column : Option Nat
deriving DecidableEq, Repr

/-- `codeview_core::FieldInfo`. -/
structure FieldInfo where
  name : String
  type_name : String
  visibility : Visibility
deriving DecidableEq, Repr

/-- `codeview_core::VariantInfo`. -/
structure VariantInfo where
  name : String
  fields : List FieldInfo
deriving DecidableEq, Repr

/-- `codeview_core::ArgumentInfo`. -/
structure ArgumentInfo where
  name : String
  type_name : String
deriving DecidableEq, Repr

/-- `codeview_core::FunctionSignature`. -/
structure FunctionSignature where
  inputs : List ArgumentInfo
  output : Option String
  is_async : Bool
  is_unsafe : Bool
  is_const : Bool
deriving DecidableEq, Repr

/-- `codeview_core::Node`.  The fields are those of the `codeview-core` struct;
`where_clause` and `bound_links` are the two additional fields the extractor in
`codeview-rustdoc` populates on the node (maps become association lists). -/
structure Node where
  id : String
  name : String
  kind : NodeKind
  visibility : Visibility
  span : Option Span
  attrs : List String
  is_external : Bool
  fields : Option (List FieldInfo)
  variants : Option (List VariantInfo)
  signature : Option FunctionSignature
  generics : Option (List String)
  where_clause : Option (List String)
  docs : Option String
  doc_links : List (String × String)
  bound_links : List (String × String)
  impl_type : Option ImplType
  parent_impl : Option String
  impl_trait : Option String
deriving DecidableEq, Repr

/-- `codeview_core::Edge` (`from` is a Lean keyword, hence `from_`). -/
structure Edge where
  from_ : String
  to_ : String
  kind : EdgeKind
  confidence : Confidence
deriving DecidableEq, Repr

/-- `codeview_core::Graph` (the `crate_versions`/`repo`/`ref` metadata fields
are never read by the verified passes and are omitted). -/
structure Graph where
  nodes : List Node
  edges : List Edge
deriving DecidableEq, Repr

/-- `Graph::new`. -/
def Graph.new : Graph := ⟨[], []⟩

/-- The `{:?}` (Debug) rendering of an `EdgeKind`, as used in edge-cache keys. -/
def edge_kind_debug : EdgeKind → String
  | .Contains => "Contains"
  | .Defines => "Defines"
  | .Implements => "Implements"
  | .UsesType => "UsesType"
  | .CallsStatic => "CallsStatic"
  | .CallsRuntime => "CallsRuntime"
  | .Derives => "Derives"
  | .ReExports => "ReExports"

/-- The deduplication key `format!("{from}|{to}|{kind:?}")` used by `push_edge`
and by the edge merge in `load_workspace_graph`. -/
def edge_key_of (from_ to_ : String) (kind : EdgeKind) : String :=
  from_ ++ "|" ++ to_ ++ "|" ++ edge_kind_debug kind

/-- The key of an edge. -/
def Edge.key (e : Edge) : String :=
  edge_key_of e.from_ e.to_ e.kind

/-- The `(from, to, kind)` triple of an edge. -/
def Edge.triple (e : Edge) : String × String × EdgeKind :=
  (e.from_, e.to_, e.kind)

/-- `CallMode`. -/
inductive CallMode where
  | Strict
  | Ambiguous
deriving DecidableEq, Repr

/-- `CallMode::allow_ambiguous`. -/
def CallMode.allow_ambiguous : CallMode → Bool
  | .Strict => false
  | .Ambiguous => true

/-- `merge_confidence`. -/
def merge_confidence : Confidence → Confidence → Confidence
  | .Runtime, _ => .Runtime
  | _, .Runtime => .Runtime
  | .Static, _ => .Static
  | _, .Static => .Static
  | _, _ => .Inferred

/-- `resolve_all_by_suffix`: all indexed paths ending in `::s1::…::sk`. -/
def resolve_all_by_suffix (paths : List String) (segments : List String) : List String :=
  if segments.isEmpty then []
  else
    let suffix := "::" ++ String.intercalate "::" segments
    paths.filter (fun path => str_ends_with path suffix)

/-- `resolve_by_suffix`: the unique suffix match, if exactly one path matches. -/
def resolve_by_suffix (paths : List String) (segments : List String) : Option String :=
  let matches_ := resolve_all_by_suffix paths segments
  if matches_.length = 1 then matches_.getLast? else none

/-- `resolve_by_name`: the paths stored under a bare name. -/
def resolve_by_name (map : List (String × List String)) (name : String) : List String :=
  (map.lookup name).getD []

/-- `resolve_by_unique_name`. -/
def resolve_by_unique_name (map : List (String × List String)) (name : String) :
    Option String :=
  let paths := resolve_by_name map name
  if paths.length = 1 then paths.head? else none

/-- Push `v` onto the `Vec` stored at key `k` of a `HashMap<String, Vec<_>>`
(`map.entry(k).or_default().push(v)`). -/
def assoc_push {α : Type} (map : List (String × List α)) (k : String) (v : α) :
    List (String × List α) :=
  match map with
  | [] => [(k, [v])]
  | (k₁, vs) :: rest =>
      if k₁ = k then (k₁, vs ++ [v]) :: rest else (k₁, vs) :: assoc_push rest k v

/-- Remove the entry at key `k` of a `HashMap<String, Vec<_>>`, returning its
`Vec` (`remove(k).unwrap_or_default()`) and the remaining map. -/
def assoc_remove {α : Type} (map : List (String × List α)) (k : String) :
    List α × List (String × List α) :=
  match map with
  | [] => ([], [])
  | (k₁, vs) :: rest =>
      if k₁ = k then (vs, rest)
      else
        let r := assoc_remove rest k
        (r.1, (k₁, vs) :: r.2)

/-- `FunctionIndex`. -/
structure FunctionIndex where
  callables : List String
  callables_by_name : List (String × List String)
  methods : List String
  methods_by_name : List (String × List String)
deriving DecidableEq, Repr

/-- `FunctionIndex::new`. -/
def FunctionIndex.new : FunctionIndex := ⟨[], [], [], []⟩

/-- `FunctionIndex::add_callable`. -/
def FunctionIndex.add_callable (idx : FunctionIndex) (path name : String) : FunctionIndex :=
  { idx with
    callables := idx.callables ++ [path]
    callables_by_name := assoc_push idx.callables_by_name name path }

/-- `FunctionIndex::add_method`. -/
def FunctionIndex.add_method (idx : FunctionIndex) (path name : String) : FunctionIndex :=
  { idx with
    methods := idx.methods ++ [path]
    methods_by_name := assoc_push idx.methods_by_name name path }

/-- `FunctionIndex::resolve_callable_by_suffix`. -/
def FunctionIndex.resolve_callable_by_suffix (idx : FunctionIndex)
    (segments : List String) : Option String :=
  resolve_by_suffix idx.callables segments

/-- `FunctionIndex::resolve_callable_by_suffix_all`. -/
def FunctionIndex.resolve_callable_by_suffix_all (idx : FunctionIndex)
    (segments : List String) : List String :=
  resolve_all_by_suffix idx.callables segments

/-- `FunctionIndex::resolve_method_by_suffix`. -/
def FunctionIndex.resolve_method_by_suffix (idx : FunctionIndex)
    (segments : List String) : Option String :=
  resolve_by_suffix idx.methods segments

/-- `FunctionIndex::resolve_method_by_suffix_all`. -/
def FunctionIndex.resolve_method_by_suffix_all (idx : FunctionIndex)
    (segments : List String) : List String :=
  resolve_all_by_suffix idx.methods segments

/-- `FunctionIndex::resolve_callable_by_name_unique`. -/
def FunctionIndex.resolve_callable_by_name_unique (idx : FunctionIndex)
    (name : String) : Option String :=
  resolve_by_unique_name idx.callables_by_name name

/-- `FunctionIndex::resolve_callable_by_name_all`. -/
def FunctionIndex.resolve_callable_by_name_all (idx : FunctionIndex)
    (name : String) : List String :=
  resolve_by_name idx.callables_by_name name

/-- `FunctionIndex::resolve_method_by_name_unique`. -/
def FunctionIndex.resolve_method_by_name_unique (idx : FunctionIndex)
    (name : String) : Option String :=
  resolve_by_unique_name idx.methods_by_name name

/-- `FunctionIndex::resolve_method_by_name_all`. -/
def FunctionIndex.resolve_method_by_name_all (idx : FunctionIndex)
    (name : String) : List String :=
  resolve_by_name idx.methods_by_name name

/-- `PathAnchor`. -/
inductive PathAnchor where
  | Relative
  | Crate
  | Self_
  | Super (count : Nat)
deriving DecidableEq, Repr

/-- The loop of `split_path_anchor`; `count` is the number of `super` segments
consumed so far. -/
def split_path_anchor_go : List String → Nat → PathAnchor × List String
  | [], count => (if count = 0 then .Relative else .Super count, [])
  | seg :: rest, count =>
      if seg = "crate" then (.Crate, rest)
      else if seg = "self" ∨ seg = "Self" then (.Self_, rest)
      else if seg = "super" then split_path_anchor_go rest (count + 1)
      else (if count = 0 then .Relative else .Super count, seg :: rest)

/-- `split_path_anchor`. -/
def split_path_anchor (segments : List String) : PathAnchor × List String :=
  split_path_anchor_go segments 0

/-- `scoped_segments`. -/
def scoped_segments (anchor : PathAnchor) (rest module_path : List String) :
    List String :=
  let base : List String :=
    match anchor with
    | .Crate => []
    | .Super count => module_path.take (module_path.length - count)
    | .Self_ => module_path
    | .Relative => module_path
  base ++ rest

/-- `TypeSegments`. -/
structure TypeSegments where
  segments : List String
  is_scoped : Bool
deriving DecidableEq, Repr

/-- `resolve_type_segments`. -/
def resolve_type_segments (segments module_path : List String) : TypeSegments :=
  let (anchor, rest) := split_path_anchor segments
  match anchor with
  | .Crate => ⟨rest, true⟩
  | .Super _ => ⟨scoped_segments anchor rest module_path, true⟩
  | .Self_ => ⟨rest, false⟩
  | .Relative => ⟨rest, false⟩

/-- One entry step of `SourceParser::add_candidates`:
`candidates.entry(c).or_insert(conf); *entry = merge_confidence(*entry, conf)`. -/
def insert_candidate (cands : List (String × Confidence)) (c : String)
    (conf : Confidence) : List (String × Confidence) :=
  if cands.any (fun p => p.1 = c) then
    cands.map (fun p => if p.1 = c then (p.1, merge_confidence p.2 conf) else p)
  else cands ++ [(c, conf)]

/-- `SourceParser::add_candidates`.  Returns the updated candidate map and the
boolean the Rust method returns. -/
def add_candidates (mode : CallMode) (cands : List (String × Confidence))
    (matches_ : List String) : List (String × Confidence) × Bool :=
  if matches_.isEmpty then (cands, false)
  else
    let confidence := if matches_.length = 1 then Confidence.Static else Confidence.Inferred
    if matches_.length > 1 ∧ mode.allow_ambiguous = false then (cands, false)
    else (matches_.foldl (fun cs c => insert_candidate cs c confidence) cands, true)

/-- `SourceParser::resolve_callee_path_candidates`. -/
def resolve_callee_path_candidates (idx : FunctionIndex) (mode : CallMode)
    (segments module_path : List String) : List (String × Confidence) :=
  let split := split_path_anchor segments
  let anchor := split.1
  let rest := split.2
  let normalized := rest
  if normalized.isEmpty then []
  else
    let step₁ :=
      if anchor = PathAnchor.Relative then
        add_candidates mode [] (idx.resolve_callable_by_suffix_all normalized)
      else ([], false)
    let scopedSegs := scoped_segments anchor rest module_path
    let step₂ := add_candidates mode step₁.1 (idx.resolve_callable_by_suffix_all scopedSegs)
    let found := step₁.2 || step₂.2
    if found = false ∧ normalized.length = 1 ∧ anchor = PathAnchor.Relative then
      (add_candidates mode step₂.1
        (idx.resolve_callable_by_name_all (normalized.headD ""))).1
    else step₂.1

/-- `SourceParser::resolve_callee_method_candidates`. -/
def resolve_callee_method_candidates (idx : FunctionIndex) (mode : CallMode)
    (name : String) (module_path : List String)
    (self_type_segments : Option TypeSegments) : List (String × Confidence) :=
  let step₁ :=
    match self_type_segments with
    | none => (([] : List (String × Confidence)), false)
    | some ts =>
        let direct := add_candidates mode [] (idx.resolve_method_by_suffix_all (ts.segments ++ [name]))
        if ts.is_scoped = false then
          let scopedStep := add_candidates mode direct.1
            (idx.resolve_method_by_suffix_all (module_path ++ ts.segments ++ [name]))
          (scopedStep.1, direct.2 || scopedStep.2)
        else direct
  if step₁.2 = false then
    (add_candidates mode step₁.1 (idx.resolve_method_by_name_all name)).1
  else step₁.1

/-- `SourceParser::resolve_free_fn_caller`. -/
def resolve_free_fn_caller (idx : FunctionIndex) (module_path : List String)
    (name : String) : Option String :=
  (idx.resolve_callable_by_suffix (module_path ++ [name])).orElse
    (fun _ => idx.resolve_callable_by_name_unique name)

/-!
Workspace merge (`load_workspace_graph`).  The I/O of that function (reading
cargo metadata and the per-crate rustdoc JSON files) is outside the embedding;
the function below is its merge body, taking the already-loaded per-crate
graphs, the workspace member names and the crate version table as inputs.
-/

/-- `node_completeness_score`. -/
def node_completeness_score (node : Node) : Nat :=
  (if node.span.isSome then 1 else 0) +
  (if node.fields.isSome then 2 else 0) +
  (if node.variants.isSome then 2 else 0) +
  (if node.signature.isSome then 2 else 0) +
  (if node.generics.isSome then 1 else 0) +
  (if node.docs.isSome then 1 else 0) +
  (if node.attrs.isEmpty then 0 else 1) +
  (if node.visibility = Visibility.Unknown then 0 else 1)

/-- `node_is_more_complete`. -/
def node_is_more_complete (new existing : Node) : Bool :=
  if new.is_external = false ∧ existing.is_external = true then true
  else if new.is_external = true ∧ existing.is_external = false then false
  else decide (node_completeness_score existing < node_completeness_score new)

/-- One step of the node merge loop of `load_workspace_graph`: insert a node
into the `nodes_by_id` table (`Vacant` inserts; `Occupied` replaces the entry
when the incoming node `node_is_more_complete`). -/
def merge_node_insert (acc : List Node) (node : Node) : List Node :=
  if acc.any (fun n => n.id = node.id) then
    acc.map (fun n =>
      if n.id = node.id then if node_is_more_complete node n then node else n
      else n)
  else acc ++ [node]

/-- The node merge of `load_workspace_graph` over all member graphs. -/
def merge_graph_nodes (graphs : List Graph) : List Node :=
  graphs.foldl (fun acc g => g.nodes.foldl merge_node_insert acc) []

/-- One step of the edge merge of `load_workspace_graph`: deduplicate by the
`from|to|kind` key. -/
def merge_edge_step (acc : List String × List Edge) (e : Edge) :
    List String × List Edge :=
  if e.key ∈ acc.1 then acc else (e.key :: acc.1, acc.2 ++ [e])

/-- The edge merge of `load_workspace_graph` over all member graphs. -/
def merge_graph_edges (graphs : List Graph) : List Edge :=
  (graphs.foldl (fun acc g => g.edges.foldl merge_edge_step acc) ([], [])).2

/-- `node_crate` (the closure in `load_workspace_graph`):
`id.split("::").next().unwrap_or(id)`. -/
def node_crate (id : String) : String :=
  ⟨chars_before_double_colon id.data⟩

/-- The `crate_nodes` grouping of `load_workspace_graph`. -/
def group_nodes_by_crate (nodes : List Node) : List (String × List Node) :=
  nodes.foldl (fun m n => assoc_push m (node_crate n.id) n) []

/-- One step of the edge partition of `load_workspace_graph`: an edge whose
endpoints share a leading segment is grouped under that crate, the rest go to
`cross_crate_edges`. -/
def partition_step (acc : List (String × List Edge) × List Edge) (e : Edge) :
    List (String × List Edge) × List Edge :=
  let from_crate := node_crate e.from_
  let to_crate := node_crate e.to_
  if from_crate = to_crate then (assoc_push acc.1 from_crate e, acc.2)
  else (acc.1, acc.2 ++ [e])

/-- The edge partition of `load_workspace_graph`: intra-crate edges are grouped
under their crate, the rest become `cross_crate_edges`. -/
def partition_edges (edges : List Edge) :
    List (String × List Edge) × List Edge :=
  edges.foldl partition_step ([], [])

/-- Modelled from the spec: `codeview_core::CrateGraph` (§3 Workspace; the
`codeview-core` revision in the snapshot predates this type, so its fields are
taken from its construction in `load_workspace_graph`). -/
structure CrateGraph where
  id : String
  name : String
  version : String
  nodes : List Node
  edges : List Edge
deriving DecidableEq, Repr

/-- Modelled from the spec: `codeview_core::ExternalCrate` (§3 Workspace; stub
entry of ID, name and nodes for a non-member package). -/
structure ExternalCrate where
  id : String
  name : String
  nodes : List Node
deriving DecidableEq, Repr

/-- Modelled from the spec: `codeview_core::Workspace` (§3; three buckets plus
schema version and source-origin fields). -/
structure Workspace where
  version : Nat
  crates : List CrateGraph
  external_crates : List ExternalCrate
  cross_crate_edges : List Edge
  repo : Option String
  ref_ : Option String
deriving DecidableEq, Repr

/-- Modelled from the spec: `codeview_core::SCHEMA_VERSION` (§4.1 integer
schema version; its concrete value is not used by any claim). -/
def SCHEMA_VERSION : Nat := 1

/-- Character-list lexicographic order, the order of Rust `str::cmp`. -/
def chars_le : List Char → List Char → Bool
  | [], _ => true
  | _ :: _, [] => false
  | a :: as_, b :: bs =>
      if a < b then true else if b < a then false else chars_le as_ bs

/-- Rust `String::cmp` as a `≤` test. -/
def str_le (s t : String) : Bool :=
  chars_le s.data t.data

/-- Insertion into a list sorted by `le`. -/
def insert_le {α : Type} (le : α → α → Bool) (a : α) : List α → List α
  | [] => [a]
  | b :: rest => if le a b then a :: b :: rest else b :: insert_le le a rest

/-- Insertion sort by `le` (the model of the `sort`/`sort_by` calls in
`load_workspace_graph`; only the ordering matters to the claims). -/
def sort_le {α : Type} (le : α → α → Bool) (l : List α) : List α :=
  l.foldr (insert_le le) []

/-- One step of the member loop of `load_workspace_graph`: move the member's
node and edge buckets out of the tables into a `CrateGraph`. -/
def member_step (crate_versions : List (String × String))
    (acc : List CrateGraph × List (String × List Node) × List (String × List Edge))
    (member : String) :
    List CrateGraph × List (String × List Node) × List (String × List Edge) :=
  let rn := assoc_remove acc.2.1 member
  let re := assoc_remove acc.2.2 member
  let version := (crate_versions.lookup member).getD "0.0.0"
  (acc.1 ++ [⟨member, member, version, rn.1, re.1⟩], rn.2, re.2)

/-- One step of the external-crate loop of `load_workspace_graph`: move the
remaining crate's nodes into an `ExternalCrate` stub; its edge bucket is
removed and dropped (`let _edges = crate_edges.remove(&crate_name)`). -/
def ext_step
    (acc : List ExternalCrate × List (String × List Node) × List (String × List Edge))
    (ext_name : String) :
    List ExternalCrate × List (String × List Node) × List (String × List Edge) :=
  let rn := assoc_remove acc.2.1 ext_name
  let re := assoc_remove acc.2.2 ext_name
  (acc.1 ++ [⟨ext_name, ext_name, rn.1⟩], rn.2, re.2)

/-- The merge body of `load_workspace_graph`: merge nodes by ID, deduplicate
edges by `(from, to, kind)`, partition by owning crate, assemble member
`CrateGraph`s and `ExternalCrate` stubs. -/
def load_workspace_merge (graphs : List Graph) (workspace_members : List String)
    (crate_versions : List (String × String)) : Workspace :=
  let all_nodes := merge_graph_nodes graphs
  let edges := merge_graph_edges graphs
  let crate_nodes := group_nodes_by_crate all_nodes
  let part := partition_edges edges
  let mres := workspace_members.foldl (member_step crate_versions)
    ([], crate_nodes, part.1)
  let crate_graphs := sort_le (fun a b => str_le a.id b.id) mres.1
  let remaining_crate_names := sort_le str_le (mres.2.1.map Prod.fst)
  let eres := remaining_crate_names.foldl ext_step ([], mres.2.1, mres.2.2)
  { version := SCHEMA_VERSION
    crates := crate_graphs
    external_crates := eres.1
    cross_crate_edges := part.2
    repo := none
    ref_ := none }

/-!
The rustdoc input model (`rustdoc_types`), restricted to the constructor
subset listed in the file header: items carry no generic parameters (so every
`Generics` value is the empty one, on which `extract_generics`,
`extract_where_clause` and `extract_bound_links` return `none`/`none`/`{}`),
resolved paths carry no generic arguments, and attributes are the
`Attribute::Other` constructor, already rendered to strings.
-/

/-- `rustdoc_types::Id`. -/
abbrev RId := Nat

/-- `rustdoc_types::ItemKind`, with `Other` standing for every kind that
`map_item_kind` maps to `None` and no verified pass matches on. -/
inductive RItemKind where
  | Module
  | Struct
  | Union
  | Enum
  | Trait
  | TraitAlias
  | Impl
  | Function
  | TypeAlias
  | Other
deriving DecidableEq, Repr

/-- `rustdoc_types::Visibility`. -/
inductive RVisibility where
  | Public
  | Crate
  | Restricted
  | Default
deriving DecidableEq, Repr

/-- `rustdoc_types::Span`: filename and 1-indexed `(line, column)` bounds. -/
structure RSpan where
  filename : String
  begin_line : Nat
  begin_col : Nat
  end_line : Nat
  end_col : Nat
deriving DecidableEq, Repr

/-- `rustdoc_types::Path` (a resolved path with its display string; generic
arguments absent in the modeled subset). -/
structure RPath where
  path : String
  id : RId
deriving DecidableEq, Repr

/-- `rustdoc_types::Type`, modeled subset. -/
inductive RType where
  | resolvedPath (path : String) (id : RId)
  | generic (name : String)
  | primitive (name : String)
  | tuple (items : List RType)
  | slice (inner : RType)
  | borrowedRef (is_mutable : Bool) (inner : RType)

/-- `rustdoc_types::StructKind`, modeled subset (`Unit` and `Plain`). -/
inductive RStructKind where
  | unit
  | plain (fields : List RId)

/-- `rustdoc_types::FunctionSignature` (inputs as `(name, type)` pairs). -/
structure RFunctionSig where
  inputs : List (String × RType)
  output : Option RType

/-- `rustdoc_types::FunctionHeader`. -/
structure RFunctionHeader where
  is_async : Bool
  is_unsafe : Bool
  is_const : Bool
deriving DecidableEq, Repr

/-- `rustdoc_types::ItemEnum`, modeled subset. -/
inductive RItemEnum where
  | module (items : List RId)
  | struct_ (kind : RStructKind)
  | structField (ty : RType)
  | function (sig : RFunctionSig) (header : RFunctionHeader)
  | trait_ (items : List RId)
  | impl_ (trait_ : Option RPath) (for_ : RType) (items : List RId)
  | use_ (target : Option RId)

/-- `rustdoc_types::Item`.  `attrs` are the rendered attribute strings
(`Attribute::Other`), `links` is the intra-doc link table. -/
structure RItem where
  id : RId
  crate_id : Nat
  name : Option String
  visibility : RVisibility
  span : Option RSpan
  attrs : List String
  docs : Option String
  links : List (String × RId)
  inner : RItemEnum

/-- `rustdoc_types::ItemSummary`. -/
structure RSummary where
  crate_id : Nat
  path : List String
  kind : RItemKind
deriving DecidableEq, Repr

/-- `rustdoc_types::Crate`: the item index, the `paths` table and the external
crates table (ordinal → crate name). -/
structure RCrate where
  index : List (RId × RItem)
  paths : List (RId × RSummary)
  external_crates : List (Nat × String)

/-- `krate.index.get(&id)`. -/
def RCrate.index_get (krate : RCrate) (id : RId) : Option RItem :=
  krate.index.lookup id

/-- `krate.paths.get(&id)`. -/
def RCrate.paths_get (krate : RCrate) (id : RId) : Option RSummary :=
  krate.paths.lookup id

/-- The split of a path string on `"::"` (total; a string with no `"::"` is a
single segment). -/
def split_double_colon : List Char → List (List Char)
  | [] => [[]]
  | ':' :: ':' :: rest => [] :: split_double_colon rest
  | c :: rest =>
      match split_double_colon rest with
      | [] => [[c]]
      | seg :: segs => (c :: seg) :: segs

/-- `last_segment`: `path.split("::").last().unwrap_or(&path)`. -/
def last_segment (path : String) : String :=
  (((split_double_colon path.data).map (fun l => (⟨l⟩ : String))).getLast?).getD path

/-- `clean_path`: `path.rsplit("::").next().unwrap_or(path)` (the final
segment). -/
def clean_path (path : String) : String :=
  (((split_double_colon path.data).map (fun l => (⟨l⟩ : String))).getLast?).getD path

mutual

/-- `format_type`, modeled subset. -/
def format_type : RType → String
  | .resolvedPath p _ => clean_path p
  | .generic name => name
  | .primitive name => name
  | .tuple items => "(" ++ String.intercalate ", " (format_type_list items) ++ ")"
  | .slice inner => "[" ++ format_type inner ++ "]"
  | .borrowedRef is_mutable inner =>
      "&" ++ (if is_mutable then "mut " else "") ++ format_type inner

/-- The `map` of `format_type` over a type list. -/
def format_type_list : List RType → List String
  | [] => []
  | t :: ts => format_type t :: format_type_list ts

end

/-- `type_to_id`, modeled subset (`QualifiedPath` absent). -/
def type_to_id : RType → Option RId
  | .resolvedPath _ id => some id
  | _ => none

/-- `crate_name_for_id` (with the `-` → `_` normalization). -/
def crate_name_for_id (krate : RCrate) (crate_id : Nat) (fallback : String) : String :=
  match krate.external_crates.lookup crate_id with
  | some name => str_replace_char name '-' '_'
  | none => fallback

/-- `join_path`: the node ID of a rustdoc path, dropping a leading segment that
repeats the crate name. -/
def join_path (crate_name : String) (path : List String) : String :=
  if path.isEmpty then crate_name
  else
    let start := if path.head? = some crate_name then 1 else 0
    if path.length ≤ start then crate_name
    else crate_name ++ "::" ++ String.intercalate "::" (path.drop start)

/-- `parent_path_id`. -/
def parent_path_id (crate_name : String) (path : List String) : Option String :=
  if path.isEmpty then none
  else if path.length = 1 then some crate_name
  else some (join_path crate_name path.dropLast)

/-- `resolve_id`. -/
def resolve_id (krate : RCrate) (default_crate_name : String) (id : RId) :
    Option String :=
  (krate.paths_get id).map (fun summary =>
    join_path (crate_name_for_id krate summary.crate_id default_crate_name) summary.path)

/-- `impl_node_id`: `format!("{crate_name}::impl-{}", id.0)`. -/
def impl_node_id (crate_name : String) (id : RId) : String :=
  crate_name ++ "::impl-" ++ toString id

/-- `impl_node_name`. -/
def impl_node_name (krate : RCrate) (default_crate_name : String)
    (trait_ : Option RPath) (for_ : RType) : String :=
  let type_name :=
    (((type_to_id for_).bind (resolve_id krate default_crate_name)).map last_segment).getD "type"
  match trait_ with
  | some trait_path =>
      let trait_name :=
        ((resolve_id krate default_crate_name trait_path.id).map last_segment).getD
          (last_segment trait_path.path)
      "impl " ++ trait_name ++ " for " ++ type_name
  | none => "impl " ++ type_name

/-- `map_item_kind`. -/
def map_item_kind (kind : RItemKind) (is_method : Bool) : Option NodeKind :=
  match kind with
  | .Module => some .Module
  | .Struct => some .Struct
  | .Union => some .Union
  | .Enum => some .Enum
  | .Trait => some .Trait
  | .TraitAlias => some .TraitAlias
  | .Impl => some .Impl
  | .Function => some (if is_method then .Method else .Function)
  | .TypeAlias => some .TypeAlias
  | .Other => none

/-- `map_visibility`. -/
def map_visibility : RVisibility → Visibility
  | .Public => .Public
  | .Crate => .Crate
  | .Restricted => .Restricted
  | .Default => .Inherited

/-- `map_span`. -/
def map_span (span : RSpan) : Span :=
  { file := span.filename
    line := span.begin_line
    column := span.begin_col
    end_line := some span.end_line
    end_column := some span.end_col }

/-- The internal-path test of `build_graph` and `build_function_index`:
a segment equal to `_` or starting with `__`. -/
def is_internal_path (path : List String) : Bool :=
  path.any (fun seg => seg = "_" || str_starts_with seg "__")

/-- `format_attributes`: on the modeled `Attribute::Other` strings,
`attribute_to_string` is `Some` of the string itself. -/
def format_attributes (attrs : List String) : List String :=
  attrs

/-- Insert into a `HashSet<Id>` modeled as a duplicate-free list. -/
def rid_insert (s : List RId) (id : RId) : List RId :=
  if id ∈ s then s else s ++ [id]

/-- `HashMap::insert` on a string-keyed association list (replaces). -/
def links_insert (m : List (String × String)) (k v : String) :
    List (String × String) :=
  if m.any (fun p => p.1 = k) then
    m.map (fun p => if p.1 = k then (p.1, v) else p)
  else m ++ [(k, v)]

/-- `HashMap::extend` on string-keyed association lists. -/
def links_extend (m extra : List (String × String)) : List (String × String) :=
  extra.foldl (fun acc p => links_insert acc p.1 p.2) m

mutual

/-- `collect_type_ids` (with `collect_type_ids_list` for the `Tuple` arm). -/
def collect_type_ids : RType → List RId → List RId
  | .resolvedPath _ id, s => rid_insert s id
  | .generic _, s => s
  | .primitive _, s => s
  | .tuple items, s => collect_type_ids_list items s
  | .slice inner, s => collect_type_ids inner s
  | .borrowedRef _ inner, s => collect_type_ids inner s

/-- The fold of `collect_type_ids` over a type list. -/
def collect_type_ids_list : List RType → List RId → List RId
  | [], s => s
  | t :: ts, s => collect_type_ids_list ts (collect_type_ids t s)

end

mutual

/-- `collect_type_links`, modeled subset. -/
def collect_type_links (krate : RCrate) (crate_name : String) :
    RType → List (String × String) → List (String × String)
  | .resolvedPath p id, links =>
      (match resolve_id krate crate_name id with
       | some node_id => links_insert links (clean_path p) node_id
       | none => links)
  | .generic _, links => links
  | .primitive _, links => links
  | .tuple items, links => collect_type_links_list krate crate_name items links
  | .slice inner, links => collect_type_links krate crate_name inner links
  | .borrowedRef _ inner, links => collect_type_links krate crate_name inner links

/-- The fold of `collect_type_links` over a type list. -/
def collect_type_links_list (krate : RCrate) (crate_name : String) :
    List RType → List (String × String) → List (String × String)
  | [], links => links
  | t :: ts, links =>
      collect_type_links_list krate crate_name ts (collect_type_links krate crate_name t links)

end

/-- `collect_signature_ids`. -/
def collect_signature_ids (sig : RFunctionSig) (s : List RId) : List RId :=
  let s := sig.inputs.foldl (fun s p => collect_type_ids p.2 s) s
  match sig.output with
  | some output => collect_type_ids output s
  | none => s

/-- `collect_field_ids`. -/
def collect_field_ids (index : List (RId × RItem)) (fields : List RId)
    (s : List RId) : List RId :=
  fields.foldl
    (fun s field_id =>
      match index.lookup field_id with
      | some item =>
          match item.inner with
          | .structField field_type => collect_type_ids field_type s
          | _ => s
      | none => s)
    s

/-- `collect_struct_field_ids`, modeled subset. -/
def collect_struct_field_ids (index : List (RId × RItem)) (kind : RStructKind)
    (s : List RId) : List RId :=
  match kind with
  | .unit => s
  | .plain fields => collect_field_ids index fields s

/-- `collect_method_ids` (set membership only, so duplicates are harmless). -/
def collect_method_ids (krate : RCrate) : List RId :=
  krate.index.foldl
    (fun acc entry =>
      match entry.2.inner with
      | .impl_ _ _ items => acc ++ items
      | .trait_ items => acc ++ items
      | _ => acc)
    []

/-- `HashMap` entry-or-insert on a string-keyed association list of path lists
(`lookup.entry(k).or_insert_with(|| v)`). -/
def assoc_or_insert (m : List (String × List String)) (k : String)
    (v : List String) : List (String × List String) :=
  if m.any (fun p => p.1 = k) then m else m ++ [(k, v)]

/-- `build_trait_lookup`. -/
def build_trait_lookup (krate : RCrate) (default_crate_name : String) :
    List (String × List String) :=
  krate.paths.foldl
    (fun lookup entry =>
      let summary := entry.2
      if summary.kind ≠ RItemKind.Trait then lookup
      else
        let crate_name := crate_name_for_id krate summary.crate_id default_crate_name
        let full_path := join_path crate_name summary.path
        let lookup := assoc_or_insert lookup full_path [full_path]
        match summary.path.getLast? with
        | some name => assoc_push lookup name full_path
        | none => lookup)
    []

/-- `build_function_index`. -/
def build_function_index (krate : RCrate) (method_ids : List RId)
    (default_crate_name : String) : FunctionIndex :=
  krate.paths.foldl
    (fun index entry =>
      let item_id := entry.1
      let summary := entry.2
      if summary.kind ≠ RItemKind.Function then index
      else if summary.path.isEmpty then index
      else if is_internal_path summary.path then index
      else
        let crate_name := crate_name_for_id krate summary.crate_id default_crate_name
        let full_path := join_path crate_name summary.path
        let name := (summary.path.getLast?).getD full_path
        let index := index.add_callable full_path name
        if item_id ∈ method_ids then index.add_method full_path name else index)
    FunctionIndex.new

/-- The mutable extraction state of `build_graph`: the graph under
construction, the node cache and the edge cache. -/
structure ExtState where
  graph : Graph
  node_cache : List String
  edge_cache : List String
deriving DecidableEq, Repr

/-- `Graph::add_node`. -/
def ExtState.add_node (st : ExtState) (n : Node) : ExtState :=
  { st with graph := { st.graph with nodes := st.graph.nodes ++ [n] } }

/-- `node_cache.insert(id)`. -/
def ExtState.cache_node (st : ExtState) (id : String) : ExtState :=
  { st with node_cache := id :: st.node_cache }

/-- `push_edge`. -/
def push_edge (st : ExtState) (from_ to_ : String) (kind : EdgeKind)
    (confidence : Confidence) : ExtState :=
  let key := edge_key_of from_ to_ kind
  if key ∈ st.edge_cache then st
  else
    { st with
      graph := { st.graph with edges := st.graph.edges ++ [⟨from_, to_, kind, confidence⟩] }
      edge_cache := key :: st.edge_cache }

/-- A `Node` with every optional payload absent (the shared shape of the
crate / module nodes the `ensure_*` helpers create). -/
def blank_node (id name : String) (kind : NodeKind) (visibility : Visibility)
    (is_external : Bool) : Node :=
  { id := id
    name := name
    kind := kind
    visibility := visibility
    span := none
    attrs := []
    is_external := is_external
    fields := none
    variants := none
    signature := none
    generics := none
    where_clause := none
    docs := none
    doc_links := []
    bound_links := []
    impl_type := none
    parent_impl := none
    impl_trait := none }

/-- `ensure_crate_node`. -/
def ensure_crate_node (st : ExtState) (crate_name : String)
    (visibility : Visibility) (is_external : Bool) : ExtState :=
  if crate_name ∈ st.node_cache then st
  else
    (st.add_node (blank_node crate_name crate_name .Crate visibility is_external)).cache_node
      crate_name

/-- The loop of `ensure_module_nodes`: `done` holds the segments already
consumed, `rest` the segments of `path[..len-1]` still to process. -/
def ensure_module_nodes_go (crate_name : String) (is_external : Bool)
    (parent_id : String) (done rest : List String) (st : ExtState) : ExtState :=
  match rest with
  | [] => st
  | seg :: rest₁ =>
      let done₁ := done ++ [seg]
      let module_id := join_path crate_name done₁
      let st :=
        if module_id ∈ st.node_cache then st
        else
          (st.add_node (blank_node module_id seg .Module .Unknown is_external)).cache_node
            module_id
      let st :=
        if parent_id ≠ module_id then
          push_edge st parent_id module_id .Contains .Static
        else st
      ensure_module_nodes_go crate_name is_external module_id done₁ rest₁ st

/-- `ensure_module_nodes`. -/
def ensure_module_nodes (st : ExtState) (crate_name : String)
    (path : List String) (is_external : Bool) : ExtState :=
  if path.length ≤ 1 then st
  else ensure_module_nodes_go crate_name is_external crate_name [] path.dropLast st

/-- `extract_docs`. -/
def extract_docs (item : RItem) : Option String :=
  item.docs

/-- `extract_struct_fields`, modeled subset. -/
def extract_struct_fields (index : List (RId × RItem)) (kind : RStructKind) :
    Option (List FieldInfo) :=
  match kind with
  | .unit => none
  | .plain fields =>
      let field_infos := fields.filterMap (fun id =>
        match index.lookup id with
        | none => none
        | some item =>
            match item.inner with
            | .structField ty =>
                some
                  { name := (item.name).getD ""
                    type_name := format_type ty
                    visibility := map_visibility item.visibility }
            | _ => none)
      if field_infos.isEmpty then none else some field_infos

/-- `extract_function_signature`. -/
def extract_function_signature (sig : RFunctionSig) (header : RFunctionHeader) :
    FunctionSignature :=
  { inputs := sig.inputs.map (fun p => ⟨p.1, format_type p.2⟩)
    output := sig.output.map format_type
    is_async := header.is_async
    is_unsafe := header.is_unsafe
    is_const := header.is_const }

/-- `extract_item_details`, modeled subset.  Items carry empty generics, on
which `extract_generics` and `extract_where_clause` return `none`. -/
def extract_item_details (index : List (RId × RItem)) (item : RItem) :
    Option (List FieldInfo) × Option (List VariantInfo) × Option FunctionSignature ×
      Option (List String) × Option (List String) × Option String :=
  let docs := extract_docs item
  match item.inner with
  | .struct_ kind => (extract_struct_fields index kind, none, none, none, none, docs)
  | .function sig header =>
      (none, none, some (extract_function_signature sig header), none, none, docs)
  | .trait_ _ => (none, none, none, none, none, docs)
  | _ => (none, none, none, none, none, docs)

/-- `extract_doc_links`. -/
def extract_doc_links (item : RItem) (krate : RCrate)
    (default_crate_name : String) : List (String × String) :=
  item.links.foldl
    (fun links p =>
      match resolve_id krate default_crate_name p.2 with
      | some resolved => links_insert links p.1 resolved
      | none => links)
    []

/-- `extract_signature_links`. -/
def extract_signature_links (sig : RFunctionSig) (krate : RCrate)
    (crate_name : String) : List (String × String) :=
  let links := sig.inputs.foldl (fun l p => collect_type_links krate crate_name p.2 l) []
  match sig.output with
  | some output => collect_type_links krate crate_name output links
  | none => links

/-- `extract_field_type_links`. -/
def extract_field_type_links (index : List (RId × RItem)) (field_ids : List RId)
    (krate : RCrate) (crate_name : String) : List (String × String) :=
  field_ids.foldl
    (fun links field_id =>
      match index.lookup field_id with
      | some item =>
          match item.inner with
          | .structField ty => collect_type_links krate crate_name ty links
          | _ => links
      | none => links)
    []

/-- The `bound_links` computed for a declared item in Pass A: the (empty)
generics bound links, extended with signature links for functions and field
type links for structs (the enum arm needs enum items, outside the modeled
subset). -/
def pass_a_bound_links (krate : RCrate) (crate_name : String) (item : RItem) :
    List (String × String) :=
  match item.inner with
  | .function sig _ => links_extend [] (extract_signature_links sig krate crate_name)
  | .struct_ kind =>
      let field_ids : List RId :=
        match kind with
        | .plain fields => fields
        | .unit => []
      links_extend [] (extract_field_type_links krate.index field_ids krate crate_name)
  | _ => []

/-- The per-item body of Pass A of `build_graph` (declared items). -/
def build_graph_item_step (krate : RCrate) (crate_name : String)
    (workspace_members : List String) (method_ids : List RId) (st : ExtState)
    (entry : RId × RSummary) : ExtState :=
  let item_id := entry.1
  let summary := entry.2
  let is_method := item_id ∈ method_ids
  match map_item_kind summary.kind is_method with
  | none => st
  | some node_kind =>
      if summary.path.isEmpty then st
      else if is_internal_path summary.path then st
      else
        let item_crate_name := crate_name_for_id krate summary.crate_id crate_name
        let is_external := !(workspace_members.contains item_crate_name)
        let st := ensure_crate_node st item_crate_name .Public is_external
        let st := ensure_module_nodes st item_crate_name summary.path is_external
        let node_id := join_path item_crate_name summary.path
        let st :=
          if node_id ∈ st.node_cache then st
          else
            let item := krate.index_get item_id
            let visibility := (item.map (fun it => map_visibility it.visibility)).getD .Unknown
            let span := item.bind (fun it => it.span.map map_span)
            let attrs := (item.map (fun it => format_attributes it.attrs)).getD []
            let name := (summary.path.getLast?).getD node_id
            let details :=
              (item.map (extract_item_details krate.index)).getD
                (none, none, none, none, none, none)
            let doc_links := (item.map (fun it => extract_doc_links it krate crate_name)).getD []
            let bound_links := (item.map (pass_a_bound_links krate crate_name)).getD []
            (st.add_node
              { id := node_id
                name := name
                kind := node_kind
                visibility := visibility
                span := span
                attrs := attrs
                is_external := is_external
                fields := details.1
                variants := details.2.1
                signature := details.2.2.1
                generics := details.2.2.2.1
                where_clause := details.2.2.2.2.1
                docs := details.2.2.2.2.2
                doc_links := doc_links
                bound_links := bound_links
                impl_type := none
                parent_impl := none
                impl_trait := none }).cache_node node_id
        match parent_path_id item_crate_name summary.path with
        | none => st
        | some parent_id =>
            if parent_id ≠ node_id then
              push_edge st parent_id node_id .Contains .Static
            else st

/-- The `item_to_parent` map built from module children. -/
def item_to_parent (krate : RCrate) : List (RId × RId) :=
  krate.index.foldl
    (fun map entry =>
      match entry.2.inner with
      | .module items =>
          items.foldl
            (fun m child_id =>
              if m.any (fun p => p.1 = child_id) then
                m.map (fun p => if p.1 = child_id then (p.1, entry.1) else p)
              else m ++ [(child_id, entry.1)])
            map
      | _ => map)
    []

/-- `add_use_import_edges_with_parent_map`. -/
def add_use_import_edges_with_parent_map (st : ExtState) (krate : RCrate)
    (default_crate_name : String) (parent_map : List (RId × RId)) : ExtState :=
  krate.index.foldl
    (fun st entry =>
      match entry.2.inner with
      | .use_ target =>
          match target with
          | none => st
          | some target_id =>
              match parent_map.lookup entry.1 with
              | none => st
              | some parent_module_id =>
                  match resolve_id krate default_crate_name parent_module_id with
                  | none => st
                  | some parent_node_id =>
                      match resolve_id krate default_crate_name target_id with
                      | none => st
                      | some target_node_id =>
                          push_edge st parent_node_id target_node_id .ReExports .Static
      | _ => st)
    st

/-- `add_uses_edges`. -/
def add_uses_edges (st : ExtState) (owner_id : String) (type_ids : List RId)
    (krate : RCrate) (default_crate_name : String) : ExtState :=
  type_ids.foldl
    (fun st type_id =>
      match resolve_id krate default_crate_name type_id with
      | none => st
      | some target_id =>
          if target_id = owner_id then st
          else push_edge st owner_id target_id .UsesType .Static)
    st

/-- Rust `s.contains("::")`. -/
def chars_has_double_colon : List Char → Bool
  | [] => false
  | ':' :: ':' :: _ => true
  | _ :: rest => chars_has_double_colon rest

/-- Rust `s.trim()` (ASCII whitespace; the attribute strings of the model). -/
def str_trim (s : String) : String :=
  ⟨((s.data.dropWhile Char.isWhitespace).reverse.dropWhile Char.isWhitespace).reverse⟩

/-- The characters after the first occurrence of `pat`
(`s.find(pat)` + slicing), or `none` when `pat` does not occur. -/
def chars_after_first (pat : List Char) : List Char → Option (List Char)
  | [] => none
  | c :: rest =>
      if pat.isPrefixOf (c :: rest) then some ((c :: rest).drop pat.length)
      else chars_after_first pat rest

/-- The characters before the first occurrence of character `ch`
(`s.find(ch)` + slicing), or `none` when `ch` does not occur. -/
def chars_before_char (ch : Char) : List Char → Option (List Char)
  | [] => none
  | c :: rest =>
      if c = ch then some []
      else (chars_before_char ch rest).map (fun l => c :: l)

/-- Rust `s.split(ch)`. -/
def split_char (ch : Char) : List Char → List (List Char)
  | [] => [[]]
  | c :: rest =>
      if c = ch then [] :: split_char ch rest
      else
        match split_char ch rest with
        | [] => [[c]]
        | seg :: segs => (c :: seg) :: segs

/-- `parse_derive_traits`. -/
def parse_derive_traits (attrs : List String) : List String :=
  attrs.foldl
    (fun traits attr =>
      let trimmed := str_trim attr
      match chars_after_first "derive(".data trimmed.data with
      | none => traits
      | some remainder =>
          match chars_before_char ')' remainder with
          | none => traits
          | some inside =>
              (split_char ',' inside).foldl
                (fun ts seg =>
                  let name := str_trim ⟨seg⟩
                  if name = "" then ts else ts ++ [name])
                traits)
    []

/-- `add_derives_edges`. -/
def add_derives_edges (st : ExtState) (owner_id : String) (attrs : List String)
    (trait_lookup : List (String × List String)) : ExtState :=
  (parse_derive_traits attrs).foldl
    (fun st trait_name =>
      if chars_has_double_colon trait_name.data then
        match trait_lookup.lookup trait_name with
        | some paths =>
            paths.foldl
              (fun st path => push_edge st owner_id path .Derives .Inferred)
              st
        | none => st
      else
        match trait_lookup.lookup trait_name with
        | some paths =>
            if paths.length = 1 then
              push_edge st owner_id (paths.headD "") .Derives .Inferred
            else st
        | none => st)
    st

/-- The associated-items loop of the impl arm of Pass B. -/
def impl_assoc_items_step (krate : RCrate) (crate_name : String)
    (is_external : Bool) (impl_id : String) (st : ExtState) (assoc_id : RId) :
    ExtState :=
  match krate.index_get assoc_id with
  | none => st
  | some assoc_item =>
      match assoc_item.inner with
      | .function sig header =>
          let assoc_node_id := impl_id ++ "::method-" ++ toString assoc_id
          let st :=
            if assoc_node_id ∈ st.node_cache then st
            else
              (st.add_node
                { id := assoc_node_id
                  name := (assoc_item.name).getD assoc_node_id
                  kind := .Method
                  visibility := map_visibility assoc_item.visibility
                  span := assoc_item.span.map map_span
                  attrs := format_attributes assoc_item.attrs
                  is_external := is_external
                  fields := none
                  variants := none
                  signature := some (extract_function_signature sig header)
                  generics := none
                  where_clause := none
                  docs := extract_docs assoc_item
                  doc_links := extract_doc_links assoc_item krate crate_name
                  bound_links := links_extend [] (extract_signature_links sig krate crate_name)
                  impl_type := none
                  parent_impl := some impl_id
                  impl_trait := none }).cache_node assoc_node_id
          push_edge st impl_id assoc_node_id .Defines .Static
      | _ => st

/-- The impl-node creation of Pass B (guarded by the node cache). -/
def impl_node_create (krate : RCrate) (crate_name : String) (is_external : Bool)
    (impl_id : String) (trait_ : Option RPath) (for_ : RType) (item : RItem)
    (st : ExtState) : ExtState :=
  if impl_id ∈ st.node_cache then st
  else
    (st.add_node
      { id := impl_id
        name := impl_node_name krate crate_name trait_ for_
        kind := .Impl
        visibility := map_visibility item.visibility
        span := item.span.map map_span
        attrs := format_attributes item.attrs
        is_external := is_external
        fields := none
        variants := none
        signature := none
        generics := none
        where_clause := none
        docs := extract_docs item
        doc_links := extract_doc_links item krate crate_name
        bound_links := []
        impl_type := some (if trait_.isSome then ImplType.Trait else ImplType.Inherent)
        parent_impl := none
        impl_trait := trait_.bind (fun tp => resolve_id krate crate_name tp.id) }).cache_node
      impl_id

/-- The `Contains` edge from the impl item's parent module. -/
def impl_contains_edge (krate : RCrate) (crate_name : String)
    (parent_map : List (RId × RId)) (item_id : RId) (impl_id : String)
    (st : ExtState) : ExtState :=
  match parent_map.lookup item_id with
  | some parent_id =>
      match resolve_id krate crate_name parent_id with
      | some parent_node_id => push_edge st parent_node_id impl_id .Contains .Static
      | none => st
  | none => st

/-- The `Defines`/`Implements` edges of an impl block. -/
def impl_relation_edges (krate : RCrate) (crate_name : String)
    (trait_ : Option RPath) (for_ : RType) (impl_id : String) (st : ExtState) :
    ExtState :=
  match type_to_id for_ with
  | some for_id =>
      match resolve_id krate crate_name for_id with
      | some type_node_id =>
          let st := push_edge st type_node_id impl_id .Defines .Static
          match trait_ with
          | some trait_path =>
              match resolve_id krate crate_name trait_path.id with
              | some trait_node_id =>
                  push_edge st type_node_id trait_node_id .Implements .Static
              | none => st
          | none => st
      | none => st
  | none => st

/-- The `Defines` edges from a trait to its associated items. -/
def trait_defines_edges (krate : RCrate) (crate_name : String) (owner_id : String)
    (trait_items : List RId) (st : ExtState) : ExtState :=
  trait_items.foldl
    (fun st assoc_id =>
      match resolve_id krate crate_name assoc_id with
      | some assoc_node_id => push_edge st owner_id assoc_node_id .Defines .Static
      | none => st)
    st

/-- The `type_ids` set collected for a Pass B item (modeled subset: impl
generics are empty). -/
def pass_b_type_ids (krate : RCrate) (inner : RItemEnum) : List RId :=
  match inner with
  | .impl_ trait_ for_ _ =>
      let type_ids := collect_type_ids for_ []
      (match trait_ with
       | some trait_path => rid_insert type_ids trait_path.id
       | none => type_ids)
  | .struct_ kind => collect_struct_field_ids krate.index kind []
  | .function sig _ => collect_signature_ids sig []
  | _ => []

/-- The per-item body of Pass B of `build_graph` (impls, relations, type uses,
derives). -/
def build_graph_pass_b_step (krate : RCrate) (crate_name : String)
    (workspace_members : List String) (trait_lookup : List (String × List String))
    (parent_map : List (RId × RId)) (st : ExtState) (entry : RId × RItem) :
    ExtState :=
  let item := entry.2
  match item.inner with
  | .impl_ trait_ for_ impl_items =>
      let item_crate_name := crate_name_for_id krate item.crate_id crate_name
      let is_external := !(workspace_members.contains item_crate_name)
      let st := ensure_crate_node st item_crate_name .Public is_external
      let impl_id := impl_node_id item_crate_name item.id
      let st := impl_node_create krate crate_name is_external impl_id trait_ for_ item st
      let st := impl_contains_edge krate crate_name parent_map item.id impl_id st
      let st := impl_relation_edges krate crate_name trait_ for_ impl_id st
      let st := impl_items.foldl (impl_assoc_items_step krate crate_name is_external impl_id) st
      let st := add_uses_edges st impl_id (pass_b_type_ids krate item.inner) krate crate_name
      add_derives_edges st impl_id (format_attributes item.attrs) trait_lookup
  | _ =>
      match resolve_id krate crate_name item.id with
      | none => st
      | some owner_id =>
          let st :=
            match item.inner with
            | .trait_ trait_items =>
                trait_defines_edges krate crate_name owner_id trait_items st
            | _ => st
          let st := add_uses_edges st owner_id (pass_b_type_ids krate item.inner) krate crate_name
          add_derives_edges st owner_id (format_attributes item.attrs) trait_lookup

/-- The extraction state after the three description passes of `build_graph`
(Pass A over the `paths` table, the re-export pass, Pass B over the item
index). -/
def build_graph_state (krate : RCrate) (crate_name : String)
    (workspace_members_opt : Option (List String)) : ExtState :=
  let st : ExtState := ⟨Graph.new, [], []⟩
  let trait_lookup := build_trait_lookup krate crate_name
  let method_ids := collect_method_ids krate
  let workspace_members := workspace_members_opt.getD [crate_name]
  let st := ensure_crate_node st crate_name .Public (!(workspace_members.contains crate_name))
  let st := krate.paths.foldl (build_graph_item_step krate crate_name workspace_members method_ids) st
  let parent_map := item_to_parent krate
  let st := add_use_import_edges_with_parent_map st krate crate_name parent_map
  krate.index.foldl
    (build_graph_pass_b_step krate crate_name workspace_members trait_lookup parent_map)
    st

/-- `build_graph` without a source provider (`opts.source = None`).  The
call-edge pass over source files is `build_graph_with_source` below. -/
def build_graph (krate : RCrate) (crate_name : String)
    (workspace_members_opt : Option (List String)) : Graph :=
  (build_graph_state krate crate_name workspace_members_opt).graph

/-!
Call-edge extraction (`SourceParser`).  Source files are embedded post-parse:
a parsed file is a list of items, a function item carries the call expressions
the `CallCollector` visitor extracts from its body, and a module item is
either inline (with nested items) or a file reference with an optional
`#[path]` override.  File paths are segment lists; the `MemorySourceProvider`
becomes a finite map from paths to parsed files (a missing path is the
read-or-parse failure, which is fatal).  The Rust recursion is embedded with a
fuel parameter; `parse_module_file` inserts the path into the visited set
before reading, exactly as the source does.  The impl/trait handlers are
omitted from the item model; they reach `add_call_edges` through the same
entry as function items.
-/

/-- A source file path as a list of segments. -/
abbrev SrcPath := List String

/-- A `#[path = "…"]` override, as returned by `module_path_override`. -/
structure ModOverride where
  is_absolute : Bool
  path : SrcPath
deriving DecidableEq, Repr

/-- A call site, `CallExpr`. -/
inductive CallExpr where
  | path (segments : List String)
  | method (name : String)
deriving DecidableEq, Repr

/-- A parsed `syn::Item`, modeled subset. -/
inductive SynItem where
  | fnItem (name : String) (calls : List CallExpr)
  | modInline (name : String) (items : List SynItem)
  | modFile (name : String) (path_override : Option ModOverride)

/-- `MemorySourceProvider`, with file contents already parsed. -/
structure MemProvider where
  files : List (SrcPath × List SynItem)

/-- `SourceProvider::file_exists`. -/
def MemProvider.file_exists (prov : MemProvider) (path : SrcPath) : Bool :=
  prov.files.any (fun p => p.1 = path)

/-- `SourceProvider::read_file` composed with `syn::parse_file`. -/
def MemProvider.read (prov : MemProvider) (path : SrcPath) : Option (List SynItem) :=
  prov.files.lookup path

/-- The sibling-file / `mod.rs` fallback of `resolve_module_file`. -/
def resolve_module_file_default (prov : MemProvider) (current_dir : SrcPath)
    (name : String) : Option SrcPath :=
  let candidate := current_dir ++ [name ++ ".rs"]
  if prov.file_exists candidate then some candidate
  else
    let mod_rs := current_dir ++ [name, "mod.rs"]
    if prov.file_exists mod_rs then some mod_rs else none

/-- `resolve_module_file`. -/
def resolve_module_file (prov : MemProvider) (current_dir : SrcPath)
    (name : String) (path_override : Option ModOverride) : Option SrcPath :=
  match path_override with
  | some ov =>
      let full_path := if ov.is_absolute then ov.path else current_dir ++ ov.path
      if prov.file_exists full_path then some full_path
      else resolve_module_file_default prov current_dir name
  | none => resolve_module_file_default prov current_dir name

/-- `SourceParser::add_call_edges`. -/
def source_add_call_edges (idx : FunctionIndex) (mode : CallMode) (st : ExtState)
    (caller_id : String) (module_path : List String)
    (self_type_segments : Option TypeSegments) (calls : List CallExpr) : ExtState :=
  calls.foldl
    (fun st call =>
      let candidates :=
        match call with
        | .path segments => resolve_callee_path_candidates idx mode segments module_path
        | .method name =>
            resolve_callee_method_candidates idx mode name module_path self_type_segments
      candidates.foldl
        (fun st cand =>
          if caller_id = cand.1 then st
          else push_edge st caller_id cand.1 .CallsStatic cand.2)
        st)
    st

/-- `SourceParser::handle_fn`. -/
def handle_fn (idx : FunctionIndex) (mode : CallMode) (st : ExtState)
    (name : String) (calls : List CallExpr) (module_path : List String) : ExtState :=
  match resolve_free_fn_caller idx module_path name with
  | none => st
  | some caller_id => source_add_call_edges idx mode st caller_id module_path none calls

/-- The traversal state of `SourceParser`: the shared extraction state, the
visited-file set, and (as instrumentation for the at-most-once property) the
list of files whose contents were actually read, in order. -/
structure ParseState where
  ext : ExtState
  visited_files : List SrcPath
  reads : List SrcPath
deriving DecidableEq, Repr

/-- The outcome of the traversal: success, a propagated read/parse error, or
fuel exhaustion (which the fuel-sufficiency theorem rules out). -/
inductive ParseResult where
  | ok (st : ParseState)
  | err
  | fuelOut
deriving DecidableEq, Repr

mutual

/-- `SourceParser::parse_module_file`.  The path is inserted into the visited
set before its contents are read. -/
def parse_module_file (prov : MemProvider) (idx : FunctionIndex) (mode : CallMode)
    (fuel : Nat) (path : SrcPath) (module_path : List String) (st : ParseState) :
    ParseResult :=
  match fuel with
  | 0 => .fuelOut
  | fuel + 1 =>
      if path ∈ st.visited_files then .ok st
      else
        let st := { st with visited_files := path :: st.visited_files }
        match prov.read path with
        | none => .err
        | some items =>
            let st := { st with reads := st.reads ++ [path] }
            parse_items prov idx mode fuel items module_path path.dropLast st
termination_by (fuel, 0)
decreasing_by
  all_goals simp_wf
  all_goals omega

/-- `SourceParser::parse_items`. -/
def parse_items (prov : MemProvider) (idx : FunctionIndex) (mode : CallMode)
    (fuel : Nat) (items : List SynItem) (module_path : List String)
    (current_dir : SrcPath) (st : ParseState) : ParseResult :=
  match items with
  | [] => .ok st
  | item :: rest =>
      match parse_one_item prov idx mode fuel item module_path current_dir st with
      | .ok st => parse_items prov idx mode fuel rest module_path current_dir st
      | .err => .err
      | .fuelOut => .fuelOut
termination_by (fuel, 2 + sizeOf items)
decreasing_by
  all_goals simp_wf
  all_goals omega

/-- The per-item dispatch of `parse_items` (`handle_fn` / `handle_mod`). -/
def parse_one_item (prov : MemProvider) (idx : FunctionIndex) (mode : CallMode)
    (fuel : Nat) (item : SynItem) (module_path : List String)
    (current_dir : SrcPath) (st : ParseState) : ParseResult :=
  match item with
  | .fnItem name calls =>
      .ok { st with ext := handle_fn idx mode st.ext name calls module_path }
  | .modInline name items =>
      parse_items prov idx mode fuel items (module_path ++ [name]) current_dir st
  | .modFile name path_override =>
      match resolve_module_file prov current_dir name path_override with
      | none => .ok st
      | some module_file =>
          parse_module_file prov idx mode fuel module_file (module_path ++ [name]) st
termination_by (fuel, 1 + sizeOf item)
decreasing_by
  all_goals simp_wf
  all_goals try omega
  all_goals cases name
  all_goals simp
  all_goals omega

end

/-- `add_call_edges` (the free function): run the parser from the root file
with an empty visited set, threading the caller's graph and edge cache. -/
def add_call_edges (prov : MemProvider) (idx : FunctionIndex) (mode : CallMode)
    (fuel : Nat) (root_file : SrcPath) (ext : ExtState) : ParseResult :=
  parse_module_file prov idx mode fuel root_file [] ⟨ext, [], []⟩

/-- `build_graph` with a source provider: the description passes followed by
the call-edge pass on the function index. -/
def build_graph_with_source (krate : RCrate) (crate_name : String)
    (workspace_members_opt : Option (List String)) (prov : MemProvider)
    (mode : CallMode) (fuel : Nat) (root_file : SrcPath) : ParseResult :=
  let method_ids := collect_method_ids krate
  let function_index := build_function_index krate method_ids crate_name
  add_call_edges prov function_index mode fuel root_file
    (build_graph_state krate crate_name workspace_members_opt)

/-!
Properties and concrete inputs referenced by the claim theorems.
-/

/-- The node IDs of a graph. -/
def node_ids (g : Graph) : List String :=
  g.nodes.map Node.id

/-- The edge-cache discipline: every edge's key is cached and no two edges
share a key. -/
def edge_inv (st : ExtState) : Prop :=
  (∀ e ∈ st.graph.edges, e.key ∈ st.edge_cache) ∧ (st.graph.edges.map Edge.key).Nodup

/-- The node cache holds exactly the IDs of the nodes in the graph. -/
def node_cache_ok (st : ExtState) : Prop :=
  ∀ id, id ∈ st.node_cache ↔ id ∈ node_ids st.graph

/-- Every edge endpoint occurs as a node ID of the same graph. -/
def endpoints_ok (g : Graph) : Prop :=
  ∀ e ∈ g.edges, e.from_ ∈ node_ids g ∧ e.to_ ∈ node_ids g

/-- Edges of kind `k` are never self-loops. -/
def no_self_loops (g : Graph) (k : EdgeKind) : Prop :=
  ∀ e ∈ g.edges, e.kind = k → e.from_ ≠ e.to_

/-- Pairwise distinctness of the `(from, to, kind)` triples of an edge list. -/
def triple_distinct (l : List Edge) : Prop :=
  l.Pairwise (fun e₁ e₂ => e₁.triple ≠ e₂.triple)

/-- Every `paths`-table entry has a non-empty, non-internal path whose kind
maps to a node kind. -/
def wf_paths (krate : RCrate) : Prop :=
  ∀ p ∈ krate.paths,
    p.2.path ≠ [] ∧ is_internal_path p.2.path = false ∧ p.2.kind ≠ RItemKind.Other

/-- `krate` with the internal-path entries removed from the `paths` table. -/
def filter_internal_paths (krate : RCrate) : List (RId × RSummary) :=
  krate.paths.filter (fun p => !(is_internal_path p.2.path))

/-- The combined edge collections of a workspace: every member crate's
intra-package list and the cross-crate list. -/
def workspace_all_edges (w : Workspace) : List Edge :=
  (w.crates.map CrateGraph.edges).flatten ++ w.cross_crate_edges

/-- The combined node IDs of a workspace (member and external tables). -/
def workspace_node_ids (w : Workspace) : List String :=
  ((w.crates.map CrateGraph.nodes).flatten ++
    (w.external_crates.map ExternalCrate.nodes).flatten).map Node.id

/-- The number of provider files not yet visited (the decreasing measure of
the module traversal). -/
def unvisited_count (prov : MemProvider) (visited : List SrcPath) : Nat :=
  ((prov.files.map Prod.fst).filter (fun p => decide (p ∉ visited))).length

/-- The files read so far are pairwise distinct and all recorded as
visited. -/
def reads_inv (st : ParseState) : Prop :=
  st.reads.Nodup ∧ ∀ p ∈ st.reads, p ∈ st.visited_files

/-- The self-loop guard the claims are about: `UsesType` and `CallsStatic`
edges (the kinds pushed behind an explicit endpoint comparison) are not
self-loops. -/
def ns_guard (e : Edge) : Prop :=
  (e.kind = EdgeKind.UsesType ∨ e.kind = EdgeKind.CallsStatic) → e.from_ ≠ e.to_

/-- The combined push-level invariant: the edge-cache discipline plus the
self-loop guard on every edge. -/
def ext_inv (st : ExtState) : Prop :=
  edge_inv st ∧ ∀ e ∈ st.graph.edges, ns_guard e

/-- A function index with two callables named `f`, one of them inside module
`mod1` (input of the C1 counterexample). -/
def c1_index : FunctionIndex :=
  (FunctionIndex.new.add_callable "a::m::f" "f").add_callable "p::mod1::m::f" "f"

/-- A function index with the single callable `pkg::a::f` (input of the C6
witness). -/
def c6_index : FunctionIndex :=
  FunctionIndex.new.add_callable "pkg::a::f" "f"

/-- A node carrying only a span (completeness score 1). -/
def c2_node_a : Node :=
  { blank_node "p::X" "X" .Struct .Unknown false with
    span := some ⟨"lib.rs", 1, 1, none, none⟩ }

/-- A node with the same ID carrying only a field list (completeness
score 2). -/
def c2_node_b : Node :=
  { blank_node "p::X" "X" .Struct .Unknown false with
    fields := some [⟨"f", "u32", .Public⟩] }

/-- A description with a public struct `my::S` whose field type is the
internal-path struct `my::__Hidden` (input of the C3/C4 counterexamples). -/
def dangling_krate : RCrate :=
  { index :=
      [(1, { id := 1, crate_id := 0, name := some "S", visibility := .Public,
             span := none, attrs := [], docs := none, links := [],
             inner := .struct_ (.plain [3]) }),
       (3, { id := 3, crate_id := 0, name := some "h", visibility := .Default,
             span := none, attrs := [], docs := none, links := [],
             inner := .structField (.resolvedPath "__Hidden" 2) })]
    paths :=
      [(1, { crate_id := 0, path := ["my", "S"], kind := .Struct }),
       (2, { crate_id := 0, path := ["my", "__Hidden"], kind := .Struct })]
    external_crates := [] }

/-- A description with a module `m` re-exporting itself (input of the C7
counterexample). -/
def reexport_krate : RCrate :=
  { index :=
      [(0, { id := 0, crate_id := 0, name := some "m", visibility := .Public,
             span := none, attrs := [], docs := none, links := [],
             inner := .module [1] }),
       (1, { id := 1, crate_id := 0, name := none, visibility := .Public,
             span := none, attrs := [], docs := none, links := [],
             inner := .use_ (some 0) })]
    paths := [(0, { crate_id := 0, path := ["m"], kind := .Module })]
    external_crates := [] }

/-- An intra-package edge of the non-member package `std` (input of the C5
counterexample). -/
def c5_eint : Edge := ⟨"std::x", "std::y", .UsesType, .Static⟩

/-- An intra-package edge of the member package `a`. -/
def c5_ea : Edge := ⟨"a::x", "a::y", .UsesType, .Static⟩

/-- A cross-package edge from `a` to `std`. -/
def c5_ecross : Edge := ⟨"a::x", "std::x", .UsesType, .Static⟩

/-- The input graphs of the C5 counterexample. -/
def c5_graphs : List Graph :=
  [⟨[blank_node "a::x" "x" .Struct .Unknown false,
     blank_node "std::x" "x" .Struct .Unknown true],
    [c5_ea, c5_ecross, c5_eint]⟩]

/-- A source provider whose two files reference each other through `#[path]`
overrides, forming a cycle (input of the C10 witness). -/
def cyclic_provider : MemProvider :=
  ⟨[(["src", "a.rs"],
      [SynItem.modFile "b" (some ⟨false, ["b.rs"]⟩)]),
    (["src", "b.rs"],
      [SynItem.modFile "a" (some ⟨false, ["a.rs"]⟩)])]⟩

/-- The parse state reached by traversing `cyclic_provider` from `src/a.rs`
on top of the `dangling_krate` description state (C7 amended witness). -/
def c7_witness_state : ParseState :=
  ⟨build_graph_state dangling_krate "pkg" none,
    [["src", "b.rs"], ["src", "a.rs"]],
    [["src", "a.rs"], ["src", "b.rs"]]⟩

/-- The invariant of the edge merge of `load_workspace_graph`: every kept
edge's key is cached, and the kept keys are pairwise distinct. -/
def merge_acc_inv (acc : List String × List Edge) : Prop :=
  (∀ e ∈ acc.2, e.key ∈ acc.1) ∧ (acc.2.map Edge.key).Nodup

/-- The concatenation of the `Vec` payloads of a `HashMap<String, Vec<_>>`. -/
def flatten_values {α : Type} (m : List (String × List α)) : List α :=
  (m.map Prod.snd).flatten

/-- The intra-package edge lists of a list of `CrateGraph`s, concatenated. -/
def crates_edges (l : List CrateGraph) : List Edge :=
  (l.map CrateGraph.edges).flatten

/-- The `Vec` stored at key `k` of a `HashMap<String, Vec<_>>` (empty when the
key is absent). -/
def assoc_get {α : Type} (m : List (String × List α)) (k : String) : List α :=
  match m with
  | [] => []
  | (k₁, vs) :: rest => if k₁ = k then vs else assoc_get rest k

/-- Every cached ID names a node of the graph, and every edge endpoint is a
node ID. -/
def ends_inv (st : ExtState) : Prop :=
  (∀ i ∈ st.node_cache, i ∈ node_ids st.graph) ∧ endpoints_ok st.graph

/-- Every `paths`-table entry's node ID is cached. -/
def paths_cached (krate : RCrate) (cn : String) (st : ExtState) : Prop :=
  ∀ entry ∈ krate.paths,
    join_path (crate_name_for_id krate entry.2.crate_id cn) entry.2.path
      ∈ st.node_cache

/-- Every value stored in the trait lookup is cached. -/
def tl_cached (tl : List (String × List String)) (st : ExtState) : Prop :=
  ∀ name ps, tl.lookup name = some ps → ∀ p ∈ ps, p ∈ st.node_cache

/-- A one-graph workspace input whose edge endpoints are both present (input
of the C3 amended witness). -/
def c3_graphs : List Graph :=
  [⟨[blank_node "a::x" "x" .Struct .Unknown false,
     blank_node "a::y" "y" .Struct .Unknown false], [c5_ea]⟩]

/-!
Helper lemmas.
-/

/-- A fold preserves any invariant its step preserves. -/
theorem foldl_inv {α σ : Type} {Inv : σ → Prop} {f : σ → α → σ}
    (h : ∀ s a, Inv s → Inv (f s a)) :
    ∀ (l : List α) (s : σ), Inv s → Inv (l.foldl f s) := by
  intro l
  induction l with
  | nil => intro s hs; exact hs
  | cons x xs ih => intro s hs; exact ih _ (h s x hs)

/-- Inserting a fresh batch of candidates with a fixed confidence appends
them in order. -/
theorem foldl_insert_fresh (conf : Confidence) :
    ∀ (ms : List String) (cands : List (String × Confidence)),
      ms.Nodup → (∀ x ∈ ms, ∀ p ∈ cands, p.1 ≠ x) →
      ms.foldl (fun cs c => insert_candidate cs c conf) cands
        = cands ++ ms.map (fun x => (x, conf)) := by
  intro ms
  induction ms with
  | nil => intro cands _ _; simp
  | cons x xs ih =>
      intro cands hnd hfresh
      have hx : ∀ p ∈ cands, p.1 ≠ x := hfresh x (by simp)
      have hany : (cands.any (fun p => p.1 = x)) = false := by
        simp only [List.any_eq_false, decide_eq_true_eq]
        intro p hp
        exact hx p hp
      have hstep : insert_candidate cands x conf = cands ++ [(x, conf)] := by
        simp [insert_candidate, hany]
      rw [List.foldl_cons, hstep,
        ih (cands ++ [(x, conf)]) (List.Nodup.of_cons hnd) ?_]
      · simp
      · intro y hy p hp
        rcases List.mem_append.1 hp with hc | hs
        · exact hfresh y (List.mem_cons_of_mem _ hy) p hc
        · have hp1 : p = (x, conf) := by simpa using hs
          subst hp1
          have hxxs : x ∉ xs := (List.nodup_cons.1 hnd).1
          intro hcontra
          have hxy : x = y := hcontra
          exact hxxs (by rw [hxy]; exact hy)

/-- The anchor parse of a path with `n` leading `super` segments whose next
segment is not an anchor keyword. -/
theorem split_path_anchor_go_super (rest : List String)
    (hh : ∀ s, rest.head? = some s →
      s ≠ "crate" ∧ s ≠ "self" ∧ s ≠ "Self" ∧ s ≠ "super") :
    ∀ (n k : Nat),
      split_path_anchor_go (List.replicate n "super" ++ rest) k
        = (if k + n = 0 then .Relative else .Super (k + n), rest) := by
  intro n
  induction n with
  | zero =>
      intro k
      simp only [List.replicate, List.nil_append, Nat.add_zero]
      cases rest with
      | nil => rfl
      | cons s t =>
          have hs := hh s rfl
          simp [split_path_anchor_go, hs.1, hs.2.1, hs.2.2.1, hs.2.2.2]
  | succ n ih =>
      intro k
      have : List.replicate (n + 1) "super" ++ rest
          = "super" :: (List.replicate n "super" ++ rest) := by
        simp [List.replicate_succ]
      rw [this]
      simp only [split_path_anchor_go]
      rw [ih (k + 1)]
      have h2 : k + 1 + n = k + (n + 1) := by omega
      rw [h2]
      rw [if_neg (by decide), if_neg (by decide)]
      simp

/-!
C9.
-/

/-- C9: for a non-empty segment list, the suffix-match query returns exactly
the indexed paths ending in the string `::s1::…::sk`, and the unique-by-suffix
query returns a path iff it is the single match. -/
theorem c9_suffix_queries (paths segments : List String) (h : segments ≠ []) :
    (∀ p, p ∈ resolve_all_by_suffix paths segments ↔
        p ∈ paths ∧ str_ends_with p ("::" ++ String.intercalate "::" segments) = true)
    ∧ (∀ p, resolve_by_suffix paths segments = some p ↔
        resolve_all_by_suffix paths segments = [p]) := by
  constructor
  · intro p
    unfold resolve_all_by_suffix
    have hne : segments.isEmpty = false := by
      cases segments with
      | nil => exact absurd rfl h
      | cons a t => rfl
    rw [hne]
    simp [List.mem_filter]
  · intro p
    unfold resolve_by_suffix
    cases hm : resolve_all_by_suffix paths segments with
    | nil => simp
    | cons x t =>
        cases t with
        | nil => simp
        | cons y t₂ => simp [List.length_cons]

/-- Witness for C9 at a concrete index and query. -/
theorem c9_suffix_queries_witness :
    (["f"] : List String) ≠ [] ∧
    ((∀ p, p ∈ resolve_all_by_suffix ["a::f", "b::g"] ["f"] ↔
        p ∈ ["a::f", "b::g"] ∧
          str_ends_with p ("::" ++ String.intercalate "::" ["f"]) = true)
      ∧ (∀ p, resolve_by_suffix ["a::f", "b::g"] ["f"] = some p ↔
        resolve_all_by_suffix ["a::f", "b::g"] ["f"] = [p])) :=
  ⟨by decide, c9_suffix_queries ["a::f", "b::g"] ["f"] (by decide)⟩

/-!
C6.
-/

/-- C6: a path call with `n` leading `super` segments is resolved exactly by
suffix-matching `module_path[..len - n] ++ rest` against the callables index
(no relative or bare-name query applies). -/
theorem c6_super_resolution (idx : FunctionIndex) (mode : CallMode) (n : Nat)
    (rest module_path : List String) (hn : 1 ≤ n) (hr : rest ≠ [])
    (hh : ∀ s, rest.head? = some s →
      s ≠ "crate" ∧ s ≠ "self" ∧ s ≠ "Self" ∧ s ≠ "super") :
    resolve_callee_path_candidates idx mode (List.replicate n "super" ++ rest)
        module_path
      = (add_candidates mode []
          (resolve_all_by_suffix idx.callables
            (module_path.take (module_path.length - n) ++ rest))).1 := by
  have hsplit : split_path_anchor (List.replicate n "super" ++ rest)
      = (.Super n, rest) := by
    unfold split_path_anchor
    rw [split_path_anchor_go_super rest hh n 0]
    have h0 : n ≠ 0 := by omega
    simp [h0]
  unfold resolve_callee_path_candidates
  rw [hsplit]
  have hre : rest.isEmpty = false := by
    cases rest with
    | nil => exact absurd rfl hr
    | cons a t => rfl
  simp only [hre, Bool.false_eq_true, if_false]
  have hanchor : (PathAnchor.Super n = PathAnchor.Relative) = False := by
    simp
  simp [hanchor, scoped_segments, FunctionIndex.resolve_callable_by_suffix_all]

/-!
C1.  The claim quantifies over a call site's candidate set — per §4.5 the
union of the per-query match sets.  The code discards or labels matches per
QUERY, not per call site: a relative call `m::f()` from module `mod1` whose
direct suffix query has two matches but whose scoped suffix query has exactly
one emits, in `Strict` mode, one edge (with `Static` confidence) instead of
zero, and in `Ambiguous` mode one of the two edges carries `Static` (merged
via `merge_confidence`), not `Inferred`.
-/

/-- Counterexample to C1: the call site `m::f()` from module `mod1` against
`c1_index` has the two-element candidate set
`{a::m::f, p::mod1::m::f}` (the set emitted in `Ambiguous` mode), yet
`Strict` mode emits one `CallsStatic` edge rather than zero, and `Ambiguous`
mode emits the `p::mod1::m::f` edge with `Static` confidence rather than
`Inferred`. -/
theorem c1_counterexample :
    (source_add_call_edges c1_index .Strict ⟨Graph.new, [], []⟩ "p::caller"
        ["mod1"] none [.path ["m", "f"]]).graph.edges
      = [⟨"p::caller", "p::mod1::m::f", .CallsStatic, .Static⟩]
    ∧ (source_add_call_edges c1_index .Ambiguous ⟨Graph.new, [], []⟩ "p::caller"
        ["mod1"] none [.path ["m", "f"]]).graph.edges
      = [⟨"p::caller", "a::m::f", .CallsStatic, .Inferred⟩,
         ⟨"p::caller", "p::mod1::m::f", .CallsStatic, .Static⟩] := by
  decide

/-- C1 amended: candidates are gathered per index query.  A query with no
match contributes nothing; a query with exactly one match contributes it with
`Static` confidence; a query with more than one match contributes nothing in
`Strict` mode and one candidate per match with `Inferred` confidence in
`Ambiguous` mode. -/
theorem c1_amended (mode : CallMode) (ms : List String) (hnd : ms.Nodup) :
    add_candidates mode [] ms =
      if ms.isEmpty then ([], false)
      else if ms.length = 1 then (ms.map (fun x => (x, Confidence.Static)), true)
      else if mode = CallMode.Strict then ([], false)
      else (ms.map (fun x => (x, Confidence.Inferred)), true) := by
  match ms, hnd with
  | [], _ => rfl
  | [x], _ =>
      simp [add_candidates, insert_candidate]
  | x :: y :: t, hnd =>
      have hlen : (x :: y :: t).length = t.length + 2 := by simp
      have hlen1 : ((x :: y :: t).length = 1) = False := by simp [hlen]
      cases mode with
      | Strict =>
          simp [add_candidates, hlen1, CallMode.allow_ambiguous]
      | Ambiguous =>
          have hfold := foldl_insert_fresh Confidence.Inferred (x :: y :: t) [] hnd
            (by intro a _ p hp; simp at hp)
          simp [add_candidates, hlen1, CallMode.allow_ambiguous, hfold]

/-- Witness for C1 amended, at a two-element `Ambiguous` query. -/
theorem c1_amended_witness :
    (["aa", "bb"] : List String).Nodup ∧
    add_candidates .Ambiguous [] ["aa", "bb"] =
      (if (["aa", "bb"] : List String).isEmpty then ([], false)
       else if (["aa", "bb"] : List String).length = 1 then
        ((["aa", "bb"] : List String).map (fun x => (x, Confidence.Static)), true)
       else if CallMode.Ambiguous = CallMode.Strict then ([], false)
       else ((["aa", "bb"] : List String).map (fun x => (x, Confidence.Inferred)), true)) :=
  ⟨by decide, c1_amended .Ambiguous ["aa", "bb"] (by decide)⟩

/-!
C2.  The node merge of `load_workspace_graph` is winner-take-all: the entry
for an ID is replaced by the whole incoming node when it is more complete,
so an attribute present only on the losing node is absent from the result.
-/

/-- Counterexample to C2: `c2_node_a` (span only) and `c2_node_b` (fields
only, higher score) collide; the merged node is `c2_node_b`, which lacks the
span present on `c2_node_a`. -/
theorem c2_counterexample :
    merge_graph_nodes [⟨[c2_node_a], []⟩, ⟨[c2_node_b], []⟩] = [c2_node_b]
    ∧ c2_node_a.span.isSome = true
    ∧ c2_node_b.span.isSome = false := by
  decide

/-- C2 amended: on an ID collision the merged node is one of the two input
nodes — the incoming one exactly when `node_is_more_complete` prefers it
(non-external first, then the higher completeness score). -/
theorem c2_amended (a b : Node) (h : b.id = a.id) :
    merge_graph_nodes [⟨[a], []⟩, ⟨[b], []⟩]
      = [if node_is_more_complete b a then b else a] := by
  simp [merge_graph_nodes, merge_node_insert, h]

/-- Witness for C2 amended at the concrete colliding nodes. -/
theorem c2_amended_witness :
    c2_node_b.id = c2_node_a.id ∧
    merge_graph_nodes [⟨[c2_node_a], []⟩, ⟨[c2_node_b], []⟩]
      = [if node_is_more_complete c2_node_b c2_node_a then c2_node_b else c2_node_a] :=
  ⟨by decide, c2_amended c2_node_a c2_node_b (by decide)⟩

/-!
C10 machinery: monotonicity of the visited set, the reads invariant, and fuel
sufficiency for the module traversal.
-/

/-- A filter over a weaker predicate is at most as long. -/
theorem filter_length_mono {α : Type} (l : List α) (p q : α → Bool)
    (himp : ∀ x, q x = true → p x = true) :
    (l.filter q).length ≤ (l.filter p).length := by
  induction l with
  | nil => simp
  | cons x xs ih =>
      rw [List.filter_cons, List.filter_cons]
      cases hq : q x with
      | true => simp [himp x hq]; omega
      | false => cases hp : p x <;> simp <;> omega

/-- A filter over a strictly weaker predicate (witnessed at a member) is
strictly shorter. -/
theorem filter_length_lt {α : Type} (l : List α) (p q : α → Bool)
    (himp : ∀ x, q x = true → p x = true) (a : α) (ha : a ∈ l)
    (hpa : p a = true) (hqa : q a = false) :
    (l.filter q).length < (l.filter p).length := by
  induction l with
  | nil => cases ha
  | cons x xs ih =>
      rw [List.filter_cons, List.filter_cons]
      rcases List.mem_cons.1 ha with rfl | hmem
      · rw [hpa, hqa]
        have := filter_length_mono xs p q himp
        simp
        omega
      · have hlt := ih hmem
        cases hq : q x with
        | true => simp [himp x hq]; omega
        | false => cases hp : p x <;> simp <;> omega

/-- Growing the visited set cannot increase the unvisited count. -/
theorem unvisited_count_mono (prov : MemProvider) (v v' : List SrcPath)
    (hsub : v ⊆ v') : unvisited_count prov v' ≤ unvisited_count prov v := by
  apply filter_length_mono
  intro x hx
  simp only [decide_eq_true_eq] at hx ⊢
  intro hxv
  exact hx (hsub hxv)

/-- Visiting a previously unvisited provider file strictly decreases the
unvisited count. -/
theorem unvisited_count_insert_lt (prov : MemProvider) (v : List SrcPath)
    (path : SrcPath) (hmem : path ∈ prov.files.map Prod.fst) (hnv : path ∉ v) :
    unvisited_count prov (path :: v) < unvisited_count prov v := by
  apply filter_length_lt _ _ _ _ path hmem
  · simp [hnv]
  · simp
  · intro x hx
    simp only [decide_eq_true_eq] at hx ⊢
    intro hxv
    exact hx (List.mem_cons_of_mem _ hxv)

/-- A successful association-list lookup means the key occurs among the
keys. -/
theorem lookup_some_mem_keys {α β : Type} [BEq α] [LawfulBEq α] (l : List (α × β))
    (k : α) (v : β) (h : l.lookup k = some v) : k ∈ l.map Prod.fst := by
  induction l with
  | nil => simp [List.lookup] at h
  | cons x xs ih =>
      obtain ⟨k₁, v₁⟩ := x
      cases hbeq : (k == k₁) with
      | true =>
          have heq : k = k₁ := eq_of_beq hbeq
          subst heq; simp
      | false =>
          simp only [List.lookup, hbeq] at h
          simpa using Or.inr (ih h)

/-- The traversal only grows the visited set, and preserves the reads
invariant (reads pairwise distinct, reads recorded as visited): each file
path is inserted into the visited set before its contents are read. -/
theorem parse_state_mono (prov : MemProvider) (idx : FunctionIndex) (mode : CallMode) :
    (∀ (fuel : Nat) (path : SrcPath) (module_path : List String) (st : ParseState),
      ∀ st', parse_module_file prov idx mode fuel path module_path st = .ok st' →
        st.visited_files ⊆ st'.visited_files ∧ (reads_inv st → reads_inv st'))
    ∧ (∀ (fuel : Nat) (items : List SynItem) (module_path : List String)
        (current_dir : SrcPath) (st : ParseState),
      ∀ st', parse_items prov idx mode fuel items module_path current_dir st = .ok st' →
        st.visited_files ⊆ st'.visited_files ∧ (reads_inv st → reads_inv st'))
    ∧ (∀ (fuel : Nat) (item : SynItem) (module_path : List String)
        (current_dir : SrcPath) (st : ParseState),
      ∀ st', parse_one_item prov idx mode fuel item module_path current_dir st = .ok st' →
        st.visited_files ⊆ st'.visited_files ∧ (reads_inv st → reads_inv st')) := by
  refine parse_module_file.mutual_induct prov idx mode _ _ _
    ?_ ?_ ?_ ?_ ?_ ?_ ?_ ?_ ?_ ?_ ?_ ?_
  · intro path module_path st st' h
    simp [parse_module_file] at h
  · intro path module_path st fuel hvis st' h
    simp only [parse_module_file, if_pos hvis] at h
    cases h
    exact ⟨fun _ hm => hm, fun hr => hr⟩
  · intro path module_path st fuel hvis hread st' h
    simp only [parse_module_file, if_neg hvis, hread] at h
    exact ParseResult.noConfusion h
  · intro path module_path st fuel hvis st₁ items hread st₂ ih st' h
    simp only [parse_module_file, if_neg hvis, hread] at h
    have hih := ih st' h
    constructor
    · intro a ha
      exact hih.1 (List.mem_cons_of_mem _ ha)
    · intro hr
      apply hih.2
      constructor
      · have hnr : path ∉ st.reads := fun hmem => hvis (hr.2 path hmem)
        simp [List.nodup_append, hr.1, hnr]
      · intro p hp
        rcases List.mem_append.1 hp with hp₁ | hp₂
        · exact List.mem_cons_of_mem _ (hr.2 p hp₁)
        · have : p = path := by simpa using hp₂
          subst this
          exact List.mem_cons_self _ _
  · intro fuel module_path current_dir st st' h
    simp only [parse_items] at h
    cases h
    exact ⟨fun _ hm => hm, fun hr => hr⟩
  · intro fuel module_path current_dir st item rest a hok ih₃ ih₂ st' h
    simp only [parse_items, hok] at h
    have h₁ := ih₃ a hok
    have h₂ := ih₂ st' h
    exact ⟨fun x hx => h₂.1 (h₁.1 hx), fun hr => h₂.2 (h₁.2 hr)⟩
  · intro fuel module_path current_dir st item rest hok ih₃ st' h
    simp only [parse_items, hok] at h
    exact ParseResult.noConfusion h
  · intro fuel module_path current_dir st item rest hok ih₃ st' h
    simp only [parse_items, hok] at h
    exact ParseResult.noConfusion h
  · intro fuel module_path current_dir st name calls st' h
    simp only [parse_one_item] at h
    cases h
    exact ⟨fun _ hm => hm, fun hr => hr⟩
  · intro fuel module_path current_dir st name items ih st' h
    simp only [parse_one_item] at h
    exact ih st' h
  · intro fuel module_path current_dir st name path_override hres st' h
    simp only [parse_one_item, hres] at h
    cases h
    exact ⟨fun _ hm => hm, fun hr => hr⟩
  · intro fuel module_path current_dir st name path_override module_file hres ih st' h
    simp only [parse_one_item, hres] at h
    exact ih st' h

/-- Fuel exceeding the number of unvisited provider files is sufficient: the
traversal never runs out. -/
theorem parse_fuel_adequate (prov : MemProvider) (idx : FunctionIndex) (mode : CallMode) :
    (∀ (fuel : Nat) (path : SrcPath) (module_path : List String) (st : ParseState),
      unvisited_count prov st.visited_files < fuel →
        parse_module_file prov idx mode fuel path module_path st ≠ .fuelOut)
    ∧ (∀ (fuel : Nat) (items : List SynItem) (module_path : List String)
        (current_dir : SrcPath) (st : ParseState),
      unvisited_count prov st.visited_files < fuel →
        parse_items prov idx mode fuel items module_path current_dir st ≠ .fuelOut)
    ∧ (∀ (fuel : Nat) (item : SynItem) (module_path : List String)
        (current_dir : SrcPath) (st : ParseState),
      unvisited_count prov st.visited_files < fuel →
        parse_one_item prov idx mode fuel item module_path current_dir st ≠ .fuelOut) := by
  refine parse_module_file.mutual_induct prov idx mode _ _ _
    ?_ ?_ ?_ ?_ ?_ ?_ ?_ ?_ ?_ ?_ ?_ ?_
  · intro path module_path st hlt
    omega
  · intro path module_path st fuel hvis hlt h
    simp only [parse_module_file, if_pos hvis] at h
    exact ParseResult.noConfusion h
  · intro path module_path st fuel hvis hread hlt h
    simp only [parse_module_file, if_neg hvis, hread] at h
    exact ParseResult.noConfusion h
  · intro path module_path st fuel hvis st₁ items hread st₂ ih hlt h
    simp only [parse_module_file, if_neg hvis, hread] at h
    have hread₂ : List.lookup path prov.files = some items := hread
    have hkey : path ∈ prov.files.map Prod.fst :=
      lookup_some_mem_keys prov.files path items hread₂
    have hdec : unvisited_count prov (path :: st.visited_files)
        < unvisited_count prov st.visited_files :=
      unvisited_count_insert_lt prov st.visited_files path hkey hvis
    have hv₂ : st₂.visited_files = path :: st.visited_files := rfl
    exact ih (by rw [hv₂]; omega) h
  · intro fuel module_path current_dir st hlt h
    simp only [parse_items] at h
    exact ParseResult.noConfusion h
  · intro fuel module_path current_dir st item rest a hok ih₃ ih₂ hlt h
    simp only [parse_items, hok] at h
    have hmono := ((parse_state_mono prov idx mode).2.2 fuel item module_path
      current_dir st a hok).1
    have : unvisited_count prov a.visited_files
        ≤ unvisited_count prov st.visited_files :=
      unvisited_count_mono prov _ _ hmono
    exact ih₂ (by omega) h
  · intro fuel module_path current_dir st item rest hok ih₃ hlt h
    simp only [parse_items, hok] at h
    exact ParseResult.noConfusion h
  · intro fuel module_path current_dir st item rest hok ih₃ hlt h
    exact ih₃ hlt hok
  · intro fuel module_path current_dir st name calls hlt h
    simp only [parse_one_item] at h
    exact ParseResult.noConfusion h
  · intro fuel module_path current_dir st name items ih hlt h
    simp only [parse_one_item] at h
    exact ih hlt h
  · intro fuel module_path current_dir st name path_override hres hlt h
    simp only [parse_one_item, hres] at h
    exact ParseResult.noConfusion h
  · intro fuel module_path current_dir st name path_override module_file hres ih hlt h
    simp only [parse_one_item, hres] at h
    exact ih hlt h

/-- C10: with fuel exceeding the provider size the module traversal never
exhausts its fuel (it terminates), and on success the list of files actually
read is duplicate-free, every read file having been recorded in the visited
set — even when `mod` declarations or `#[path]` overrides form a cycle. -/
theorem c10_traversal (prov : MemProvider) (idx : FunctionIndex) (mode : CallMode)
    (root : SrcPath) (ext : ExtState) (fuel : Nat)
    (hfuel : prov.files.length < fuel) :
    add_call_edges prov idx mode fuel root ext ≠ .fuelOut
    ∧ ∀ st', add_call_edges prov idx mode fuel root ext = .ok st' →
        st'.reads.Nodup ∧ ∀ p ∈ st'.reads, p ∈ st'.visited_files := by
  constructor
  · apply (parse_fuel_adequate prov idx mode).1
    have h₁ : unvisited_count prov [] ≤ (prov.files.map Prod.fst).length :=
      List.length_filter_le _ _
    have h₂ : (prov.files.map Prod.fst).length = prov.files.length :=
      List.length_map _ _
    simp only [ParseState.visited_files]
    omega
  · intro st' h
    have := ((parse_state_mono prov idx mode).1 fuel root [] ⟨ext, [], []⟩ st' h).2
    exact this ⟨List.nodup_nil, by simp⟩

/-- Witness for C10: the two-file cyclic provider is traversed with fuel 3;
the run terminates and reads each file exactly once. -/
theorem c10_traversal_witness :
    cyclic_provider.files.length < 3 ∧
    (add_call_edges cyclic_provider FunctionIndex.new .Strict 3 ["src", "a.rs"]
        ⟨Graph.new, [], []⟩ ≠ .fuelOut
      ∧ ∀ st', add_call_edges cyclic_provider FunctionIndex.new .Strict 3
          ["src", "a.rs"] ⟨Graph.new, [], []⟩ = .ok st' →
          st'.reads.Nodup ∧ ∀ p ∈ st'.reads, p ∈ st'.visited_files) :=
  ⟨by decide,
    c10_traversal cyclic_provider FunctionIndex.new .Strict ["src", "a.rs"]
      ⟨Graph.new, [], []⟩ 3 (by decide)⟩

/-!
Push-level invariants: the edge-cache discipline (`edge_inv`) and the
self-loop guard on `UsesType`/`CallsStatic` edges (`ns_guard`), preserved by
every state-transforming function of the extraction.
-/

/-- For kinds other than `UsesType`/`CallsStatic` the self-loop guard is
vacuous. -/
theorem non_ut_cs_guard {k : EdgeKind} (h₁ : k ≠ EdgeKind.UsesType)
    (h₂ : k ≠ EdgeKind.CallsStatic) (f t : String) :
    (k = EdgeKind.UsesType ∨ k = EdgeKind.CallsStatic) → f ≠ t :=
  fun hk => False.elim (hk.elim (fun hx => h₁ hx) (fun hx => h₂ hx))

/-- `push_edge` preserves the push-level invariant when the pushed edge
satisfies the self-loop guard. -/
theorem push_edge_ext_inv (st : ExtState) (f t : String) (k : EdgeKind)
    (c : Confidence) (hg : (k = EdgeKind.UsesType ∨ k = EdgeKind.CallsStatic) → f ≠ t)
    (h : ext_inv st) : ext_inv (push_edge st f t k c) := by
  by_cases hnotin : edge_key_of f t k ∈ st.edge_cache
  · have hpe : push_edge st f t k c = st := by
      simp [push_edge, hnotin]
    rw [hpe]
    exact h
  · have hpe : push_edge st f t k c =
        { st with
          graph := { st.graph with edges := st.graph.edges ++ [⟨f, t, k, c⟩] }
          edge_cache := edge_key_of f t k :: st.edge_cache } := by
      simp [push_edge, hnotin]
    rw [hpe]
    obtain ⟨⟨hkeys, hnd⟩, hns⟩ := h
    refine ⟨⟨?_, ?_⟩, ?_⟩
    · intro e he
      rcases List.mem_append.1 he with he₁ | he₂
      · exact List.mem_cons_of_mem _ (hkeys e he₁)
      · have he₃ : e = ⟨f, t, k, c⟩ := by simpa using he₂
        subst he₃
        exact List.mem_cons_self _ _
    · simp only [List.map_append, List.map_cons, List.map_nil]
      rw [List.nodup_append]
      refine ⟨hnd, List.nodup_singleton _, ?_⟩
      intro a ha
      simp only [List.mem_singleton]
      rcases List.mem_map.1 ha with ⟨e, he, hkey⟩
      have hc : a ∈ st.edge_cache := hkey ▸ hkeys e he
      intro heq
      rw [heq] at hc
      exact hnotin hc
    · intro e he
      rcases List.mem_append.1 he with he₁ | he₂
      · exact hns e he₁
      · have he₃ : e = ⟨f, t, k, c⟩ := by simpa using he₂
        subst he₃
        exact hg

/-- `Graph::add_node` leaves edges and caches unchanged. -/
theorem add_node_ext_inv (st : ExtState) (n : Node) (h : ext_inv st) :
    ext_inv (st.add_node n) := h

/-- `node_cache.insert` leaves edges and the edge cache unchanged. -/
theorem cache_node_ext_inv (st : ExtState) (i : String) (h : ext_inv st) :
    ext_inv (st.cache_node i) := h

/-- `ensure_crate_node` preserves the invariant. -/
theorem ensure_crate_node_ext_inv (st : ExtState) (cn : String) (v : Visibility)
    (b : Bool) (h : ext_inv st) : ext_inv (ensure_crate_node st cn v b) := by
  unfold ensure_crate_node
  split
  · exact h
  · exact cache_node_ext_inv _ _ (add_node_ext_inv _ _ h)

/-- The `ensure_module_nodes` loop preserves the invariant. -/
theorem ensure_module_nodes_go_ext_inv (cn : String) (b : Bool) :
    ∀ (rest done : List String) (parent : String) (st : ExtState),
      ext_inv st → ext_inv (ensure_module_nodes_go cn b parent done rest st) := by
  intro rest
  induction rest with
  | nil => intro done parent st h; exact h
  | cons seg rest₁ ih =>
      intro done parent st h
      rw [ensure_module_nodes_go]
      apply ih
      have h₁ : ext_inv
          (if join_path cn (done ++ [seg]) ∈ st.node_cache then st
           else (st.add_node (blank_node (join_path cn (done ++ [seg])) seg .Module
              .Unknown b)).cache_node (join_path cn (done ++ [seg]))) := by
        split
        · exact h
        · exact cache_node_ext_inv _ _ (add_node_ext_inv _ _ h)
      split
      · exact push_edge_ext_inv _ _ _ _ _
          (non_ut_cs_guard (by decide) (by decide) _ _) h₁
      · exact h₁

/-- `ensure_module_nodes` preserves the invariant. -/
theorem ensure_module_nodes_ext_inv (st : ExtState) (cn : String)
    (path : List String) (b : Bool) (h : ext_inv st) :
    ext_inv (ensure_module_nodes st cn path b) := by
  unfold ensure_module_nodes
  split
  · exact h
  · exact ensure_module_nodes_go_ext_inv cn b _ _ _ _ h

/-- `add_uses_edges` preserves the invariant (its pushes carry the
`target ≠ owner` guard). -/
theorem add_uses_edges_ext_inv (st : ExtState) (owner : String)
    (type_ids : List RId) (krate : RCrate) (cn : String) (h : ext_inv st) :
    ext_inv (add_uses_edges st owner type_ids krate cn) := by
  unfold add_uses_edges
  refine foldl_inv ?_ _ _ h
  intro s tid hs
  split
  · exact hs
  · split
    · exact hs
    · rename_i hne
      exact push_edge_ext_inv _ _ _ _ _ (fun _ heq => hne heq.symm) hs

/-- `add_use_import_edges_with_parent_map` preserves the invariant. -/
theorem add_use_import_edges_ext_inv (st : ExtState) (krate : RCrate)
    (cn : String) (pm : List (RId × RId)) (h : ext_inv st) :
    ext_inv (add_use_import_edges_with_parent_map st krate cn pm) := by
  unfold add_use_import_edges_with_parent_map
  refine foldl_inv ?_ _ _ h
  intro s entry hs
  split
  · split
    · exact hs
    · split
      · exact hs
      · split
        · exact hs
        · split
          · exact hs
          · exact push_edge_ext_inv _ _ _ _ _
              (non_ut_cs_guard (by decide) (by decide) _ _) hs
  · exact hs

/-- `add_derives_edges` preserves the invariant. -/
theorem add_derives_edges_ext_inv (st : ExtState) (owner : String)
    (attrs : List String) (tl : List (String × List String)) (h : ext_inv st) :
    ext_inv (add_derives_edges st owner attrs tl) := by
  unfold add_derives_edges
  refine foldl_inv ?_ _ _ h
  intro s tn hs
  split
  · split
    · refine foldl_inv ?_ _ _ hs
      intro s₂ p hs₂
      exact push_edge_ext_inv _ _ _ _ _
        (non_ut_cs_guard (by decide) (by decide) _ _) hs₂
    · exact hs
  · split
    · split
      · exact push_edge_ext_inv _ _ _ _ _
          (non_ut_cs_guard (by decide) (by decide) _ _) hs
      · exact hs
    · exact hs

/-- The impl associated-items loop preserves the invariant. -/
theorem impl_assoc_items_step_ext_inv (krate : RCrate) (cn : String) (b : Bool)
    (impl_id : String) (st : ExtState) (assoc_id : RId) (h : ext_inv st) :
    ext_inv (impl_assoc_items_step krate cn b impl_id st assoc_id) := by
  unfold impl_assoc_items_step
  split
  · exact h
  · split
    · apply push_edge_ext_inv _ _ _ _ _
        (non_ut_cs_guard (by decide) (by decide) _ _)
      split
      · exact h
      · exact cache_node_ext_inv _ _ (add_node_ext_inv _ _ h)
    · exact h

/-- Pass A preserves the invariant. -/
theorem build_graph_item_step_ext_inv (krate : RCrate) (cn : String)
    (wm : List String) (mids : List RId) (st : ExtState) (entry : RId × RSummary)
    (h : ext_inv st) : ext_inv (build_graph_item_step krate cn wm mids st entry) := by
  have hemn : ∀ (icn : String) (b : Bool),
      ext_inv (ensure_module_nodes (ensure_crate_node st icn .Public b) icn
        entry.2.path b) :=
    fun icn b =>
      ensure_module_nodes_ext_inv _ _ _ _ (ensure_crate_node_ext_inv _ _ _ _ h)
  simp only [build_graph_item_step]
  repeat' split
  all_goals
    first
      | exact h
      | exact hemn _ _
      | exact cache_node_ext_inv _ _ (add_node_ext_inv _ _ (hemn _ _))
      | exact push_edge_ext_inv _ _ _ _ _
          (non_ut_cs_guard (by decide) (by decide) _ _) (hemn _ _)
      | exact push_edge_ext_inv _ _ _ _ _
          (non_ut_cs_guard (by decide) (by decide) _ _)
          (cache_node_ext_inv _ _ (add_node_ext_inv _ _ (hemn _ _)))

/-- The impl-node creation preserves the invariant. -/
theorem impl_node_create_ext_inv (krate : RCrate) (cn : String) (b : Bool)
    (impl_id : String) (t : Option RPath) (f : RType) (item : RItem)
    (st : ExtState) (h : ext_inv st) :
    ext_inv (impl_node_create krate cn b impl_id t f item st) := by
  unfold impl_node_create
  split
  · exact h
  · exact cache_node_ext_inv _ _ (add_node_ext_inv _ _ h)

/-- The impl `Contains` edge preserves the invariant. -/
theorem impl_contains_edge_ext_inv (krate : RCrate) (cn : String)
    (pm : List (RId × RId)) (item_id : RId) (impl_id : String) (st : ExtState)
    (h : ext_inv st) : ext_inv (impl_contains_edge krate cn pm item_id impl_id st) := by
  unfold impl_contains_edge
  split
  · split
    · exact push_edge_ext_inv _ _ _ _ _
        (non_ut_cs_guard (by decide) (by decide) _ _) h
    · exact h
  · exact h

/-- The impl `Defines`/`Implements` edges preserve the invariant. -/
theorem impl_relation_edges_ext_inv (krate : RCrate) (cn : String)
    (t : Option RPath) (f : RType) (impl_id : String) (st : ExtState)
    (h : ext_inv st) : ext_inv (impl_relation_edges krate cn t f impl_id st) := by
  unfold impl_relation_edges
  split
  · split
    · rename_i type_node_id hres
      have h₁ := push_edge_ext_inv st type_node_id impl_id .Defines .Static
        (non_ut_cs_guard (by decide) (by decide) _ _) h
      split
      · split
        · exact push_edge_ext_inv _ _ _ _ _
            (non_ut_cs_guard (by decide) (by decide) _ _) h₁
        · exact h₁
      · exact h₁
    · exact h
  · exact h

/-- The trait `Defines` loop preserves the invariant. -/
theorem trait_defines_edges_ext_inv (krate : RCrate) (cn : String)
    (owner_id : String) (trait_items : List RId) (st : ExtState) (h : ext_inv st) :
    ext_inv (trait_defines_edges krate cn owner_id trait_items st) := by
  unfold trait_defines_edges
  refine foldl_inv ?_ _ _ h
  intro s aid hs
  split
  · exact push_edge_ext_inv _ _ _ _ _
      (non_ut_cs_guard (by decide) (by decide) _ _) hs
  · exact hs

/-- Pass B preserves the invariant. -/
theorem build_graph_pass_b_step_ext_inv (krate : RCrate) (cn : String)
    (wm : List String) (tl : List (String × List String)) (pm : List (RId × RId))
    (st : ExtState) (entry : RId × RItem) (h : ext_inv st) :
    ext_inv (build_graph_pass_b_step krate cn wm tl pm st entry) := by
  simp only [build_graph_pass_b_step]
  split
  · apply add_derives_edges_ext_inv
    apply add_uses_edges_ext_inv
    refine foldl_inv ?_ _ _ ?_
    · intro s aid hs
      exact impl_assoc_items_step_ext_inv _ _ _ _ _ _ hs
    · apply impl_relation_edges_ext_inv
      apply impl_contains_edge_ext_inv
      apply impl_node_create_ext_inv
      exact ensure_crate_node_ext_inv _ _ _ _ h
  · split
    · exact h
    · apply add_derives_edges_ext_inv
      apply add_uses_edges_ext_inv
      split
      · exact trait_defines_edges_ext_inv _ _ _ _ _ h
      · exact h

/-- `source_add_call_edges` preserves the invariant (its pushes carry the
`caller ≠ callee` guard). -/
theorem source_add_call_edges_ext_inv (idx : FunctionIndex) (mode : CallMode)
    (st : ExtState) (caller : String) (mp : List String)
    (sts : Option TypeSegments) (calls : List CallExpr) (h : ext_inv st) :
    ext_inv (source_add_call_edges idx mode st caller mp sts calls) := by
  unfold source_add_call_edges
  refine foldl_inv ?_ _ _ h
  intro s call hs
  refine foldl_inv ?_ _ _ hs
  intro s₂ cand hs₂
  split
  · exact hs₂
  · rename_i hne
    exact push_edge_ext_inv _ _ _ _ _ (fun _ => hne) hs₂

/-- `handle_fn` preserves the invariant. -/
theorem handle_fn_ext_inv (idx : FunctionIndex) (mode : CallMode) (st : ExtState)
    (name : String) (calls : List CallExpr) (mp : List String) (h : ext_inv st) :
    ext_inv (handle_fn idx mode st name calls mp) := by
  unfold handle_fn
  split
  · exact h
  · exact source_add_call_edges_ext_inv _ _ _ _ _ _ _ h

/-- Any property of the extraction state preserved by `handle_fn` is
preserved by the whole module traversal. -/
theorem parse_ext_preserve (prov : MemProvider) (idx : FunctionIndex)
    (mode : CallMode) (A : ExtState → Prop)
    (hA : ∀ (ext : ExtState) (name : String) (calls : List CallExpr)
      (mp : List String), A ext → A (handle_fn idx mode ext name calls mp)) :
    (∀ (fuel : Nat) (path : SrcPath) (module_path : List String) (st : ParseState),
      ∀ st', parse_module_file prov idx mode fuel path module_path st = .ok st' →
        A st.ext → A st'.ext)
    ∧ (∀ (fuel : Nat) (items : List SynItem) (module_path : List String)
        (current_dir : SrcPath) (st : ParseState),
      ∀ st', parse_items prov idx mode fuel items module_path current_dir st = .ok st' →
        A st.ext → A st'.ext)
    ∧ (∀ (fuel : Nat) (item : SynItem) (module_path : List String)
        (current_dir : SrcPath) (st : ParseState),
      ∀ st', parse_one_item prov idx mode fuel item module_path current_dir st = .ok st' →
        A st.ext → A st'.ext) := by
  refine parse_module_file.mutual_induct prov idx mode _ _ _
    ?_ ?_ ?_ ?_ ?_ ?_ ?_ ?_ ?_ ?_ ?_ ?_
  · intro path module_path st st' h
    simp [parse_module_file] at h
  · intro path module_path st fuel hvis st' h
    simp only [parse_module_file, if_pos hvis] at h
    cases h
    exact fun hs => hs
  · intro path module_path st fuel hvis hread st' h
    simp only [parse_module_file, if_neg hvis, hread] at h
    exact ParseResult.noConfusion h
  · intro path module_path st fuel hvis st₁ items hread st₂ ih st' h
    simp only [parse_module_file, if_neg hvis, hread] at h
    exact fun hs => ih st' h hs
  · intro fuel module_path current_dir st st' h
    simp only [parse_items] at h
    cases h
    exact fun hs => hs
  · intro fuel module_path current_dir st item rest a hok ih₃ ih₂ st' h
    simp only [parse_items, hok] at h
    exact fun hs => ih₂ st' h (ih₃ a hok hs)
  · intro fuel module_path current_dir st item rest hok ih₃ st' h
    simp only [parse_items, hok] at h
    exact ParseResult.noConfusion h
  · intro fuel module_path current_dir st item rest hok ih₃ st' h
    simp only [parse_items, hok] at h
    exact ParseResult.noConfusion h
  · intro fuel module_path current_dir st name calls st' h
    simp only [parse_one_item] at h
    cases h
    exact fun hs => hA st.ext name calls module_path hs
  · intro fuel module_path current_dir st name items ih st' h
    simp only [parse_one_item] at h
    exact fun hs => ih st' h hs
  · intro fuel module_path current_dir st name path_override hres st' h
    simp only [parse_one_item, hres] at h
    cases h
    exact fun hs => hs
  · intro fuel module_path current_dir st name path_override module_file hres ih st' h
    simp only [parse_one_item, hres] at h
    exact fun hs => ih st' h hs

/-- The initial extraction state satisfies the invariant. -/
theorem ext_inv_init : ext_inv ⟨Graph.new, [], []⟩ := by
  refine ⟨⟨?_, ?_⟩, ?_⟩
  · intro e he
    simp [Graph.new] at he
  · simp [Graph.new]
  · intro e he
    simp [Graph.new] at he

/-- The description passes establish the invariant from scratch. -/
theorem build_graph_state_ext_inv (krate : RCrate) (cn : String)
    (wm : Option (List String)) : ext_inv (build_graph_state krate cn wm) := by
  simp only [build_graph_state]
  refine foldl_inv ?_ _ _ ?_
  · intro s entry hs
    exact build_graph_pass_b_step_ext_inv _ _ _ _ _ _ _ hs
  · apply add_use_import_edges_ext_inv
    refine foldl_inv ?_ _ _ ?_
    · intro s entry hs
      exact build_graph_item_step_ext_inv _ _ _ _ _ _ hs
    · exact ensure_crate_node_ext_inv _ _ _ _ ext_inv_init

/-- Equal triples give equal cache keys. -/
theorem key_eq_of_triple_eq (e₁ e₂ : Edge) (h : e₁.triple = e₂.triple) :
    e₁.key = e₂.key := by
  unfold Edge.triple at h
  have h₁ : e₁.from_ = e₂.from_ := congrArg Prod.fst h
  have h₂ : e₁.to_ = e₂.to_ := congrArg (fun p => p.2.1) h
  have h₃ : e₁.kind = e₂.kind := congrArg (fun p => p.2.2) h
  unfold Edge.key edge_key_of
  rw [h₁, h₂, h₃]

/-- The edge-cache discipline yields pairwise-distinct triples. -/
theorem edge_inv_triple_distinct (st : ExtState) (h : edge_inv st) :
    triple_distinct st.graph.edges := by
  have hnd := h.2
  have hpw : st.graph.edges.Pairwise (fun a b => a.key ≠ b.key) :=
    (List.pairwise_map).1 hnd
  exact hpw.imp (fun hne htr => hne (key_eq_of_triple_eq _ _ htr))

/-!
C7.
-/

/-- Counterexample to C7: a module re-exporting itself yields a `ReExports`
self-loop (no guard exists on that edge kind). -/
theorem c7_counterexample :
    (⟨"pkg::m", "pkg::m", .ReExports, .Static⟩ : Edge)
        ∈ (build_graph reexport_krate "pkg" none).edges
    ∧ ∃ e ∈ (build_graph reexport_krate "pkg" none).edges, e.from_ = e.to_ := by
  decide

/-- C7 amended: the `UsesType` and `CallsStatic` pushes are guarded by an
endpoint comparison, so those kinds are never self-loops, both in the
description-only extraction and after the call-edge pass; the other kinds
carry no such guard (counterexample: a `ReExports` self-loop). -/
theorem c7_amended (krate : RCrate) (cn : String) (wm : Option (List String))
    (prov : MemProvider) (mode : CallMode) (fuel : Nat) (root : SrcPath)
    (st' : ParseState)
    (hok : build_graph_with_source krate cn wm prov mode fuel root = .ok st') :
    no_self_loops (build_graph krate cn wm) .UsesType
    ∧ no_self_loops (build_graph krate cn wm) .CallsStatic
    ∧ no_self_loops st'.ext.graph .UsesType
    ∧ no_self_loops st'.ext.graph .CallsStatic := by
  have hbase := build_graph_state_ext_inv krate cn wm
  have hsrc : ext_inv st'.ext := by
    have hp := (parse_ext_preserve prov
      (build_function_index krate (collect_method_ids krate) cn) mode ext_inv
      (fun ext name calls mp h => handle_fn_ext_inv _ _ _ _ _ _ h)).1
    exact hp fuel root [] ⟨build_graph_state krate cn wm, [], []⟩ st' hok hbase
  refine ⟨?_, ?_, ?_, ?_⟩
  · intro e he hk
    exact hbase.2 e he (Or.inl hk)
  · intro e he hk
    exact hbase.2 e he (Or.inr hk)
  · intro e he hk
    exact hsrc.2 e he (Or.inl hk)
  · intro e he hk
    exact hsrc.2 e he (Or.inr hk)

/-- The concrete run of the cyclic provider from `src/a.rs` on top of the
`dangling_krate` description: both files are visited, each exactly once, and
the extraction state is unchanged (the files hold only module items). -/
theorem cyclic_run_eq :
    build_graph_with_source dangling_krate "pkg" none cyclic_provider .Strict 3
        ["src", "a.rs"] = .ok c7_witness_state := by
  simp only [build_graph_with_source, add_call_edges]
  rw [parse_module_file]
  simp +decide [parse_items, parse_one_item, resolve_module_file,
    resolve_module_file_default, MemProvider.file_exists, MemProvider.read,
    cyclic_provider, c7_witness_state, List.lookup, parse_module_file]

/-- Witness for C7 amended: the cyclic provider on top of the dangling-edge
description runs to completion; no `UsesType`/`CallsStatic` edge is a
self-loop. -/
theorem c7_amended_witness :
    build_graph_with_source dangling_krate "pkg" none cyclic_provider .Strict 3
        ["src", "a.rs"] = .ok c7_witness_state
    ∧ (no_self_loops (build_graph dangling_krate "pkg" none) .UsesType
      ∧ no_self_loops (build_graph dangling_krate "pkg" none) .CallsStatic
      ∧ no_self_loops c7_witness_state.ext.graph .UsesType
      ∧ no_self_loops c7_witness_state.ext.graph .CallsStatic) :=
  ⟨cyclic_run_eq,
    c7_amended dangling_krate "pkg" none cyclic_provider .Strict 3 ["src", "a.rs"]
      c7_witness_state cyclic_run_eq⟩

/-- Witness for C6: `super::super::f()` from module `a::b::c` resolves against
`a::f`, here to the unique callable `pkg::a::f` with `Static` confidence. -/
theorem c6_super_resolution_witness :
    resolve_callee_path_candidates c6_index .Strict
        (List.replicate 2 "super" ++ ["f"]) ["a", "b", "c"]
      = (add_candidates .Strict []
          (resolve_all_by_suffix c6_index.callables
            ((["a", "b", "c"] : List String).take
              ((["a", "b", "c"] : List String).length - 2) ++ ["f"]))).1
    ∧ resolve_callee_path_candidates c6_index .Strict
        (List.replicate 2 "super" ++ ["f"]) ["a", "b", "c"]
      = [("pkg::a::f", Confidence.Static)] :=
  ⟨c6_super_resolution c6_index .Strict 2 ["f"] ["a", "b", "c"] (by decide)
      (by decide)
      (by
        intro s hs
        have hsf : "f" = s := by simpa using hs
        subst hsf
        exact ⟨by decide, by decide, by decide, by decide⟩),
    by decide⟩

/-!
C8.
-/

/-- Pairwise-distinct keys give pairwise-distinct triples. -/
theorem keys_nodup_triple_distinct (l : List Edge)
    (h : (l.map Edge.key).Nodup) : triple_distinct l := by
  have hpw : l.Pairwise (fun a b => Edge.key a ≠ Edge.key b) :=
    (List.pairwise_map).1 h
  exact hpw.imp (fun hne htr => hne (key_eq_of_triple_eq _ _ htr))

/-- One merge step preserves the edge-merge invariant. -/
theorem merge_edge_step_inv (acc : List String × List Edge) (e : Edge)
    (h : merge_acc_inv acc) : merge_acc_inv (merge_edge_step acc e) := by
  by_cases hk : e.key ∈ acc.1
  · simpa [merge_edge_step, hk] using h
  · refine ⟨?_, ?_⟩
    · intro e' he'
      simp only [merge_edge_step, if_neg hk] at he' ⊢
      rcases List.mem_append.1 he' with h' | h'
      · exact List.mem_cons_of_mem _ (h.1 e' h')
      · simp only [List.mem_singleton] at h'
        subst h'
        exact List.mem_cons_self _ _
    · simp only [merge_edge_step, if_neg hk, List.map_append, List.map_cons,
        List.map_nil]
      rw [List.nodup_append]
      refine ⟨h.2, List.nodup_singleton _, ?_⟩
      intro k hkmem hksing
      simp only [List.mem_singleton] at hksing
      subst hksing
      rcases List.mem_map.1 hkmem with ⟨e', he', hke⟩
      exact hk (hke ▸ h.1 e' he')

/-- The deduplicated edge list of the workspace merge has pairwise-distinct
keys. -/
theorem merge_graph_edges_keys_nodup (graphs : List Graph) :
    ((merge_graph_edges graphs).map Edge.key).Nodup := by
  have h : merge_acc_inv
      (graphs.foldl (fun acc g => g.edges.foldl merge_edge_step acc) ([], [])) := by
    refine foldl_inv ?_ _ _ ?_
    · intro s g hs
      exact foldl_inv (fun s' e hs' => merge_edge_step_inv s' e hs') _ _ hs
    · exact ⟨fun e he => absurd he (List.not_mem_nil e), List.nodup_nil⟩
  exact h.2

/-- `assoc_push` adds exactly its value to the payload multiset. -/
theorem flatten_values_assoc_push {α : Type} (m : List (String × List α))
    (k : String) (v : α) :
    (↑(flatten_values (assoc_push m k v)) : Multiset α)
      = ↑(flatten_values m) + {v} := by
  induction m with
  | nil => simp [assoc_push, flatten_values]
  | cons p rest ih =>
      obtain ⟨k₁, vs⟩ := p
      by_cases hk : k₁ = k
      · simp only [assoc_push, if_pos hk, flatten_values, List.map_cons,
          List.flatten_cons]
        simp only [← Multiset.coe_add, ← Multiset.cons_coe,
          ← Multiset.singleton_add, Multiset.coe_nil, add_zero]
        ac_rfl
      · simp only [assoc_push, if_neg hk, flatten_values, List.map_cons,
          List.flatten_cons]
        simp only [flatten_values] at ih
        simp only [← Multiset.coe_add]
        rw [ih]
        ac_rfl

/-- `assoc_remove` splits the payload multiset into the removed bucket and the
rest. -/
theorem flatten_values_assoc_remove {α : Type} (m : List (String × List α))
    (k : String) :
    (↑(assoc_remove m k).1 : Multiset α) + ↑(flatten_values (assoc_remove m k).2)
      = ↑(flatten_values m) := by
  induction m with
  | nil => simp [assoc_remove, flatten_values]
  | cons p rest ih =>
      obtain ⟨k₁, vs⟩ := p
      by_cases hk : k₁ = k
      · simp only [assoc_remove, if_pos hk, flatten_values, List.map_cons,
          List.flatten_cons]
        simp only [← Multiset.coe_add]
      · simp only [assoc_remove, if_neg hk, flatten_values, List.map_cons,
          List.flatten_cons]
        simp only [flatten_values] at ih
        simp only [← Multiset.coe_add]
        rw [← ih]
        ac_rfl

/-- The partition fold redistributes the processed edges between the crate
buckets and the cross-crate list without loss or duplication. -/
theorem partition_foldl_mset (es : List Edge) :
    ∀ acc : List (String × List Edge) × List Edge,
      (↑(flatten_values (es.foldl partition_step acc).1) : Multiset Edge)
        + ↑(es.foldl partition_step acc).2
      = ↑(flatten_values acc.1) + ↑acc.2 + ↑es := by
  induction es with
  | nil => intro acc; simp
  | cons e rest ih =>
      intro acc
      rw [List.foldl_cons, ih]
      by_cases hc : node_crate e.from_ = node_crate e.to_
      · simp only [partition_step, if_pos hc]
        rw [flatten_values_assoc_push]
        simp only [← Multiset.coe_add, ← Multiset.cons_coe,
          ← Multiset.singleton_add, Multiset.coe_nil, add_zero]
        ac_rfl
      · simp only [partition_step, if_neg hc]
        simp only [← Multiset.coe_add, ← Multiset.cons_coe,
          ← Multiset.singleton_add, Multiset.coe_nil, add_zero]
        ac_rfl

/-- `partition_edges` redistributes the merged edges exactly. -/
theorem partition_edges_mset (es : List Edge) :
    (↑(flatten_values (partition_edges es).1) : Multiset Edge)
      + ↑(partition_edges es).2 = ↑es := by
  have h := partition_foldl_mset es ([], [])
  simpa [partition_edges, flatten_values] using h

/-- The member loop moves edge buckets from the table into the crate graphs;
the combined multiset is unchanged. -/
theorem member_foldl_mset (cv : List (String × String)) (ms : List String)
    (acc : List CrateGraph × List (String × List Node) × List (String × List Edge))
    (C : Multiset Edge)
    (h : (↑(crates_edges acc.1) : Multiset Edge) + ↑(flatten_values acc.2.2) = C) :
    (↑(crates_edges (ms.foldl (member_step cv) acc).1) : Multiset Edge)
      + ↑(flatten_values (ms.foldl (member_step cv) acc).2.2) = C := by
  refine @foldl_inv _ _ (fun (acc : List CrateGraph × List (String × List Node)
      × List (String × List Edge)) =>
    (↑(crates_edges acc.1) : Multiset Edge) + ↑(flatten_values acc.2.2) = C)
    _ ?_ ms acc h
  intro s m hs
  simp only [member_step, crates_edges, List.map_append, List.flatten_append,
    List.map_cons, List.map_nil, List.flatten_cons, List.flatten_nil] at hs ⊢
  rw [← hs, ← flatten_values_assoc_remove s.2.2 m]
  simp only [← Multiset.coe_add, ← Multiset.cons_coe, ← Multiset.singleton_add,
    Multiset.coe_nil, add_zero]
  ac_rfl

/-- Insertion keeps the multiset. -/
theorem insert_le_mset {α : Type} (le : α → α → Bool) (a : α) (l : List α) :
    (↑(insert_le le a l) : Multiset α) = a ::ₘ ↑l := by
  induction l with
  | nil => rfl
  | cons b rest ih =>
      by_cases h : le a b
      · simp [insert_le, h]
      · simp only [insert_le, if_neg h]
        rw [show ((↑(b :: insert_le le a rest) : Multiset α))
          = b ::ₘ ↑(insert_le le a rest) from rfl, ih]
        exact (Multiset.cons_swap a b ↑rest).symm

/-- Sorting keeps the multiset. -/
theorem sort_le_mset {α : Type} (le : α → α → Bool) (l : List α) :
    (↑(sort_le le l) : Multiset α) = ↑l := by
  induction l with
  | nil => rfl
  | cons a rest ih =>
      simp only [sort_le, List.foldr_cons] at ih ⊢
      rw [insert_le_mset, ih]
      rfl

/-- Sorting the crate graphs keeps the combined edge multiset. -/
theorem crates_edges_sort (le : CrateGraph → CrateGraph → Bool)
    (l : List CrateGraph) :
    (↑(crates_edges (sort_le le l)) : Multiset Edge) = ↑(crates_edges l) := by
  have hperm : List.Perm (sort_le le l) l := Multiset.coe_eq_coe.1 (sort_le_mset le l)
  exact Multiset.coe_eq_coe.2 ((hperm.map CrateGraph.edges).flatten)

/-- The combined edge collections of the merged workspace are a sub-multiset
of the deduplicated merged edges. -/
theorem workspace_edges_le_merged (graphs : List Graph) (ms : List String)
    (cv : List (String × String)) :
    (↑(workspace_all_edges (load_workspace_merge graphs ms cv)) : Multiset Edge)
      ≤ ↑(merge_graph_edges graphs) := by
  have hs := crates_edges_sort (fun a b => str_le a.id b.id)
    (ms.foldl (member_step cv)
      ([], group_nodes_by_crate (merge_graph_nodes graphs),
        (partition_edges (merge_graph_edges graphs)).1)).1
  have hmem := member_foldl_mset cv ms
    ([], group_nodes_by_crate (merge_graph_nodes graphs),
      (partition_edges (merge_graph_edges graphs)).1)
    (↑(flatten_values (partition_edges (merge_graph_edges graphs)).1))
    (by simp [crates_edges, flatten_values])
  have hpart := partition_edges_mset (merge_graph_edges graphs)
  simp only [workspace_all_edges, load_workspace_merge]
  simp only [crates_edges] at hs hmem
  rw [← Multiset.coe_add, hs]
  refine le_trans (add_le_add (Multiset.le_add_right _
    (↑(flatten_values (ms.foldl (member_step cv)
      ([], group_nodes_by_crate (merge_graph_nodes graphs),
        (partition_edges (merge_graph_edges graphs)).1)).2.2))) (le_refl _)) ?_
  rw [hmem]
  exact le_of_eq hpart

/-- The combined workspace edge collections have pairwise-distinct keys. -/
theorem workspace_keys_nodup (graphs : List Graph) (ms : List String)
    (cv : List (String × String)) :
    ((workspace_all_edges (load_workspace_merge graphs ms cv)).map Edge.key).Nodup := by
  have hle := workspace_edges_le_merged graphs ms cv
  have hmap := @Multiset.map_le_map _ _ Edge.key _ _ hle
  have hnd : (Multiset.map Edge.key ↑(merge_graph_edges graphs)).Nodup := by
    rw [Multiset.map_coe]
    exact Multiset.coe_nodup.2 (merge_graph_edges_keys_nodup graphs)
  have h := Multiset.nodup_of_le hmap hnd
  rw [Multiset.map_coe] at h
  exact Multiset.coe_nodup.1 h

/-- C8: within every extracted graph (with or without the call-edge pass) and
within the merged workspace's combined edge collections, each
`(from, to, kind)` triple occurs on at most one edge. -/
theorem c8_triple_unique (krate : RCrate) (cn : String) (wm : Option (List String))
    (prov : MemProvider) (mode : CallMode) (fuel : Nat) (root : SrcPath)
    (st' : ParseState)
    (hok : build_graph_with_source krate cn wm prov mode fuel root = .ok st')
    (graphs : List Graph) (ms : List String) (cv : List (String × String)) :
    triple_distinct (build_graph krate cn wm).edges
    ∧ triple_distinct st'.ext.graph.edges
    ∧ triple_distinct (merge_graph_edges graphs)
    ∧ triple_distinct (workspace_all_edges (load_workspace_merge graphs ms cv)) := by
  refine ⟨?_, ?_, ?_, ?_⟩
  · exact edge_inv_triple_distinct _ (build_graph_state_ext_inv krate cn wm).1
  · have hsrc : ext_inv st'.ext := by
      have hp := (parse_ext_preserve prov
        (build_function_index krate (collect_method_ids krate) cn) mode ext_inv
        (fun ext name calls mp h => handle_fn_ext_inv _ _ _ _ _ _ h)).1
      exact hp fuel root [] ⟨build_graph_state krate cn wm, [], []⟩ st' hok
        (build_graph_state_ext_inv krate cn wm)
    exact edge_inv_triple_distinct _ hsrc.1
  · exact keys_nodup_triple_distinct _ (merge_graph_edges_keys_nodup graphs)
  · exact keys_nodup_triple_distinct _ (workspace_keys_nodup graphs ms cv)

/-- Witness for C8 at the cyclic-provider run and the C5 workspace input. -/
theorem c8_triple_unique_witness :
    build_graph_with_source dangling_krate "pkg" none cyclic_provider .Strict 3
        ["src", "a.rs"] = .ok c7_witness_state
    ∧ (triple_distinct (build_graph dangling_krate "pkg" none).edges
      ∧ triple_distinct c7_witness_state.ext.graph.edges
      ∧ triple_distinct (merge_graph_edges c5_graphs)
      ∧ triple_distinct
          (workspace_all_edges (load_workspace_merge c5_graphs ["a"] []))) :=
  ⟨cyclic_run_eq,
    c8_triple_unique dangling_krate "pkg" none cyclic_provider .Strict 3
      ["src", "a.rs"] c7_witness_state cyclic_run_eq c5_graphs ["a"] []⟩


/-!
C5.
-/

/-- `assoc_push` appends to the addressed bucket and leaves the others. -/
theorem assoc_get_push {α : Type} (m : List (String × List α)) (k k' : String)
    (v : α) :
    assoc_get (assoc_push m k v) k'
      = if k' = k then assoc_get m k' ++ [v] else assoc_get m k' := by
  induction m with
  | nil =>
      by_cases h : k' = k
      · subst h; simp [assoc_push, assoc_get]
      · have h' : ¬k = k' := fun hh => h hh.symm
        simp [assoc_push, assoc_get, h, h']
  | cons p rest ih =>
      obtain ⟨k₁, vs⟩ := p
      by_cases h1 : k₁ = k
      · subst h1
        simp only [assoc_push, if_pos rfl]
        by_cases h2 : k' = k₁
        · subst h2; simp [assoc_get]
        · have h2' : ¬k₁ = k' := fun hh => h2 hh.symm
          simp [assoc_get, h2, h2']
      · simp only [assoc_push, if_neg h1]
        by_cases h2 : k₁ = k'
        · subst h2
          simp [assoc_get, h1]
        · simp [assoc_get, h2, ih]

/-- `assoc_remove` returns the addressed bucket. -/
theorem assoc_remove_fst {α : Type} (m : List (String × List α)) (k : String) :
    (assoc_remove m k).1 = assoc_get m k := by
  induction m with
  | nil => rfl
  | cons p rest ih =>
      obtain ⟨k₁, vs⟩ := p
      by_cases h : k₁ = k
      · simp [assoc_remove, assoc_get, h]
      · simp [assoc_remove, assoc_get, h, ih]

/-- `assoc_remove` leaves the other buckets. -/
theorem assoc_get_remove_ne {α : Type} (m : List (String × List α))
    (k k' : String) (h : k' ≠ k) :
    assoc_get (assoc_remove m k).2 k' = assoc_get m k' := by
  induction m with
  | nil => rfl
  | cons p rest ih =>
      obtain ⟨k₁, vs⟩ := p
      by_cases h1 : k₁ = k
      · subst h1
        have h' : ¬k₁ = k' := fun hh => h hh.symm
        simp [assoc_remove, assoc_get, h']
      · simp only [assoc_remove, if_neg h1]
        by_cases h2 : k₁ = k'
        · simp [assoc_get, h2]
        · simp [assoc_get, h2, ih]

/-- The partition fold only grows the crate buckets. -/
theorem partition_foldl_bucket_mono (es : List Edge) :
    ∀ (acc : List (String × List Edge) × List Edge) (c : String) (e : Edge),
      e ∈ assoc_get acc.1 c →
      e ∈ assoc_get (es.foldl partition_step acc).1 c := by
  induction es with
  | nil => intro acc c e he; exact he
  | cons e' rest ih =>
      intro acc c e he
      rw [List.foldl_cons]
      refine ih _ c e ?_
      by_cases hc : node_crate e'.from_ = node_crate e'.to_
      · simp only [partition_step, if_pos hc]
        rw [assoc_get_push]
        by_cases h : c = node_crate e'.from_
        · rw [if_pos h]; exact List.mem_append_left _ he
        · rw [if_neg h]; exact he
      · simpa only [partition_step, if_neg hc] using he

/-- An intra-crate edge lands in its crate's bucket of the partition. -/
theorem partition_bucket_mem (es : List Edge) (e : Edge)
    (hc : node_crate e.from_ = node_crate e.to_) :
    ∀ acc : List (String × List Edge) × List Edge, e ∈ es →
      e ∈ assoc_get (es.foldl partition_step acc).1 (node_crate e.from_) := by
  induction es with
  | nil => intro acc he; exact absurd he (List.not_mem_nil e)
  | cons e' rest ih =>
      intro acc he
      rw [List.foldl_cons]
      rcases List.mem_cons.1 he with he' | he'
      · subst he'
        refine partition_foldl_bucket_mono rest _ _ e ?_
        simp only [partition_step, if_pos hc]
        rw [assoc_get_push, if_pos rfl]
        exact List.mem_append_right _ (List.mem_singleton.2 rfl)
      · exact ih _ he'

/-- The cross-crate list of the partition fold is exactly the filter of the
differing-endpoint edges. -/
theorem partition_foldl_cross (es : List Edge) :
    ∀ acc : List (String × List Edge) × List Edge,
      (es.foldl partition_step acc).2
        = acc.2 ++ es.filter
            (fun e => !decide (node_crate e.from_ = node_crate e.to_)) := by
  induction es with
  | nil => intro acc; simp
  | cons e rest ih =>
      intro acc
      rw [List.foldl_cons, ih]
      by_cases hc : node_crate e.from_ = node_crate e.to_
      · simp [partition_step, hc]
      · simp [partition_step, hc]

/-- The member loop only grows the crate-graph list. -/
theorem member_foldl_crates_mono (cv : List (String × String)) (ms : List String) :
    ∀ (acc : List CrateGraph × List (String × List Node) × List (String × List Edge))
      (cg : CrateGraph), cg ∈ acc.1 → cg ∈ (ms.foldl (member_step cv) acc).1 := by
  induction ms with
  | nil => intro acc cg h; exact h
  | cons m rest ih =>
      intro acc cg h
      rw [List.foldl_cons]
      exact ih _ cg (List.mem_append_left _ h)

/-- An edge sitting in a member's bucket ends up in that member's crate
graph. -/
theorem member_foldl_bucket (cv : List (String × String)) (ms : List String)
    (m : String) (e : Edge) :
    ∀ acc : List CrateGraph × List (String × List Node) × List (String × List Edge),
      m ∈ ms → e ∈ assoc_get acc.2.2 m →
      ∃ cg ∈ (ms.foldl (member_step cv) acc).1, cg.id = m ∧ e ∈ cg.edges := by
  induction ms with
  | nil => intro acc hm _; exact absurd hm (List.not_mem_nil m)
  | cons m' rest ih =>
      intro acc hm he
      rw [List.foldl_cons]
      by_cases h : m' = m
      · subst h
        refine ⟨⟨m', m', ((cv.lookup m').getD "0.0.0"),
            (assoc_remove acc.2.1 m').1, (assoc_remove acc.2.2 m').1⟩,
          member_foldl_crates_mono cv rest _ _ ?_, rfl, ?_⟩
        · simp [member_step]
        · show e ∈ (assoc_remove acc.2.2 m').1
          rw [assoc_remove_fst]
          exact he
      · rcases List.mem_cons.1 hm with hm' | hm'
        · exact absurd hm'.symm h
        · refine ih _ hm' ?_
          show e ∈ assoc_get (member_step cv acc m').2.2 m
          simp only [member_step]
          rw [assoc_get_remove_ne _ _ _ (fun hh : m = m' => h hh.symm)]
          exact he

/-- Sorting keeps membership. -/
theorem sort_le_mem {α : Type} (le : α → α → Bool) (l : List α) (a : α) :
    a ∈ sort_le le l ↔ a ∈ l :=
  (Multiset.coe_eq_coe.1 (sort_le_mset le l)).mem_iff

/-- Counterexample to C5: the intra-package edge `c5_eint` of the non-member
package `std` survives the merge deduplication but appears in no member crate
graph and not in `cross_crate_edges`: it is silently dropped. -/
theorem c5_counterexample :
    node_crate c5_eint.from_ = node_crate c5_eint.to_
    ∧ c5_eint ∈ merge_graph_edges c5_graphs
    ∧ (∀ cg ∈ (load_workspace_merge c5_graphs ["a"] []).crates,
        c5_eint ∉ cg.edges)
    ∧ c5_eint ∉ (load_workspace_merge c5_graphs ["a"] []).cross_crate_edges := by
  decide

/-- C5 amended: `cross_crate_edges` is exactly the differing-endpoint subset
of the deduplicated merge, and an intra-package edge of a *member* package
lands in that member's crate graph; intra-package edges of non-member
packages are dropped (counterexample above). -/
theorem c5_amended (graphs : List Graph) (ms : List String)
    (cv : List (String × String)) :
    (load_workspace_merge graphs ms cv).cross_crate_edges
      = (merge_graph_edges graphs).filter
          (fun e => !decide (node_crate e.from_ = node_crate e.to_))
    ∧ ∀ e ∈ merge_graph_edges graphs,
        node_crate e.from_ = node_crate e.to_ →
        node_crate e.from_ ∈ ms →
        ∃ cg ∈ (load_workspace_merge graphs ms cv).crates,
          cg.id = node_crate e.from_ ∧ e ∈ cg.edges := by
  constructor
  · simp only [load_workspace_merge]
    rw [show (partition_edges (merge_graph_edges graphs)).2
      = _ from partition_foldl_cross (merge_graph_edges graphs) ([], [])]
    rfl
  · intro e he hc hm
    have hbucket : e ∈ assoc_get
        (partition_edges (merge_graph_edges graphs)).1 (node_crate e.from_) :=
      partition_bucket_mem (merge_graph_edges graphs) e hc ([], []) he
    obtain ⟨cg, hcg, hid, hecg⟩ := member_foldl_bucket cv ms (node_crate e.from_) e
      ([], group_nodes_by_crate (merge_graph_nodes graphs),
        (partition_edges (merge_graph_edges graphs)).1) hm hbucket
    refine ⟨cg, ?_, hid, hecg⟩
    simp only [load_workspace_merge]
    exact (sort_le_mem _ _ _).2 hcg

/-- Witness for C5 amended: on the C5 input, the cross list is the filter and
the member edge `c5_ea` is placed in member `a`'s crate graph. -/
theorem c5_amended_witness :
    (load_workspace_merge c5_graphs ["a"] []).cross_crate_edges
      = (merge_graph_edges c5_graphs).filter
          (fun e => !decide (node_crate e.from_ = node_crate e.to_))
    ∧ ∃ cg ∈ (load_workspace_merge c5_graphs ["a"] []).crates,
        cg.id = node_crate c5_ea.from_ ∧ c5_ea ∈ cg.edges :=
  ⟨(c5_amended c5_graphs ["a"] []).1,
    (c5_amended c5_graphs ["a"] []).2 c5_ea (by decide) (by decide) (by decide)⟩


/-!
C4.
-/

/-- A fold ignores the elements its step skips. -/
theorem foldl_filter_skip {α σ : Type} (p : α → Bool) (f : σ → α → σ)
    (hf : ∀ s a, p a = false → f s a = s) :
    ∀ (l : List α) (s : σ), (l.filter p).foldl f s = l.foldl f s := by
  intro l
  induction l with
  | nil => intro s; rfl
  | cons x xs ih =>
      intro s
      rw [List.filter_cons]
      by_cases hx : p x = true
      · rw [if_pos hx]
        simp only [List.foldl_cons]
        exact ih _
      · have hx' : p x = false := by revert hx; cases p x <;> simp
        rw [if_neg (by simp [hx'])]
        rw [List.foldl_cons, hf s x hx']
        exact ih s

/-- Pass A skips an internal-path entry outright. -/
theorem build_graph_item_step_internal (krate : RCrate) (cn : String)
    (wml : List String) (mids : List RId) (st : ExtState)
    (entry : RId × RSummary) (h : is_internal_path entry.2.path = true) :
    build_graph_item_step krate cn wml mids st entry = st := by
  simp only [build_graph_item_step]
  split
  · rfl
  · by_cases he : entry.2.path.isEmpty <;> simp [he, h]

/-- Counterexample to C4: the field type of `my::S` is the internal-path
struct `my::__Hidden`; Pass B still emits a `UsesType` edge to its ID, so an
edge incident to a skipped item's ID is produced. -/
theorem c4_counterexample :
    is_internal_path ["my", "__Hidden"] = true
    ∧ (∃ e ∈ (build_graph dangling_krate "pkg" none).edges,
        e.to_ = "pkg::my::__Hidden")
    ∧ "pkg::my::__Hidden" ∉ node_ids (build_graph dangling_krate "pkg" none) := by
  decide

/-- C4 amended: the internal-path skip holds for node creation — Pass A over
the paths table equals Pass A over the table with internal entries removed,
and the function index likewise ignores internal entries — but edges incident
to skipped IDs are still emitted by Pass B (counterexample above), because
`resolve_id` carries no internal-path filter. -/
theorem c4_amended (krate : RCrate) (cn : String) (wml : List String)
    (mids : List RId) (st : ExtState) :
    (filter_internal_paths krate).foldl
        (build_graph_item_step krate cn wml mids) st
      = krate.paths.foldl (build_graph_item_step krate cn wml mids) st
    ∧ build_function_index
        ⟨krate.index, filter_internal_paths krate, krate.external_crates⟩ mids cn
      = build_function_index krate mids cn := by
  constructor
  · exact foldl_filter_skip _ _
      (fun s a ha =>
        build_graph_item_step_internal krate cn wml mids s a (by simpa using ha))
      krate.paths st
  · simp only [build_function_index]
    exact foldl_filter_skip _ _
      (fun s a ha => by
        have h : is_internal_path a.2.path = true := by simpa using ha
        by_cases hk : a.2.kind ≠ RItemKind.Function
          <;> by_cases he : a.2.path.isEmpty <;> simp [hk, he, h])
      krate.paths FunctionIndex.new


/-!
C3.
-/

/-- `push_edge` leaves the node cache unchanged. -/
theorem push_edge_node_cache (st : ExtState) (f t : String) (k : EdgeKind)
    (c : Confidence) : (push_edge st f t k c).node_cache = st.node_cache := by
  simp only [push_edge]
  split <;> rfl

/-- The node IDs after `add_node` + `cache_node`. -/
theorem node_ids_add (st : ExtState) (n : Node) (i : String) :
    node_ids ((st.add_node n).cache_node i).graph = node_ids st.graph ++ [n.id] := by
  simp [node_ids, ExtState.add_node, ExtState.cache_node]

/-- A cached-endpoint push preserves the endpoint invariant. -/
theorem push_edge_ends_inv (st : ExtState) (f t : String) (k : EdgeKind)
    (c : Confidence) (h : ends_inv st) (hf : f ∈ st.node_cache)
    (ht : t ∈ st.node_cache) : ends_inv (push_edge st f t k c) := by
  simp only [push_edge]
  by_cases hkey : edge_key_of f t k ∈ st.edge_cache
  · simpa [hkey] using h
  · simp only [if_neg hkey]
    constructor
    · intro i hi
      exact h.1 i hi
    · intro e he
      rcases List.mem_append.1 he with he | he
      · exact h.2 e he
      · simp only [List.mem_singleton] at he
        subst he
        exact ⟨h.1 f hf, h.1 t ht⟩

/-- Adding a node and caching its ID preserves the endpoint invariant. -/
theorem add_cache_ends_inv (st : ExtState) (n : Node) (h : ends_inv st) :
    ends_inv ((st.add_node n).cache_node n.id) := by
  constructor
  · intro i hi
    rw [node_ids_add]
    rcases List.mem_cons.1 hi with hi | hi
    · subst hi
      exact List.mem_append_right _ (List.mem_singleton.2 rfl)
    · exact List.mem_append_left _ (h.1 i hi)
  · intro e he
    have h2 := h.2 e he
    rw [node_ids_add]
    exact ⟨List.mem_append_left _ h2.1, List.mem_append_left _ h2.2⟩

/-- `ensure_crate_node` preserves the endpoint invariant. -/
theorem ensure_crate_node_ends (st : ExtState) (cn : String) (v : Visibility)
    (ext : Bool) (h : ends_inv st) : ends_inv (ensure_crate_node st cn v ext) := by
  simp only [ensure_crate_node]
  split
  · exact h
  · exact add_cache_ends_inv st _ h

/-- `ensure_crate_node` grows the node cache. -/
theorem ensure_crate_node_mono (st : ExtState) (cn : String) (v : Visibility)
    (ext : Bool) : st.node_cache ⊆ (ensure_crate_node st cn v ext).node_cache := by
  simp only [ensure_crate_node]
  split
  · exact fun _ hi => hi
  · exact fun _ hi => List.mem_cons_of_mem _ hi

/-- `ensure_crate_node` caches the crate name. -/
theorem ensure_crate_node_caches (st : ExtState) (cn : String) (v : Visibility)
    (ext : Bool) : cn ∈ (ensure_crate_node st cn v ext).node_cache := by
  simp only [ensure_crate_node]
  split
  · assumption
  · exact List.mem_cons_self _ _

/-- The module-chain loop grows the node cache. -/
theorem ensure_module_nodes_go_mono (cn : String) (b : Bool) :
    ∀ (rest done : List String) (parent : String) (st : ExtState),
      st.node_cache ⊆ (ensure_module_nodes_go cn b parent done rest st).node_cache := by
  intro rest
  induction rest with
  | nil => intro done parent st i hi; exact hi
  | cons seg rest₁ ih =>
      intro done parent st i hi
      rw [ensure_module_nodes_go]
      apply ih
      have h₁ : i ∈
          (if join_path cn (done ++ [seg]) ∈ st.node_cache then st
           else (st.add_node (blank_node (join_path cn (done ++ [seg])) seg .Module
              .Unknown b)).cache_node (join_path cn (done ++ [seg]))).node_cache := by
        split
        · exact hi
        · exact List.mem_cons_of_mem _ hi
      split
      · rw [push_edge_node_cache]; exact h₁
      · exact h₁

/-- The module-chain loop caches the ID of the full segment chain. -/
theorem ensure_module_nodes_go_caches (cn : String) (b : Bool) :
    ∀ (rest done : List String) (parent : String) (st : ExtState), rest ≠ [] →
      join_path cn (done ++ rest)
        ∈ (ensure_module_nodes_go cn b parent done rest st).node_cache := by
  intro rest
  induction rest with
  | nil => intro done parent st h; exact absurd rfl h
  | cons seg rest₁ ih =>
      intro done parent st _
      rw [ensure_module_nodes_go]
      by_cases hr : rest₁ = []
      · subst hr
        rw [ensure_module_nodes_go]
        have h₁ : join_path cn (done ++ [seg]) ∈
            (if join_path cn (done ++ [seg]) ∈ st.node_cache then st
             else (st.add_node (blank_node (join_path cn (done ++ [seg])) seg .Module
                .Unknown b)).cache_node (join_path cn (done ++ [seg]))).node_cache := by
          split
          · assumption
          · exact List.mem_cons_self _ _
        split
        · rw [push_edge_node_cache]; exact h₁
        · exact h₁
      · rw [show done ++ seg :: rest₁ = (done ++ [seg]) ++ rest₁ by simp]
        exact ih _ _ _ hr

/-- The module-chain loop preserves the endpoint invariant when the incoming
parent is cached. -/
theorem ensure_module_nodes_go_ends (cn : String) (b : Bool) :
    ∀ (rest done : List String) (parent : String) (st : ExtState),
      parent ∈ st.node_cache → ends_inv st →
      ends_inv (ensure_module_nodes_go cn b parent done rest st) := by
  intro rest
  induction rest with
  | nil => intro done parent st _ h; exact h
  | cons seg rest₁ ih =>
      intro done parent st hpar h
      rw [ensure_module_nodes_go]
      have h₁ : ends_inv
          (if join_path cn (done ++ [seg]) ∈ st.node_cache then st
           else (st.add_node (blank_node (join_path cn (done ++ [seg])) seg .Module
              .Unknown b)).cache_node (join_path cn (done ++ [seg]))) := by
        split
        · exact h
        · exact add_cache_ends_inv st _ h
      have hmid : join_path cn (done ++ [seg]) ∈
          (if join_path cn (done ++ [seg]) ∈ st.node_cache then st
           else (st.add_node (blank_node (join_path cn (done ++ [seg])) seg .Module
              .Unknown b)).cache_node (join_path cn (done ++ [seg]))).node_cache := by
        split
        · assumption
        · exact List.mem_cons_self _ _
      have hpar₁ : parent ∈
          (if join_path cn (done ++ [seg]) ∈ st.node_cache then st
           else (st.add_node (blank_node (join_path cn (done ++ [seg])) seg .Module
              .Unknown b)).cache_node (join_path cn (done ++ [seg]))).node_cache := by
        split
        · exact hpar
        · exact List.mem_cons_of_mem _ hpar
      refine ih _ _ _ ?_ ?_
      · split
        · rw [push_edge_node_cache]; exact hmid
        · exact hmid
      · split
        · exact push_edge_ends_inv _ _ _ _ _ h₁ hpar₁ hmid
        · exact h₁

/-- `ensure_module_nodes` grows the node cache. -/
theorem ensure_module_nodes_mono (st : ExtState) (cn : String)
    (path : List String) (b : Bool) :
    st.node_cache ⊆ (ensure_module_nodes st cn path b).node_cache := by
  unfold ensure_module_nodes
  split
  · exact fun _ hi => hi
  · exact ensure_module_nodes_go_mono cn b _ _ _ _

/-- `ensure_module_nodes` preserves the endpoint invariant when the crate
node is cached. -/
theorem ensure_module_nodes_ends (st : ExtState) (cn : String)
    (path : List String) (b : Bool) (hc : cn ∈ st.node_cache) (h : ends_inv st) :
    ends_inv (ensure_module_nodes st cn path b) := by
  unfold ensure_module_nodes
  split
  · exact h
  · exact ensure_module_nodes_go_ends cn b _ _ _ _ hc h

/-- `ensure_module_nodes` caches the parent-chain ID of a length-two-or-more
path. -/
theorem ensure_module_nodes_caches_parent (st : ExtState) (cn : String)
    (path : List String) (b : Bool) (hlen : 2 ≤ path.length) :
    join_path cn path.dropLast ∈ (ensure_module_nodes st cn path b).node_cache := by
  unfold ensure_module_nodes
  split
  · omega
  · have hne : path.dropLast ≠ [] := by
      have hl : path.dropLast.length = path.length - 1 := List.length_dropLast path
      intro hnil
      rw [hnil] at hl
      simp at hl
      omega
    have := ensure_module_nodes_go_caches cn b path.dropLast [] cn st hne
    simpa using this


/-- A successful association-list lookup means the pair occurs in the list. -/
theorem lookup_mem {α β : Type} [BEq α] [LawfulBEq α] (l : List (α × β))
    (k : α) (v : β) (h : l.lookup k = some v) : (k, v) ∈ l := by
  induction l with
  | nil => simp [List.lookup] at h
  | cons x xs ih =>
      obtain ⟨k₁, v₁⟩ := x
      cases hbeq : (k == k₁) with
      | true =>
          have heq : k = k₁ := eq_of_beq hbeq
          subst heq
          simp only [List.lookup, hbeq] at h
          cases h
          exact List.mem_cons_self _ _
      | false =>
          simp only [List.lookup, hbeq] at h
          exact List.mem_cons_of_mem _ (ih h)

/-- A resolved ID is cached once every paths entry is cached. -/
theorem resolve_id_cached (krate : RCrate) (cn : String) (st : ExtState)
    (hp : paths_cached krate cn st) (i : RId) (nid : String)
    (hres : resolve_id krate cn i = some nid) : nid ∈ st.node_cache := by
  simp only [resolve_id, RCrate.paths_get] at hres
  cases hlook : krate.paths.lookup i with
  | none => rw [hlook] at hres; simp at hres
  | some summary =>
      rw [hlook] at hres
      have hres' : join_path (crate_name_for_id krate summary.crate_id cn)
          summary.path = nid := by simpa using hres
      rw [← hres']
      exact hp (i, summary) (lookup_mem _ _ _ hlook)

/-- Every non-`Other` kind maps to a node kind. -/
theorem map_item_kind_ne_other (kind : RItemKind) (b : Bool)
    (h : kind ≠ RItemKind.Other) : ∃ nk, map_item_kind kind b = some nk := by
  cases kind <;> simp [map_item_kind] at h ⊢

/-- A fold whose step grows the node cache grows the node cache. -/
theorem foldl_cache_mono {α : Type} (f : ExtState → α → ExtState)
    (hf : ∀ s a, s.node_cache ⊆ (f s a).node_cache) :
    ∀ (l : List α) (s : ExtState), s.node_cache ⊆ (l.foldl f s).node_cache := by
  intro l
  induction l with
  | nil => intro s _ hi; exact hi
  | cons x xs ih => intro s i hi; exact ih (f s x) (hf s x hi)

/-- Pass A grows the node cache. -/
theorem build_graph_item_step_mono (krate : RCrate) (cn : String)
    (wm : List String) (mids : List RId) (st : ExtState)
    (entry : RId × RSummary) :
    st.node_cache ⊆ (build_graph_item_step krate cn wm mids st entry).node_cache := by
  have hens : ∀ (icn : String) (b : Bool), st.node_cache ⊆
      (ensure_module_nodes (ensure_crate_node st icn .Public b) icn
        entry.2.path b).node_cache :=
    fun icn b i hi =>
      ensure_module_nodes_mono _ _ _ _ (ensure_crate_node_mono st icn .Public b hi)
  simp only [build_graph_item_step]
  split
  · exact fun _ hi => hi
  split
  · exact fun _ hi => hi
  split
  · exact fun _ hi => hi
  intro i hi
  have h₃ : ∀ (icn : String) (b : Bool) (n : Node), i ∈
      (if join_path icn entry.2.path ∈
          (ensure_module_nodes (ensure_crate_node st icn .Public b) icn
            entry.2.path b).node_cache then
        ensure_module_nodes (ensure_crate_node st icn .Public b) icn entry.2.path b
       else ((ensure_module_nodes (ensure_crate_node st icn .Public b) icn
            entry.2.path b).add_node n).cache_node
          (join_path icn entry.2.path)).node_cache := by
    intro icn b n
    split
    · exact hens icn b hi
    · exact List.mem_cons_of_mem _ (hens icn b hi)
  split
  · exact h₃ _ _ _
  split
  · rw [push_edge_node_cache]
    exact h₃ _ _ _
  · exact h₃ _ _ _

/-- Pass A preserves the endpoint invariant. -/
theorem build_graph_item_step_ends (krate : RCrate) (cn : String)
    (wm : List String) (mids : List RId) (st : ExtState)
    (entry : RId × RSummary) (h : ends_inv st) :
    ends_inv (build_graph_item_step krate cn wm mids st entry) := by
  have hbase : ∀ (icn : String) (b : Bool),
      ends_inv (ensure_module_nodes (ensure_crate_node st icn .Public b) icn
        entry.2.path b) :=
    fun icn b =>
      ensure_module_nodes_ends _ _ _ _ (ensure_crate_node_caches st icn .Public b)
        (ensure_crate_node_ends st icn .Public b h)
  have hcrate : ∀ (icn : String) (b : Bool),
      icn ∈ (ensure_module_nodes (ensure_crate_node st icn .Public b) icn
        entry.2.path b).node_cache :=
    fun icn b =>
      ensure_module_nodes_mono _ _ _ _ (ensure_crate_node_caches st icn .Public b)
  simp only [build_graph_item_step]
  split
  · exact h
  split
  · exact h
  rename_i he
  split
  · exact h
  rename_i hint
  have hlen0 : entry.2.path ≠ [] := by
    intro hnil
    rw [hnil] at he
    simp at he
  have h₃ends : ∀ (icn : String) (b : Bool) (n : Node) (hn : n.id = join_path icn entry.2.path),
      ends_inv
      (if join_path icn entry.2.path ∈
          (ensure_module_nodes (ensure_crate_node st icn .Public b) icn
            entry.2.path b).node_cache then
        ensure_module_nodes (ensure_crate_node st icn .Public b) icn entry.2.path b
       else ((ensure_module_nodes (ensure_crate_node st icn .Public b) icn
            entry.2.path b).add_node n).cache_node
          (join_path icn entry.2.path)) := by
    intro icn b n hn
    split
    · exact hbase icn b
    · rw [← hn]
      exact add_cache_ends_inv _ n (hbase icn b)
  have h₃node : ∀ (icn : String) (b : Bool) (n : Node), join_path icn entry.2.path ∈
      (if join_path icn entry.2.path ∈
          (ensure_module_nodes (ensure_crate_node st icn .Public b) icn
            entry.2.path b).node_cache then
        ensure_module_nodes (ensure_crate_node st icn .Public b) icn entry.2.path b
       else ((ensure_module_nodes (ensure_crate_node st icn .Public b) icn
            entry.2.path b).add_node n).cache_node
          (join_path icn entry.2.path)).node_cache := by
    intro icn b n
    split
    · assumption
    · exact List.mem_cons_self _ _
  have h₃mono : ∀ (icn : String) (b : Bool) (n : Node) (x : String),
      x ∈ (ensure_module_nodes (ensure_crate_node st icn .Public b) icn
        entry.2.path b).node_cache →
      x ∈ (if join_path icn entry.2.path ∈
          (ensure_module_nodes (ensure_crate_node st icn .Public b) icn
            entry.2.path b).node_cache then
        ensure_module_nodes (ensure_crate_node st icn .Public b) icn entry.2.path b
       else ((ensure_module_nodes (ensure_crate_node st icn .Public b) icn
            entry.2.path b).add_node n).cache_node
          (join_path icn entry.2.path)).node_cache := by
    intro icn b n x hx
    split
    · exact hx
    · exact List.mem_cons_of_mem _ hx
  split
  · exact h₃ends _ _ _ rfl
  rename_i pid hpid
  have hpid' : pid = crate_name_for_id krate entry.2.crate_id cn
      ∨ (2 ≤ entry.2.path.length
        ∧ pid = join_path (crate_name_for_id krate entry.2.crate_id cn)
            entry.2.path.dropLast) := by
    simp only [parent_path_id] at hpid
    rw [if_neg (by simpa using hlen0)] at hpid
    by_cases hlen1 : entry.2.path.length = 1
    · rw [if_pos hlen1] at hpid
      cases hpid
      exact Or.inl rfl
    · rw [if_neg hlen1] at hpid
      cases hpid
      refine Or.inr ⟨?_, rfl⟩
      have : entry.2.path.length ≠ 0 := by
        intro h0
        exact hlen0 (List.length_eq_zero.1 h0)
      omega
  have hpidc : pid ∈
      (ensure_module_nodes (ensure_crate_node st
          (crate_name_for_id krate entry.2.crate_id cn) .Public
          (!(wm.contains (crate_name_for_id krate entry.2.crate_id cn))))
        (crate_name_for_id krate entry.2.crate_id cn) entry.2.path
        (!(wm.contains (crate_name_for_id krate entry.2.crate_id cn)))).node_cache := by
    rcases hpid' with hpid' | ⟨hlen2, hpid'⟩
    · rw [hpid']
      exact hcrate _ _
    · rw [hpid']
      exact ensure_module_nodes_caches_parent _ _ _ _ hlen2
  split
  · exact push_edge_ends_inv _ _ _ _ _ (h₃ends _ _ _ rfl)
      (h₃mono _ _ _ _ hpidc) (h₃node _ _ _)
  · exact h₃ends _ _ _ rfl

/-- Pass A caches the node ID of a well-formed entry. -/
theorem build_graph_item_step_caches (krate : RCrate) (cn : String)
    (wm : List String) (mids : List RId) (st : ExtState)
    (entry : RId × RSummary) (hne : entry.2.path ≠ [])
    (hint : is_internal_path entry.2.path = false)
    (hko : entry.2.kind ≠ RItemKind.Other) :
    join_path (crate_name_for_id krate entry.2.crate_id cn) entry.2.path
      ∈ (build_graph_item_step krate cn wm mids st entry).node_cache := by
  obtain ⟨nk, hnk⟩ := map_item_kind_ne_other entry.2.kind (entry.1 ∈ mids) hko
  have hie : entry.2.path.isEmpty = false := by
    cases hpath : entry.2.path with
    | nil => exact absurd hpath hne
    | cons a l => rfl
  simp only [build_graph_item_step, hnk, hie, hint, Bool.false_eq_true, if_false]
  have h₃node : ∀ (icn : String) (b : Bool) (n : Node), join_path icn entry.2.path ∈
      (if join_path icn entry.2.path ∈
          (ensure_module_nodes (ensure_crate_node st icn .Public b) icn
            entry.2.path b).node_cache then
        ensure_module_nodes (ensure_crate_node st icn .Public b) icn entry.2.path b
       else ((ensure_module_nodes (ensure_crate_node st icn .Public b) icn
            entry.2.path b).add_node n).cache_node
          (join_path icn entry.2.path)).node_cache := by
    intro icn b n
    split
    · assumption
    · exact List.mem_cons_self _ _
  split
  · exact h₃node _ _ _
  split
  · rw [push_edge_node_cache]
    exact h₃node _ _ _
  · exact h₃node _ _ _

/-- After Pass A every well-formed paths entry is cached. -/
theorem pass_a_caches (krate : RCrate) (cn : String) (wm : List String)
    (mids : List RId) :
    ∀ (ps : List (RId × RSummary)) (st : ExtState),
      (∀ e ∈ ps, e.2.path ≠ [] ∧ is_internal_path e.2.path = false
        ∧ e.2.kind ≠ RItemKind.Other) →
      ∀ e ∈ ps,
        join_path (crate_name_for_id krate e.2.crate_id cn) e.2.path
          ∈ (ps.foldl (build_graph_item_step krate cn wm mids) st).node_cache := by
  intro ps
  induction ps with
  | nil => intro st _ e he; exact absurd he (List.not_mem_nil e)
  | cons p rest ih =>
      intro st hwf e he
      rw [List.foldl_cons]
      rcases List.mem_cons.1 he with he' | he'
      · subst he'
        obtain ⟨h1, h2, h3⟩ := hwf e (List.mem_cons_self _ _)
        exact foldl_cache_mono _ (build_graph_item_step_mono krate cn wm mids) rest _
          (build_graph_item_step_caches krate cn wm mids st e h1 h2 h3)
      · exact ih _ (fun x hx => hwf x (List.mem_cons_of_mem _ hx)) e he'


/-- A fold preserves an invariant whose step preservation holds for list
members. -/
theorem foldl_inv_mem {α σ : Type} {Inv : σ → Prop} {f : σ → α → σ} :
    ∀ (l : List α), (∀ s a, a ∈ l → Inv s → Inv (f s a)) →
      ∀ s, Inv s → Inv (l.foldl f s) := by
  intro l
  induction l with
  | nil => intro _ s hs; exact hs
  | cons x xs ih =>
      intro h s hs
      exact ih (fun s' a ha => h s' a (List.mem_cons_of_mem _ ha)) _
        (h s x (List.mem_cons_self _ _) hs)

/-- `paths_cached` transfers along cache growth. -/
theorem paths_cached_mono (krate : RCrate) (cn : String) (st s : ExtState)
    (hp : paths_cached krate cn st) (hsub : st.node_cache ⊆ s.node_cache) :
    paths_cached krate cn s :=
  fun e he => hsub (hp e he)

/-- `tl_cached` transfers along cache growth. -/
theorem tl_cached_mono (tl : List (String × List String)) (st s : ExtState)
    (htl : tl_cached tl st) (hsub : st.node_cache ⊆ s.node_cache) :
    tl_cached tl s :=
  fun name ps hl p hp => hsub (htl name ps hl p hp)

/-- A singleton of a length-one list is its default head. -/
theorem headD_mem_of_length_one {α : Type} [Inhabited α] (l : List α)
    (h : l.length = 1) (d : α) : l.headD d ∈ l := by
  cases l with
  | nil => simp at h
  | cons x xs => exact List.mem_cons_self _ _

/-- The re-export pass preserves the endpoint invariant and the node cache. -/
theorem add_use_import_edges_ends (st : ExtState) (krate : RCrate) (cn : String)
    (pm : List (RId × RId)) (hp : paths_cached krate cn st) (h : ends_inv st) :
    ends_inv (add_use_import_edges_with_parent_map st krate cn pm)
    ∧ (add_use_import_edges_with_parent_map st krate cn pm).node_cache
        = st.node_cache := by
  unfold add_use_import_edges_with_parent_map
  refine @foldl_inv _ _ (fun (s : ExtState) =>
    ends_inv s ∧ s.node_cache = st.node_cache) _ ?_ _ _ ⟨h, rfl⟩
  intro s e hs
  split
  · split
    · exact hs
    · split
      · exact hs
      · split
        · exact hs
        · split
          · exact hs
          · rename_i x1 pnid hres1 x2 tnid hres2
            refine ⟨?_, ?_⟩
            · refine push_edge_ends_inv _ _ _ _ _ hs.1 ?_ ?_
              · rw [hs.2]
                exact resolve_id_cached krate cn st hp _ _ hres1
              · rw [hs.2]
                exact resolve_id_cached krate cn st hp _ _ hres2
            · rw [push_edge_node_cache]
              exact hs.2
  · exact hs

/-- `add_uses_edges` preserves the endpoint invariant and the node cache. -/
theorem add_uses_edges_ends (st : ExtState) (owner : String) (tids : List RId)
    (krate : RCrate) (cn : String) (hp : paths_cached krate cn st)
    (how : owner ∈ st.node_cache) (h : ends_inv st) :
    ends_inv (add_uses_edges st owner tids krate cn)
    ∧ (add_uses_edges st owner tids krate cn).node_cache = st.node_cache := by
  unfold add_uses_edges
  refine @foldl_inv _ _ (fun (s : ExtState) =>
    ends_inv s ∧ s.node_cache = st.node_cache) _ ?_ _ _ ⟨h, rfl⟩
  intro s tid hs
  split
  · exact hs
  · rename_i hres
    split
    · exact hs
    · refine ⟨?_, ?_⟩
      · refine push_edge_ends_inv _ _ _ _ _ hs.1 ?_ ?_
        · rw [hs.2]; exact how
        · rw [hs.2]; exact resolve_id_cached krate cn st hp _ _ hres
      · rw [push_edge_node_cache]
        exact hs.2

/-- `add_derives_edges` preserves the endpoint invariant and the node cache. -/
theorem add_derives_edges_ends (st : ExtState) (owner : String)
    (attrs : List String) (tl : List (String × List String))
    (htl : tl_cached tl st) (how : owner ∈ st.node_cache) (h : ends_inv st) :
    ends_inv (add_derives_edges st owner attrs tl)
    ∧ (add_derives_edges st owner attrs tl).node_cache = st.node_cache := by
  unfold add_derives_edges
  refine @foldl_inv _ _ (fun (s : ExtState) =>
    ends_inv s ∧ s.node_cache = st.node_cache) _ ?_ _ _ ⟨h, rfl⟩
  intro s tname hs
  split
  · split
    · rename_i ps hlook
      refine @foldl_inv_mem _ _ (fun (s' : ExtState) =>
        ends_inv s' ∧ s'.node_cache = st.node_cache) _ _ ?_ _ hs
      intro s' p hpmem hs'
      refine ⟨?_, ?_⟩
      · refine push_edge_ends_inv _ _ _ _ _ hs'.1 ?_ ?_
        · rw [hs'.2]; exact how
        · rw [hs'.2]; exact htl _ _ hlook p hpmem
      · rw [push_edge_node_cache]
        exact hs'.2
    · exact hs
  · split
    · rename_i ps hlook
      split
      · rename_i hlen
        refine ⟨?_, ?_⟩
        · refine push_edge_ends_inv _ _ _ _ _ hs.1 ?_ ?_
          · rw [hs.2]; exact how
          · rw [hs.2]; exact htl _ _ hlook _ (headD_mem_of_length_one ps hlen "")
        · rw [push_edge_node_cache]
          exact hs.2
      · exact hs
    · exact hs

/-- `trait_defines_edges` preserves the endpoint invariant and the node
cache. -/
theorem trait_defines_edges_ends (st : ExtState) (krate : RCrate) (cn : String)
    (owner : String) (items : List RId) (hp : paths_cached krate cn st)
    (how : owner ∈ st.node_cache) (h : ends_inv st) :
    ends_inv (trait_defines_edges krate cn owner items st)
    ∧ (trait_defines_edges krate cn owner items st).node_cache
        = st.node_cache := by
  unfold trait_defines_edges
  refine @foldl_inv _ _ (fun (s : ExtState) =>
    ends_inv s ∧ s.node_cache = st.node_cache) _ ?_ _ _ ⟨h, rfl⟩
  intro s aid hs
  split
  · rename_i hres
    refine ⟨?_, ?_⟩
    · refine push_edge_ends_inv _ _ _ _ _ hs.1 ?_ ?_
      · rw [hs.2]; exact how
      · rw [hs.2]; exact resolve_id_cached krate cn st hp _ _ hres
    · rw [push_edge_node_cache]
      exact hs.2
  · exact hs

/-- `impl_node_create` preserves the endpoint invariant. -/
theorem impl_node_create_ends (krate : RCrate) (cn : String) (b : Bool)
    (impl_id : String) (t : Option RPath) (f : RType) (item : RItem)
    (st : ExtState) (h : ends_inv st) :
    ends_inv (impl_node_create krate cn b impl_id t f item st) := by
  unfold impl_node_create
  split
  · exact h
  · exact add_cache_ends_inv st _ h

/-- `impl_node_create` grows the node cache. -/
theorem impl_node_create_mono (krate : RCrate) (cn : String) (b : Bool)
    (impl_id : String) (t : Option RPath) (f : RType) (item : RItem)
    (st : ExtState) :
    st.node_cache ⊆ (impl_node_create krate cn b impl_id t f item st).node_cache := by
  unfold impl_node_create
  split
  · exact fun _ hi => hi
  · exact fun _ hi => List.mem_cons_of_mem _ hi

/-- `impl_node_create` caches the impl ID. -/
theorem impl_node_create_caches (krate : RCrate) (cn : String) (b : Bool)
    (impl_id : String) (t : Option RPath) (f : RType) (item : RItem)
    (st : ExtState) :
    impl_id ∈ (impl_node_create krate cn b impl_id t f item st).node_cache := by
  unfold impl_node_create
  split
  · assumption
  · exact List.mem_cons_self _ _

/-- `impl_contains_edge` preserves the endpoint invariant and the node
cache. -/
theorem impl_contains_edge_ends (krate : RCrate) (cn : String)
    (pm : List (RId × RId)) (iid : RId) (impl_id : String) (st : ExtState)
    (hp : paths_cached krate cn st) (hi : impl_id ∈ st.node_cache)
    (h : ends_inv st) :
    ends_inv (impl_contains_edge krate cn pm iid impl_id st)
    ∧ (impl_contains_edge krate cn pm iid impl_id st).node_cache
        = st.node_cache := by
  unfold impl_contains_edge
  split
  · split
    · rename_i hres
      refine ⟨push_edge_ends_inv _ _ _ _ _ h
        (resolve_id_cached krate cn st hp _ _ hres) hi, ?_⟩
      rw [push_edge_node_cache]
    · exact ⟨h, rfl⟩
  · exact ⟨h, rfl⟩

/-- `impl_relation_edges` preserves the endpoint invariant and the node
cache. -/
theorem impl_relation_edges_ends (krate : RCrate) (cn : String)
    (t : Option RPath) (f : RType) (impl_id : String) (st : ExtState)
    (hp : paths_cached krate cn st) (hi : impl_id ∈ st.node_cache)
    (h : ends_inv st) :
    ends_inv (impl_relation_edges krate cn t f impl_id st)
    ∧ (impl_relation_edges krate cn t f impl_id st).node_cache
        = st.node_cache := by
  unfold impl_relation_edges
  split
  · split
    · rename_i hres
      have h1 : ends_inv (push_edge st _ impl_id .Defines .Static) :=
        push_edge_ends_inv _ _ _ _ _ h
          (resolve_id_cached krate cn st hp _ _ hres) hi
      split
      · split
        · rename_i hres2
          refine ⟨?_, ?_⟩
          · refine push_edge_ends_inv _ _ _ _ _ h1 ?_ ?_
            · rw [push_edge_node_cache]
              exact resolve_id_cached krate cn st hp _ _ hres
            · rw [push_edge_node_cache]
              exact resolve_id_cached krate cn st hp _ _ hres2
          · rw [push_edge_node_cache, push_edge_node_cache]
        · exact ⟨h1, by rw [push_edge_node_cache]⟩
      · exact ⟨h1, by rw [push_edge_node_cache]⟩
    · exact ⟨h, rfl⟩
  · exact ⟨h, rfl⟩

/-- The associated-item loop preserves the endpoint invariant, keeps the impl
ID cached and grows the node cache. -/
theorem impl_assoc_items_step_ends (krate : RCrate) (cn : String) (b : Bool)
    (impl_id : String) (st : ExtState) (aid : RId)
    (hi : impl_id ∈ st.node_cache) (h : ends_inv st) :
    ends_inv (impl_assoc_items_step krate cn b impl_id st aid)
    ∧ impl_id ∈ (impl_assoc_items_step krate cn b impl_id st aid).node_cache
    ∧ st.node_cache ⊆ (impl_assoc_items_step krate cn b impl_id st aid).node_cache := by
  unfold impl_assoc_items_step
  split
  · exact ⟨h, hi, fun _ hx => hx⟩
  · split
    · rename_i sig header
      have hguard : ∀ (n : Node) (hn : n.id = impl_id ++ "::method-" ++ toString aid),
          ends_inv (if impl_id ++ "::method-" ++ toString aid ∈ st.node_cache then st
            else (st.add_node n).cache_node (impl_id ++ "::method-" ++ toString aid))
          ∧ impl_id ∈ (if impl_id ++ "::method-" ++ toString aid ∈ st.node_cache then st
            else (st.add_node n).cache_node (impl_id ++ "::method-" ++ toString aid)).node_cache
          ∧ (impl_id ++ "::method-" ++ toString aid)
            ∈ (if impl_id ++ "::method-" ++ toString aid ∈ st.node_cache then st
            else (st.add_node n).cache_node (impl_id ++ "::method-" ++ toString aid)).node_cache
          ∧ st.node_cache ⊆ (if impl_id ++ "::method-" ++ toString aid ∈ st.node_cache then st
            else (st.add_node n).cache_node (impl_id ++ "::method-" ++ toString aid)).node_cache := by
        intro n hn
        refine ⟨?_, ?_, ?_, ?_⟩
        · split
          · exact h
          · rw [← hn]
            exact add_cache_ends_inv st n h
        · split
          · exact hi
          · exact List.mem_cons_of_mem _ hi
        · split
          · assumption
          · exact List.mem_cons_self _ _
        · split
          · exact fun _ hx => hx
          · exact fun _ hx => List.mem_cons_of_mem _ hx
      refine ⟨?_, ?_, ?_⟩
      · exact push_edge_ends_inv _ _ _ _ _ (hguard _ rfl).1 (hguard _ rfl).2.1
          (hguard _ rfl).2.2.1
      · rw [push_edge_node_cache]
        exact (hguard _ rfl).2.1
      · intro x hx
        rw [push_edge_node_cache]
        exact (hguard _ rfl).2.2.2 hx
    · exact ⟨h, hi, fun _ hx => hx⟩


/-- Values entering an association map through `assoc_push` keep a value
property. -/
theorem entries_values_assoc_push (Q : String → Prop)
    (m : List (String × List String)) (k v : String)
    (hm : ∀ p ∈ m, ∀ x ∈ p.2, Q x) (hv : Q v) :
    ∀ p ∈ assoc_push m k v, ∀ x ∈ p.2, Q x := by
  induction m with
  | nil =>
      intro p hp x hx
      simp only [assoc_push, List.mem_singleton] at hp
      subst hp
      simp only [List.mem_singleton] at hx
      subst hx
      exact hv
  | cons q rest ih =>
      obtain ⟨k₁, vs⟩ := q
      intro p hp x hx
      by_cases hk : k₁ = k
      · subst hk
        simp only [assoc_push, if_pos rfl] at hp
        rcases List.mem_cons.1 hp with hp | hp
        · subst hp
          rcases List.mem_append.1 hx with hx | hx
          · exact hm (k₁, vs) (List.mem_cons_self _ _) x hx
          · simp only [List.mem_singleton] at hx
            subst hx
            exact hv
        · exact hm p (List.mem_cons_of_mem _ hp) x hx
      · simp only [assoc_push, if_neg hk] at hp
        rcases List.mem_cons.1 hp with hp | hp
        · subst hp
          exact hm (k₁, vs) (List.mem_cons_self _ _) x hx
        · exact ih (fun q hq => hm q (List.mem_cons_of_mem _ hq)) p hp x hx

/-- Values entering an association map through `assoc_or_insert` keep a value
property. -/
theorem entries_values_assoc_or_insert (Q : String → Prop)
    (m : List (String × List String)) (k : String) (vlist : List String)
    (hm : ∀ p ∈ m, ∀ x ∈ p.2, Q x) (hv : ∀ x ∈ vlist, Q x) :
    ∀ p ∈ assoc_or_insert m k vlist, ∀ x ∈ p.2, Q x := by
  intro p hp x hx
  unfold assoc_or_insert at hp
  split at hp
  · exact hm p hp x hx
  · rcases List.mem_append.1 hp with hp | hp
    · exact hm p hp x hx
    · simp only [List.mem_singleton] at hp
      subst hp
      exact hv x hx

/-- Every value of the trait lookup is the node ID of some paths entry. -/
theorem build_trait_lookup_values (krate : RCrate) (cn : String) :
    ∀ p ∈ build_trait_lookup krate cn, ∀ x ∈ p.2,
      ∃ e ∈ krate.paths,
        x = join_path (crate_name_for_id krate e.2.crate_id cn) e.2.path := by
  unfold build_trait_lookup
  refine @foldl_inv_mem _ _ (fun (m : List (String × List String)) =>
    ∀ p ∈ m, ∀ x ∈ p.2,
    ∃ e ∈ krate.paths,
      x = join_path (crate_name_for_id krate e.2.crate_id cn) e.2.path) _ _ ?_ _ ?_
  · intro m entry hentry hm
    intro p hp x hx
    simp only [ne_eq] at hp
    split at hp
    · exact hm p hp x hx
    · have hq : ∃ e ∈ krate.paths,
          join_path (crate_name_for_id krate entry.2.crate_id cn) entry.2.path
            = join_path (crate_name_for_id krate e.2.crate_id cn) e.2.path :=
        ⟨entry, hentry, rfl⟩
      split at hp
      · exact entries_values_assoc_push _ _ _ _
          (entries_values_assoc_or_insert _ m _ _ hm
            (fun y hy => by
              simp only [List.mem_singleton] at hy
              subst hy
              exact hq))
          hq p hp x hx
      · exact entries_values_assoc_or_insert _ m _ _ hm
          (fun y hy => by
            simp only [List.mem_singleton] at hy
            subst hy
            exact hq) p hp x hx
  · intro p hp
    exact absurd hp (List.not_mem_nil p)

/-- Once every paths entry is cached, the trait-lookup values are cached. -/
theorem tl_cached_of_paths (krate : RCrate) (cn : String) (st : ExtState)
    (hp : paths_cached krate cn st) :
    tl_cached (build_trait_lookup krate cn) st := by
  intro name ps hl p hpmem
  obtain ⟨e, he, hx⟩ :=
    build_trait_lookup_values krate cn _ (lookup_mem _ _ _ hl) p hpmem
  rw [hx]
  exact hp e he

/-- The `add_uses_edges` / `add_derives_edges` tail of a Pass B arm preserves
the endpoint invariant and the node cache. -/
theorem uses_derives_ends (st' : ExtState) (owner : String) (tids : List RId)
    (krate : RCrate) (cn : String) (attrs : List String)
    (tl : List (String × List String)) (hp : paths_cached krate cn st')
    (htl : tl_cached tl st') (how : owner ∈ st'.node_cache) (h : ends_inv st') :
    ends_inv (add_derives_edges (add_uses_edges st' owner tids krate cn) owner attrs tl)
    ∧ (add_derives_edges (add_uses_edges st' owner tids krate cn) owner
        attrs tl).node_cache = st'.node_cache := by
  have hU := add_uses_edges_ends st' owner tids krate cn hp how h
  have hsub : st'.node_cache ⊆ (add_uses_edges st' owner tids krate cn).node_cache :=
    fun x hx => by rw [hU.2]; exact hx
  have hD := add_derives_edges_ends (add_uses_edges st' owner tids krate cn) owner attrs tl
    (tl_cached_mono tl st' _ htl hsub) (hsub how) hU.1
  exact ⟨hD.1, by rw [hD.2, hU.2]⟩

/-- The impl arm of Pass B preserves the endpoint invariant and grows the
node cache. -/
theorem impl_arm_ends (krate : RCrate) (cn : String) (wml : List String)
    (tl : List (String × List String)) (pm : List (RId × RId)) (st : ExtState)
    (item : RItem) (trait_ : Option RPath) (for_ : RType) (impl_items : List RId)
    (hp : paths_cached krate cn st) (htl : tl_cached tl st) (h : ends_inv st) :
    ends_inv (add_derives_edges (add_uses_edges (impl_items.foldl (impl_assoc_items_step krate cn (!(wml.contains (crate_name_for_id krate item.crate_id cn))) (impl_node_id (crate_name_for_id krate item.crate_id cn) item.id)) (impl_relation_edges krate cn trait_ for_ (impl_node_id (crate_name_for_id krate item.crate_id cn) item.id) (impl_contains_edge krate cn pm item.id (impl_node_id (crate_name_for_id krate item.crate_id cn) item.id) (impl_node_create krate cn (!(wml.contains (crate_name_for_id krate item.crate_id cn))) (impl_node_id (crate_name_for_id krate item.crate_id cn) item.id) trait_ for_ item (ensure_crate_node st (crate_name_for_id krate item.crate_id cn) .Public (!(wml.contains (crate_name_for_id krate item.crate_id cn)))))))) (impl_node_id (crate_name_for_id krate item.crate_id cn) item.id) (pass_b_type_ids krate item.inner) krate cn) (impl_node_id (crate_name_for_id krate item.crate_id cn) item.id) (format_attributes item.attrs) tl)
    ∧ st.node_cache ⊆ (add_derives_edges (add_uses_edges (impl_items.foldl (impl_assoc_items_step krate cn (!(wml.contains (crate_name_for_id krate item.crate_id cn))) (impl_node_id (crate_name_for_id krate item.crate_id cn) item.id)) (impl_relation_edges krate cn trait_ for_ (impl_node_id (crate_name_for_id krate item.crate_id cn) item.id) (impl_contains_edge krate cn pm item.id (impl_node_id (crate_name_for_id krate item.crate_id cn) item.id) (impl_node_create krate cn (!(wml.contains (crate_name_for_id krate item.crate_id cn))) (impl_node_id (crate_name_for_id krate item.crate_id cn) item.id) trait_ for_ item (ensure_crate_node st (crate_name_for_id krate item.crate_id cn) .Public (!(wml.contains (crate_name_for_id krate item.crate_id cn)))))))) (impl_node_id (crate_name_for_id krate item.crate_id cn) item.id) (pass_b_type_ids krate item.inner) krate cn) (impl_node_id (crate_name_for_id krate item.crate_id cn) item.id) (format_attributes item.attrs) tl).node_cache := by
  have hA : ends_inv (ensure_crate_node st (crate_name_for_id krate item.crate_id cn) .Public (!(wml.contains (crate_name_for_id krate item.crate_id cn)))) := ensure_crate_node_ends st _ _ _ h
  have hAm : st.node_cache ⊆ (ensure_crate_node st (crate_name_for_id krate item.crate_id cn) .Public (!(wml.contains (crate_name_for_id krate item.crate_id cn)))).node_cache := ensure_crate_node_mono st _ _ _
  have hB : ends_inv (impl_node_create krate cn (!(wml.contains (crate_name_for_id krate item.crate_id cn))) (impl_node_id (crate_name_for_id krate item.crate_id cn) item.id) trait_ for_ item (ensure_crate_node st (crate_name_for_id krate item.crate_id cn) .Public (!(wml.contains (crate_name_for_id krate item.crate_id cn))))) := impl_node_create_ends _ _ _ _ _ _ _ _ hA
  have hBm : st.node_cache ⊆ (impl_node_create krate cn (!(wml.contains (crate_name_for_id krate item.crate_id cn))) (impl_node_id (crate_name_for_id krate item.crate_id cn) item.id) trait_ for_ item (ensure_crate_node st (crate_name_for_id krate item.crate_id cn) .Public (!(wml.contains (crate_name_for_id krate item.crate_id cn))))).node_cache :=
    fun x hx => impl_node_create_mono _ _ _ _ _ _ _ _ (hAm hx)
  have hBi : (impl_node_id (crate_name_for_id krate item.crate_id cn) item.id) ∈ (impl_node_create krate cn (!(wml.contains (crate_name_for_id krate item.crate_id cn))) (impl_node_id (crate_name_for_id krate item.crate_id cn) item.id) trait_ for_ item (ensure_crate_node st (crate_name_for_id krate item.crate_id cn) .Public (!(wml.contains (crate_name_for_id krate item.crate_id cn))))).node_cache := impl_node_create_caches _ _ _ _ _ _ _ _
  have hC := impl_contains_edge_ends krate cn pm item.id (impl_node_id (crate_name_for_id krate item.crate_id cn) item.id) (impl_node_create krate cn (!(wml.contains (crate_name_for_id krate item.crate_id cn))) (impl_node_id (crate_name_for_id krate item.crate_id cn) item.id) trait_ for_ item (ensure_crate_node st (crate_name_for_id krate item.crate_id cn) .Public (!(wml.contains (crate_name_for_id krate item.crate_id cn)))))
    (paths_cached_mono krate cn st (impl_node_create krate cn (!(wml.contains (crate_name_for_id krate item.crate_id cn))) (impl_node_id (crate_name_for_id krate item.crate_id cn) item.id) trait_ for_ item (ensure_crate_node st (crate_name_for_id krate item.crate_id cn) .Public (!(wml.contains (crate_name_for_id krate item.crate_id cn))))) hp hBm) hBi hB
  have hCm : st.node_cache ⊆ (impl_contains_edge krate cn pm item.id (impl_node_id (crate_name_for_id krate item.crate_id cn) item.id) (impl_node_create krate cn (!(wml.contains (crate_name_for_id krate item.crate_id cn))) (impl_node_id (crate_name_for_id krate item.crate_id cn) item.id) trait_ for_ item (ensure_crate_node st (crate_name_for_id krate item.crate_id cn) .Public (!(wml.contains (crate_name_for_id krate item.crate_id cn)))))).node_cache := fun x hx => by
    rw [hC.2]; exact hBm hx
  have hCi : (impl_node_id (crate_name_for_id krate item.crate_id cn) item.id) ∈ (impl_contains_edge krate cn pm item.id (impl_node_id (crate_name_for_id krate item.crate_id cn) item.id) (impl_node_create krate cn (!(wml.contains (crate_name_for_id krate item.crate_id cn))) (impl_node_id (crate_name_for_id krate item.crate_id cn) item.id) trait_ for_ item (ensure_crate_node st (crate_name_for_id krate item.crate_id cn) .Public (!(wml.contains (crate_name_for_id krate item.crate_id cn)))))).node_cache := by rw [hC.2]; exact hBi
  have hD := impl_relation_edges_ends krate cn trait_ for_ (impl_node_id (crate_name_for_id krate item.crate_id cn) item.id) (impl_contains_edge krate cn pm item.id (impl_node_id (crate_name_for_id krate item.crate_id cn) item.id) (impl_node_create krate cn (!(wml.contains (crate_name_for_id krate item.crate_id cn))) (impl_node_id (crate_name_for_id krate item.crate_id cn) item.id) trait_ for_ item (ensure_crate_node st (crate_name_for_id krate item.crate_id cn) .Public (!(wml.contains (crate_name_for_id krate item.crate_id cn))))))
    (paths_cached_mono krate cn st (impl_contains_edge krate cn pm item.id (impl_node_id (crate_name_for_id krate item.crate_id cn) item.id) (impl_node_create krate cn (!(wml.contains (crate_name_for_id krate item.crate_id cn))) (impl_node_id (crate_name_for_id krate item.crate_id cn) item.id) trait_ for_ item (ensure_crate_node st (crate_name_for_id krate item.crate_id cn) .Public (!(wml.contains (crate_name_for_id krate item.crate_id cn)))))) hp hCm) hCi hC.1
  have hDm : st.node_cache ⊆ (impl_relation_edges krate cn trait_ for_ (impl_node_id (crate_name_for_id krate item.crate_id cn) item.id) (impl_contains_edge krate cn pm item.id (impl_node_id (crate_name_for_id krate item.crate_id cn) item.id) (impl_node_create krate cn (!(wml.contains (crate_name_for_id krate item.crate_id cn))) (impl_node_id (crate_name_for_id krate item.crate_id cn) item.id) trait_ for_ item (ensure_crate_node st (crate_name_for_id krate item.crate_id cn) .Public (!(wml.contains (crate_name_for_id krate item.crate_id cn))))))).node_cache := fun x hx => by
    rw [hD.2]; exact hCm hx
  have hDi : (impl_node_id (crate_name_for_id krate item.crate_id cn) item.id) ∈ (impl_relation_edges krate cn trait_ for_ (impl_node_id (crate_name_for_id krate item.crate_id cn) item.id) (impl_contains_edge krate cn pm item.id (impl_node_id (crate_name_for_id krate item.crate_id cn) item.id) (impl_node_create krate cn (!(wml.contains (crate_name_for_id krate item.crate_id cn))) (impl_node_id (crate_name_for_id krate item.crate_id cn) item.id) trait_ for_ item (ensure_crate_node st (crate_name_for_id krate item.crate_id cn) .Public (!(wml.contains (crate_name_for_id krate item.crate_id cn))))))).node_cache := by rw [hD.2]; exact hCi
  have hE : ends_inv (impl_items.foldl (impl_assoc_items_step krate cn (!(wml.contains (crate_name_for_id krate item.crate_id cn))) (impl_node_id (crate_name_for_id krate item.crate_id cn) item.id)) (impl_relation_edges krate cn trait_ for_ (impl_node_id (crate_name_for_id krate item.crate_id cn) item.id) (impl_contains_edge krate cn pm item.id (impl_node_id (crate_name_for_id krate item.crate_id cn) item.id) (impl_node_create krate cn (!(wml.contains (crate_name_for_id krate item.crate_id cn))) (impl_node_id (crate_name_for_id krate item.crate_id cn) item.id) trait_ for_ item (ensure_crate_node st (crate_name_for_id krate item.crate_id cn) .Public (!(wml.contains (crate_name_for_id krate item.crate_id cn)))))))) ∧ (impl_node_id (crate_name_for_id krate item.crate_id cn) item.id) ∈ (impl_items.foldl (impl_assoc_items_step krate cn (!(wml.contains (crate_name_for_id krate item.crate_id cn))) (impl_node_id (crate_name_for_id krate item.crate_id cn) item.id)) (impl_relation_edges krate cn trait_ for_ (impl_node_id (crate_name_for_id krate item.crate_id cn) item.id) (impl_contains_edge krate cn pm item.id (impl_node_id (crate_name_for_id krate item.crate_id cn) item.id) (impl_node_create krate cn (!(wml.contains (crate_name_for_id krate item.crate_id cn))) (impl_node_id (crate_name_for_id krate item.crate_id cn) item.id) trait_ for_ item (ensure_crate_node st (crate_name_for_id krate item.crate_id cn) .Public (!(wml.contains (crate_name_for_id krate item.crate_id cn)))))))).node_cache
      ∧ st.node_cache ⊆ (impl_items.foldl (impl_assoc_items_step krate cn (!(wml.contains (crate_name_for_id krate item.crate_id cn))) (impl_node_id (crate_name_for_id krate item.crate_id cn) item.id)) (impl_relation_edges krate cn trait_ for_ (impl_node_id (crate_name_for_id krate item.crate_id cn) item.id) (impl_contains_edge krate cn pm item.id (impl_node_id (crate_name_for_id krate item.crate_id cn) item.id) (impl_node_create krate cn (!(wml.contains (crate_name_for_id krate item.crate_id cn))) (impl_node_id (crate_name_for_id krate item.crate_id cn) item.id) trait_ for_ item (ensure_crate_node st (crate_name_for_id krate item.crate_id cn) .Public (!(wml.contains (crate_name_for_id krate item.crate_id cn)))))))).node_cache := by
    refine @foldl_inv _ _ (fun (s : ExtState) => ends_inv s ∧ (impl_node_id (crate_name_for_id krate item.crate_id cn) item.id) ∈ s.node_cache
      ∧ st.node_cache ⊆ s.node_cache) _ ?_ impl_items (impl_relation_edges krate cn trait_ for_ (impl_node_id (crate_name_for_id krate item.crate_id cn) item.id) (impl_contains_edge krate cn pm item.id (impl_node_id (crate_name_for_id krate item.crate_id cn) item.id) (impl_node_create krate cn (!(wml.contains (crate_name_for_id krate item.crate_id cn))) (impl_node_id (crate_name_for_id krate item.crate_id cn) item.id) trait_ for_ item (ensure_crate_node st (crate_name_for_id krate item.crate_id cn) .Public (!(wml.contains (crate_name_for_id krate item.crate_id cn))))))) ⟨hD.1, hDi, hDm⟩
    intro s aid hs
    have hstep := impl_assoc_items_step_ends krate cn (!(wml.contains (crate_name_for_id krate item.crate_id cn))) (impl_node_id (crate_name_for_id krate item.crate_id cn) item.id) s aid hs.2.1 hs.1
    exact ⟨hstep.1, hstep.2.1, fun x hx => hstep.2.2 (hs.2.2 hx)⟩
  have htail := uses_derives_ends (impl_items.foldl (impl_assoc_items_step krate cn (!(wml.contains (crate_name_for_id krate item.crate_id cn))) (impl_node_id (crate_name_for_id krate item.crate_id cn) item.id)) (impl_relation_edges krate cn trait_ for_ (impl_node_id (crate_name_for_id krate item.crate_id cn) item.id) (impl_contains_edge krate cn pm item.id (impl_node_id (crate_name_for_id krate item.crate_id cn) item.id) (impl_node_create krate cn (!(wml.contains (crate_name_for_id krate item.crate_id cn))) (impl_node_id (crate_name_for_id krate item.crate_id cn) item.id) trait_ for_ item (ensure_crate_node st (crate_name_for_id krate item.crate_id cn) .Public (!(wml.contains (crate_name_for_id krate item.crate_id cn)))))))) (impl_node_id (crate_name_for_id krate item.crate_id cn) item.id)
    (pass_b_type_ids krate item.inner) krate cn
    (format_attributes item.attrs) tl
    (paths_cached_mono krate cn st (impl_items.foldl (impl_assoc_items_step krate cn (!(wml.contains (crate_name_for_id krate item.crate_id cn))) (impl_node_id (crate_name_for_id krate item.crate_id cn) item.id)) (impl_relation_edges krate cn trait_ for_ (impl_node_id (crate_name_for_id krate item.crate_id cn) item.id) (impl_contains_edge krate cn pm item.id (impl_node_id (crate_name_for_id krate item.crate_id cn) item.id) (impl_node_create krate cn (!(wml.contains (crate_name_for_id krate item.crate_id cn))) (impl_node_id (crate_name_for_id krate item.crate_id cn) item.id) trait_ for_ item (ensure_crate_node st (crate_name_for_id krate item.crate_id cn) .Public (!(wml.contains (crate_name_for_id krate item.crate_id cn)))))))) hp hE.2.2)
    (tl_cached_mono tl st (impl_items.foldl (impl_assoc_items_step krate cn (!(wml.contains (crate_name_for_id krate item.crate_id cn))) (impl_node_id (crate_name_for_id krate item.crate_id cn) item.id)) (impl_relation_edges krate cn trait_ for_ (impl_node_id (crate_name_for_id krate item.crate_id cn) item.id) (impl_contains_edge krate cn pm item.id (impl_node_id (crate_name_for_id krate item.crate_id cn) item.id) (impl_node_create krate cn (!(wml.contains (crate_name_for_id krate item.crate_id cn))) (impl_node_id (crate_name_for_id krate item.crate_id cn) item.id) trait_ for_ item (ensure_crate_node st (crate_name_for_id krate item.crate_id cn) .Public (!(wml.contains (crate_name_for_id krate item.crate_id cn)))))))) htl hE.2.2) hE.2.1 hE.1
  exact ⟨htail.1, fun x hx => by rw [htail.2]; exact hE.2.2 hx⟩

/-- Pass B preserves the endpoint invariant and grows the node cache. -/
theorem build_graph_pass_b_step_ends (krate : RCrate) (cn : String)
    (wml : List String) (tl : List (String × List String)) (pm : List (RId × RId))
    (st : ExtState) (entry : RId × RItem) (hp : paths_cached krate cn st)
    (htl : tl_cached tl st) (h : ends_inv st) :
    ends_inv (build_graph_pass_b_step krate cn wml tl pm st entry)
    ∧ st.node_cache ⊆ (build_graph_pass_b_step krate cn wml tl pm st entry).node_cache := by
  simp only [build_graph_pass_b_step]
  split
  · rename_i x0 trait_ for_ impl_items hinner0
    exact impl_arm_ends krate cn wml tl pm st entry.2 trait_ for_ impl_items hp htl h
  · split
    · exact ⟨h, fun _ hx => hx⟩
    · rename_i x owner hres
      have how : owner ∈ st.node_cache := resolve_id_cached krate cn st hp _ _ hres
      split
      · rename_i x1 trait_items hinner1
        have hT := trait_defines_edges_ends st krate cn owner trait_items hp how h
        have hTsub : st.node_cache ⊆
            (trait_defines_edges krate cn owner trait_items st).node_cache :=
          fun x hx => by rw [hT.2]; exact hx
        have htail := uses_derives_ends
          (trait_defines_edges krate cn owner trait_items st) owner
          (pass_b_type_ids krate entry.2.inner) krate cn
          (format_attributes entry.2.attrs) tl
          (paths_cached_mono krate cn st _ hp hTsub)
          (tl_cached_mono tl st _ htl hTsub) (hTsub how) hT.1
        exact ⟨htail.1, fun x hx => by rw [htail.2, hT.2]; exact hx⟩
      · have htail := uses_derives_ends st owner
          (pass_b_type_ids krate entry.2.inner) krate cn
          (format_attributes entry.2.attrs) tl hp htl how h
        exact ⟨htail.1, fun x hx => by rw [htail.2]; exact hx⟩

/-- The description passes keep every edge endpoint among the node IDs. -/
theorem build_graph_state_ends (krate : RCrate) (cn : String)
    (wm : Option (List String)) (hwf : wf_paths krate) :
    ends_inv (build_graph_state krate cn wm) := by
  simp only [build_graph_state]
  have h0 : ends_inv (⟨Graph.new, [], []⟩ : ExtState) := by
    constructor
    · intro i hi
      simp at hi
    · intro e he
      simp [Graph.new] at he
  have h1 : ends_inv (ensure_crate_node ⟨Graph.new, [], []⟩ cn .Public
      (!((wm.getD [cn]).contains cn))) :=
    ensure_crate_node_ends _ _ _ _ h0
  have h2 : ends_inv (krate.paths.foldl
      (build_graph_item_step krate cn (wm.getD [cn]) (collect_method_ids krate))
      (ensure_crate_node ⟨Graph.new, [], []⟩ cn .Public
        (!((wm.getD [cn]).contains cn)))) :=
    foldl_inv (fun s a hs => build_graph_item_step_ends krate cn _ _ s a hs) _ _ h1
  have hp2 : paths_cached krate cn (krate.paths.foldl
      (build_graph_item_step krate cn (wm.getD [cn]) (collect_method_ids krate))
      (ensure_crate_node ⟨Graph.new, [], []⟩ cn .Public
        (!((wm.getD [cn]).contains cn)))) := by
    intro e he
    exact pass_a_caches krate cn _ _ krate.paths _
      (fun x hx => hwf x hx) e he
  have h3 := add_use_import_edges_ends
    (krate.paths.foldl
      (build_graph_item_step krate cn (wm.getD [cn]) (collect_method_ids krate))
      (ensure_crate_node ⟨Graph.new, [], []⟩ cn .Public
        (!((wm.getD [cn]).contains cn)))) krate cn (item_to_parent krate) hp2 h2
  have hsub3 : (krate.paths.foldl
      (build_graph_item_step krate cn (wm.getD [cn]) (collect_method_ids krate))
      (ensure_crate_node ⟨Graph.new, [], []⟩ cn .Public
        (!((wm.getD [cn]).contains cn)))).node_cache ⊆
      (add_use_import_edges_with_parent_map
        (krate.paths.foldl
          (build_graph_item_step krate cn (wm.getD [cn]) (collect_method_ids krate))
          (ensure_crate_node ⟨Graph.new, [], []⟩ cn .Public
            (!((wm.getD [cn]).contains cn)))) krate cn (item_to_parent krate)).node_cache :=
    fun x hx => by rw [h3.2]; exact hx
  have hp3 := paths_cached_mono krate cn _ _ hp2 hsub3
  have htl3 := tl_cached_of_paths krate cn _ hp3
  have h4 := @foldl_inv _ _ (fun (s : ExtState) => ends_inv s
      ∧ (add_use_import_edges_with_parent_map
        (krate.paths.foldl
          (build_graph_item_step krate cn (wm.getD [cn]) (collect_method_ids krate))
          (ensure_crate_node ⟨Graph.new, [], []⟩ cn .Public
            (!((wm.getD [cn]).contains cn)))) krate cn
          (item_to_parent krate)).node_cache ⊆ s.node_cache)
    _
    (fun s a hs => by
      have hstep := build_graph_pass_b_step_ends krate cn (wm.getD [cn])
        (build_trait_lookup krate cn) (item_to_parent krate) s a
        (paths_cached_mono krate cn _ _ hp3 hs.2)
        (tl_cached_mono _ _ _ htl3 hs.2) hs.1
      exact ⟨hstep.1, fun x hx => hstep.2 (hs.2 hx)⟩)
    krate.index _ ⟨h3.1, fun _ hx => hx⟩
  exact h4.1


/-- A workspace edge comes from the deduplicated merge. -/
theorem workspace_edge_mem_merged (graphs : List Graph) (ms : List String)
    (cv : List (String × String)) (e : Edge)
    (he : e ∈ workspace_all_edges (load_workspace_merge graphs ms cv)) :
    e ∈ merge_graph_edges graphs := by
  have hle := workspace_edges_le_merged graphs ms cv
  have h1 : e ∈ (↑(workspace_all_edges (load_workspace_merge graphs ms cv)) :
      Multiset Edge) := Multiset.mem_coe.2 he
  exact Multiset.mem_coe.1 (Multiset.mem_of_le hle h1)

/-- The edge-merge fold only takes edges from its inputs. -/
theorem merge_edge_foldl_mem (e : Edge) :
    ∀ (es : List Edge) (acc : List String × List Edge),
      e ∈ (es.foldl merge_edge_step acc).2 → e ∈ acc.2 ∨ e ∈ es := by
  intro es
  induction es with
  | nil => intro acc h; exact Or.inl h
  | cons e' rest ih =>
      intro acc h
      rcases ih (merge_edge_step acc e') h with h' | h'
      · unfold merge_edge_step at h'
        split at h'
        · exact Or.inl h'
        · rcases List.mem_append.1 h' with h'' | h''
          · exact Or.inl h''
          · simp only [List.mem_singleton] at h''
            subst h''
            exact Or.inr (List.mem_cons_self _ _)
      · exact Or.inr (List.mem_cons_of_mem _ h')

/-- A merged edge occurs in one of the input graphs. -/
theorem merged_edge_mem (graphs : List Graph) (e : Edge)
    (h : e ∈ merge_graph_edges graphs) : ∃ g ∈ graphs, e ∈ g.edges := by
  unfold merge_graph_edges at h
  suffices H : ∀ (gs : List Graph) (acc : List String × List Edge),
      e ∈ (gs.foldl (fun acc g => g.edges.foldl merge_edge_step acc) acc).2 →
      e ∈ acc.2 ∨ ∃ g ∈ gs, e ∈ g.edges by
    rcases H graphs ([], []) h with h' | h'
    · exact absurd h' (List.not_mem_nil e)
    · exact h'
  intro gs
  induction gs with
  | nil => intro acc h'; exact Or.inl h'
  | cons g₀ rest ih =>
      intro acc h'
      rcases ih _ h' with h'' | h''
      · rcases merge_edge_foldl_mem e g₀.edges acc h'' with h3 | h3
        · exact Or.inl h3
        · exact Or.inr ⟨g₀, List.mem_cons_self _ _, h3⟩
      · obtain ⟨g', hg', he'⟩ := h''
        exact Or.inr ⟨g', List.mem_cons_of_mem _ hg', he'⟩

/-- The node-merge insert keeps the incoming ID present. -/
theorem merge_node_insert_id_present (acc : List Node) (n : Node) :
    ∃ m ∈ merge_node_insert acc n, m.id = n.id := by
  unfold merge_node_insert
  split
  · rename_i hany
    have hex : ∃ m ∈ acc, m.id = n.id := by simpa using hany
    obtain ⟨m, hm, hid⟩ := hex
    refine ⟨if m.id = n.id then (if node_is_more_complete n m then n else m) else m,
      List.mem_map.2 ⟨m, hm, rfl⟩, ?_⟩
    rw [if_pos hid]
    split
    · rfl
    · exact hid
  · exact ⟨n, List.mem_append_right _ (List.mem_singleton.2 rfl), rfl⟩

/-- The node-merge insert keeps every present ID present. -/
theorem merge_node_insert_preserves (acc : List Node) (n : Node) (i : String)
    (h : ∃ m ∈ acc, m.id = i) : ∃ m ∈ merge_node_insert acc n, m.id = i := by
  obtain ⟨m, hm, hid⟩ := h
  unfold merge_node_insert
  split
  · refine ⟨if m.id = n.id then (if node_is_more_complete n m then n else m) else m,
      List.mem_map.2 ⟨m, hm, rfl⟩, ?_⟩
    by_cases hmn : m.id = n.id
    · rw [if_pos hmn]
      split
      · rw [← hmn, hid]
      · exact hid
    · rw [if_neg hmn]
      exact hid
  · exact ⟨m, List.mem_append_left _ hm, hid⟩

/-- A present ID survives a node-merge fold. -/
theorem merge_node_foldl_preserves (i : String) :
    ∀ (ns : List Node) (acc : List Node), (∃ m ∈ acc, m.id = i) →
      ∃ m ∈ ns.foldl merge_node_insert acc, m.id = i := by
  intro ns
  induction ns with
  | nil => intro acc h; exact h
  | cons n rest ih =>
      intro acc h
      exact ih _ (merge_node_insert_preserves acc n i h)

/-- A node fed to a node-merge fold leaves its ID present. -/
theorem merge_node_foldl_establish (n : Node) :
    ∀ (ns : List Node) (acc : List Node), n ∈ ns →
      ∃ m ∈ ns.foldl merge_node_insert acc, m.id = n.id := by
  intro ns
  induction ns with
  | nil => intro acc h; exact absurd h (List.not_mem_nil n)
  | cons n₀ rest ih =>
      intro acc h
      rw [List.foldl_cons]
      rcases List.mem_cons.1 h with h' | h'
      · subst h'
        exact merge_node_foldl_preserves _ rest _
          (merge_node_insert_id_present acc n)
      · exact ih _ h'

/-- Every input node's ID occurs among the merged node IDs. -/
theorem merged_nodes_id (graphs : List Graph) (g : Graph) (hg : g ∈ graphs)
    (n : Node) (hn : n ∈ g.nodes) :
    ∃ m ∈ merge_graph_nodes graphs, m.id = n.id := by
  unfold merge_graph_nodes
  suffices H : ∀ (gs : List Graph) (acc : List Node),
      ((∃ m ∈ acc, m.id = n.id) ∨ ∃ g' ∈ gs, n ∈ g'.nodes) →
      ∃ m ∈ gs.foldl (fun acc g => g.nodes.foldl merge_node_insert acc) acc,
        m.id = n.id by
    exact H graphs [] (Or.inr ⟨g, hg, hn⟩)
  intro gs
  induction gs with
  | nil =>
      intro acc h
      rcases h with h | h
      · exact h
      · obtain ⟨g', hg', _⟩ := h
        exact absurd hg' (List.not_mem_nil g')
  | cons g₀ rest ih =>
      intro acc h
      apply ih
      rcases h with h | h
      · exact Or.inl (merge_node_foldl_preserves _ g₀.nodes acc h)
      · obtain ⟨g', hg', hn'⟩ := h
        rcases List.mem_cons.1 hg' with hgg | hgg
        · subst hgg
          exact Or.inl (merge_node_foldl_establish n g'.nodes acc hn')
        · exact Or.inr ⟨g', hgg, hn'⟩

/-- The node grouping only grows the crate buckets. -/
theorem group_foldl_bucket_mono (ns : List Node) :
    ∀ (m : List (String × List Node)) (c : String) (n : Node),
      n ∈ assoc_get m c →
      n ∈ assoc_get
        (ns.foldl (fun m n' => assoc_push m (node_crate n'.id) n') m) c := by
  induction ns with
  | nil => intro m c n h; exact h
  | cons n₀ rest ih =>
      intro m c n h
      rw [List.foldl_cons]
      refine ih _ c n ?_
      rw [assoc_get_push]
      split
      · exact List.mem_append_left _ h
      · exact h

/-- Every node lands in its crate bucket of the grouping. -/
theorem group_bucket_mem (ns : List Node) (n : Node) (hn : n ∈ ns) :
    ∀ m : List (String × List Node),
      n ∈ assoc_get
        (ns.foldl (fun m n' => assoc_push m (node_crate n'.id) n') m)
        (node_crate n.id) := by
  induction ns with
  | nil => exact absurd hn (List.not_mem_nil n)
  | cons n₀ rest ih =>
      intro m
      rw [List.foldl_cons]
      rcases List.mem_cons.1 hn with hn' | hn'
      · subst hn'
        refine group_foldl_bucket_mono rest _ _ n ?_
        rw [assoc_get_push, if_pos rfl]
        exact List.mem_append_right _ (List.mem_singleton.2 rfl)
      · exact ih hn' _

/-- A node in a member's bucket ends up in that member's crate graph. -/
theorem member_foldl_nodes_bucket (cv : List (String × String)) (ms : List String)
    (m : String) (n : Node) :
    ∀ acc : List CrateGraph × List (String × List Node) × List (String × List Edge),
      m ∈ ms → n ∈ assoc_get acc.2.1 m →
      ∃ cg ∈ (ms.foldl (member_step cv) acc).1, n ∈ cg.nodes := by
  induction ms with
  | nil => intro acc hm _; exact absurd hm (List.not_mem_nil m)
  | cons m' rest ih =>
      intro acc hm hn
      rw [List.foldl_cons]
      by_cases h : m' = m
      · subst h
        refine ⟨⟨m', m', ((cv.lookup m').getD "0.0.0"),
            (assoc_remove acc.2.1 m').1, (assoc_remove acc.2.2 m').1⟩,
          member_foldl_crates_mono cv rest _ _ ?_, ?_⟩
        · simp [member_step]
        · show n ∈ (assoc_remove acc.2.1 m').1
          rw [assoc_remove_fst]
          exact hn
      · rcases List.mem_cons.1 hm with hm' | hm'
        · exact absurd hm'.symm h
        · refine ih _ hm' ?_
          show n ∈ assoc_get (member_step cv acc m').2.1 m
          simp only [member_step]
          rw [assoc_get_remove_ne _ _ _ (fun hh : m = m' => h hh.symm)]
          exact hn

/-- The member loop leaves non-member node buckets unchanged. -/
theorem member_foldl_nodes_get_ne (cv : List (String × String)) (ms : List String)
    (m : String) (hm : m ∉ ms) :
    ∀ acc : List CrateGraph × List (String × List Node) × List (String × List Edge),
      assoc_get (ms.foldl (member_step cv) acc).2.1 m = assoc_get acc.2.1 m := by
  induction ms with
  | nil => intro acc; rfl
  | cons m' rest ih =>
      intro acc
      rw [List.foldl_cons]
      have hm' : m ∉ rest := fun h => hm (List.mem_cons_of_mem _ h)
      rw [ih hm' _]
      show assoc_get (member_step cv acc m').2.1 m = _
      simp only [member_step]
      exact assoc_get_remove_ne _ _ _
        (fun hh : m = m' => hm (hh ▸ List.mem_cons_self _ _))

/-- A non-empty bucket's key occurs among the map keys. -/
theorem assoc_get_mem_key {α : Type} (t : List (String × List α)) (m : String)
    (x : α) (h : x ∈ assoc_get t m) : m ∈ t.map Prod.fst := by
  induction t with
  | nil => exact absurd h (List.not_mem_nil x)
  | cons p rest ih =>
      obtain ⟨k₁, vs⟩ := p
      by_cases hk : k₁ = m
      · subst hk
        simp
      · simp only [assoc_get, if_neg hk] at h
        exact List.mem_cons_of_mem _ (ih h)

/-- The external-crates loop only grows the stub list. -/
theorem ext_foldl_crates_mono (names : List String) :
    ∀ (acc : List ExternalCrate × List (String × List Node) × List (String × List Edge))
      (ec : ExternalCrate), ec ∈ acc.1 → ec ∈ (names.foldl ext_step acc).1 := by
  induction names with
  | nil => intro acc ec h; exact h
  | cons m rest ih =>
      intro acc ec h
      rw [List.foldl_cons]
      exact ih _ ec (List.mem_append_left _ h)

/-- A node in a remaining bucket ends up in that crate's external stub. -/
theorem ext_foldl_bucket (names : List String) (m : String) (n : Node) :
    ∀ acc : List ExternalCrate × List (String × List Node) × List (String × List Edge),
      m ∈ names → n ∈ assoc_get acc.2.1 m →
      ∃ ec ∈ (names.foldl ext_step acc).1, n ∈ ec.nodes := by
  induction names with
  | nil => intro acc hm _; exact absurd hm (List.not_mem_nil m)
  | cons m' rest ih =>
      intro acc hm hn
      rw [List.foldl_cons]
      by_cases h : m' = m
      · subst h
        refine ⟨⟨m', m', (assoc_remove acc.2.1 m').1⟩,
          ext_foldl_crates_mono rest _ _ ?_, ?_⟩
        · simp [ext_step]
        · show n ∈ (assoc_remove acc.2.1 m').1
          rw [assoc_remove_fst]
          exact hn
      · rcases List.mem_cons.1 hm with hm' | hm'
        · exact absurd hm'.symm h
        · refine ih _ hm' ?_
          show n ∈ assoc_get (ext_step acc m').2.1 m
          simp only [ext_step]
          rw [assoc_get_remove_ne _ _ _ (fun hh : m = m' => h hh.symm)]
          exact hn

/-- Every merged node's ID occurs among the workspace node IDs. -/
theorem workspace_node_of_merged (graphs : List Graph) (ms : List String)
    (cv : List (String × String)) (n : Node)
    (hn : n ∈ merge_graph_nodes graphs) :
    n.id ∈ workspace_node_ids (load_workspace_merge graphs ms cv) := by
  simp only [load_workspace_merge, workspace_node_ids]
  have hbucket : n ∈ assoc_get
      (group_nodes_by_crate (merge_graph_nodes graphs)) (node_crate n.id) := by
    unfold group_nodes_by_crate
    exact group_bucket_mem _ n hn []
  by_cases hm : node_crate n.id ∈ ms
  · obtain ⟨cg, hcg, hncg⟩ := member_foldl_nodes_bucket cv ms _ n
      ([], group_nodes_by_crate (merge_graph_nodes graphs),
        (partition_edges (merge_graph_edges graphs)).1) hm hbucket
    refine List.mem_map.2 ⟨n, List.mem_append_left _ ?_, rfl⟩
    exact List.mem_flatten.2 ⟨cg.nodes,
      List.mem_map.2 ⟨cg, (sort_le_mem _ _ _).2 hcg, rfl⟩, hncg⟩
  · have hget := member_foldl_nodes_get_ne cv ms _ hm
      ([], group_nodes_by_crate (merge_graph_nodes graphs),
        (partition_edges (merge_graph_edges graphs)).1)
    have hbucket' : n ∈ assoc_get
        (ms.foldl (member_step cv)
          ([], group_nodes_by_crate (merge_graph_nodes graphs),
            (partition_edges (merge_graph_edges graphs)).1)).2.1
        (node_crate n.id) := by
      rw [hget]
      exact hbucket
    have hname : node_crate n.id ∈ sort_le str_le
        ((ms.foldl (member_step cv)
          ([], group_nodes_by_crate (merge_graph_nodes graphs),
            (partition_edges (merge_graph_edges graphs)).1)).2.1.map Prod.fst) :=
      (sort_le_mem _ _ _).2 (assoc_get_mem_key _ _ _ hbucket')
    obtain ⟨ec, hec, hnec⟩ := ext_foldl_bucket
      (sort_le str_le
        ((ms.foldl (member_step cv)
          ([], group_nodes_by_crate (merge_graph_nodes graphs),
            (partition_edges (merge_graph_edges graphs)).1)).2.1.map Prod.fst))
      (node_crate n.id) n
      ([], (ms.foldl (member_step cv)
          ([], group_nodes_by_crate (merge_graph_nodes graphs),
            (partition_edges (merge_graph_edges graphs)).1)).2.1,
        (ms.foldl (member_step cv)
          ([], group_nodes_by_crate (merge_graph_nodes graphs),
            (partition_edges (merge_graph_edges graphs)).1)).2.2)
      hname hbucket'
    refine List.mem_map.2 ⟨n, List.mem_append_right _ ?_, rfl⟩
    exact List.mem_flatten.2 ⟨ec.nodes, List.mem_map.2 ⟨ec, hec, rfl⟩, hnec⟩

/-- Workspace edges keep their endpoints among the workspace node IDs when
every input graph satisfies the endpoint property. -/
theorem workspace_endpoints (graphs : List Graph) (ms : List String)
    (cv : List (String × String)) (hg : ∀ g ∈ graphs, endpoints_ok g) (e : Edge)
    (he : e ∈ workspace_all_edges (load_workspace_merge graphs ms cv)) :
    e.from_ ∈ workspace_node_ids (load_workspace_merge graphs ms cv)
    ∧ e.to_ ∈ workspace_node_ids (load_workspace_merge graphs ms cv) := by
  obtain ⟨g, hgm, heg⟩ :=
    merged_edge_mem graphs e (workspace_edge_mem_merged graphs ms cv e he)
  have hends := hg g hgm e heg
  constructor
  · obtain ⟨nf, hnf, hid⟩ := List.mem_map.1 hends.1
    obtain ⟨m, hmm, hmid⟩ := merged_nodes_id graphs g hgm nf hnf
    have hw := workspace_node_of_merged graphs ms cv m hmm
    rw [hmid, hid] at hw
    exact hw
  · obtain ⟨nt, hnt, hid⟩ := List.mem_map.1 hends.2
    obtain ⟨m, hmm, hmid⟩ := merged_nodes_id graphs g hgm nt hnt
    have hw := workspace_node_of_merged graphs ms cv m hmm
    rw [hmid, hid] at hw
    exact hw


/-- Counterexample to C3: on the dangling-reference description, `build_graph`
emits an edge whose target ID names no node of the same graph. -/
theorem c3_counterexample :
    ∃ e ∈ (build_graph dangling_krate "pkg" none).edges,
      e.to_ ∉ node_ids (build_graph dangling_krate "pkg" none) := by
  decide

/-- C3 amended: the endpoint property holds for `build_graph` under the
well-formedness assumption that every `paths` entry is non-empty,
non-internal and of mappable kind (`resolve_id` carries no internal-path
filter, so without it a dangling edge is emitted — counterexample above); for
the merged workspace it holds whenever every input graph satisfies it. -/
theorem c3_amended (krate : RCrate) (cn : String) (wm : Option (List String))
    (hwf : wf_paths krate) (graphs : List Graph) (ms : List String)
    (cv : List (String × String)) (hg : ∀ g ∈ graphs, endpoints_ok g) :
    endpoints_ok (build_graph krate cn wm)
    ∧ ∀ e ∈ workspace_all_edges (load_workspace_merge graphs ms cv),
        e.from_ ∈ workspace_node_ids (load_workspace_merge graphs ms cv)
        ∧ e.to_ ∈ workspace_node_ids (load_workspace_merge graphs ms cv) := by
  constructor
  · exact (build_graph_state_ends krate cn wm hwf).2
  · intro e he
    exact workspace_endpoints graphs ms cv hg e he

/-- Witness for C3 amended at the self-re-export description (well-formed
paths table) and a one-graph workspace with both endpoints present. -/
theorem c3_amended_witness :
    wf_paths reexport_krate
    ∧ (∀ g ∈ c3_graphs, endpoints_ok g)
    ∧ (endpoints_ok (build_graph reexport_krate "pkg" none)
      ∧ ∀ e ∈ workspace_all_edges (load_workspace_merge c3_graphs ["a"] []),
          e.from_ ∈ workspace_node_ids (load_workspace_merge c3_graphs ["a"] [])
          ∧ e.to_ ∈ workspace_node_ids (load_workspace_merge c3_graphs ["a"] [])) :=
  ⟨by unfold wf_paths; decide, by unfold endpoints_ok; decide,
    c3_amended reexport_krate "pkg" none (by unfold wf_paths; decide)
      c3_graphs ["a"] [] (by unfold endpoints_ok; decide)⟩


end Codeview
